import Mathlib

/-!
# Fuel queue lifecycle of the Madeya apps

A shallow embedding of the queue logic that lives in these screens:

* `Madeya Station/app/(tabs)/index.jsx`: `performAction`, `updateQueuePositions`,
  `loadQueues`, `loadStats`, `handleCarAction`, `renderQueueItem`, the action modal
* `madeya/app/screens/google/map.jsx`: `fetchQueues`, `handleConfirmQueue`
* `madeya/app/(tabs)/history.jsx`: `fetchMyQueues`, `renderQueueItem`, `handleLeaveQueue`
* `madeya/app/screens/Login/Login.jsx`: `handleLogin`

The remote table `fuel_queue` is a list of rows; every handler is a function
from the table before the call to the table after it together with the alert
it shows.  A handler runs to completion with nothing interleaved.  Store calls
may be rejected; which ones is given by a `Faults` record.
-/

namespace Madeya

/-! ## Data model -/

/-- Values of the `status` column. -/
inductive Status
  | pending
  | serving
  | completed
  | cancelled
  deriving DecidableEq, Repr

/-- A finite decimal `(-1)^neg * mant * 10^exp10`, the JSON form of a finite number. -/
structure Decimal where
  neg : Bool
  mant : Nat
  exp10 : Int
  deriving DecidableEq, Repr

/-- A JavaScript number as far as the handlers look at it: `NaN`, an infinity,
or a finite value.  A finite value is kept as the decimal it was read from;
zero is `mant = 0`. -/
inductive JSNumber
  | nan
  | inf (neg : Bool)
  | fin (d : Decimal)
  deriving DecidableEq, Repr

/-- One row of `fuel_queue`. A `null` column is `none`. -/
structure QueueEntry where
  id : Nat
  car_user_id : Nat
  station_user_id : Nat
  fuel_type : String
  requested_amount : Option Decimal
  served_amount : Option Decimal
  status : Status
  queue_position : Int
  created_at : Nat
  started_at : Option Nat
  completed_at : Option Nat
  deriving DecidableEq, Repr

/-- The action strings `performAction` switches on; the dashboard passes no other. -/
inductive Action
  | start
  | complete
  | cancel
  | skip
  deriving DecidableEq, Repr

/-- The action string as it is spliced into the success message. -/
def Action.toString : Action → String
  | .start => "start"
  | .complete => "complete"
  | .cancel => "cancel"
  | .skip => "skip"

/-- The two arguments of `Alert.alert(title, message)`. -/
structure Alert where
  title : String
  message : String
  deriving DecidableEq, Repr

/-- Which store calls of one handler run are rejected, and the message the
store attaches to a rejection.  `position i` is the write of loop index `i` in
`updateQueuePositions`. -/
structure Faults where
  insert : Bool
  update : Bool
  delete : Bool
  select : Bool
  position : Nat → Bool
  message : String

/-- Every store call succeeds. -/
def noFaults : Faults :=
  ⟨false, false, false, false, fun _ => false, ""⟩

/-! ## `parseFloat` and the tests applied to its result -/

/-- The characters `parseFloat` strips from the front (white space and line terminators). -/
def isStrWhiteSpaceChar (c : Char) : Bool :=
  let n := c.toNat
  n == 0x09 || n == 0x0A || n == 0x0B || n == 0x0C || n == 0x0D || n == 0x20 ||
  n == 0xA0 || n == 0x1680 || (0x2000 ≤ n && n ≤ 0x200A) || n == 0x2028 ||
  n == 0x2029 || n == 0x202F || n == 0x205F || n == 0x3000 || n == 0xFEFF

/-- Drop leading white space. -/
def trimLeadingWhiteSpace : List Char → List Char
  | [] => []
  | c :: cs => if isStrWhiteSpaceChar c then trimLeadingWhiteSpace cs else c :: cs

/-- The value of a decimal digit. -/
def digitValue (c : Char) : Option Nat :=
  if 48 ≤ c.toNat ∧ c.toNat ≤ 57 then some (c.toNat - 48) else none

/-- Read the longest run of decimal digits: the value accumulated onto `acc`,
the number of digits read added to `n`, and the rest of the input. -/
def takeDigits : List Char → Nat → Nat → Nat × Nat × List Char
  | [], acc, n => (acc, n, [])
  | c :: cs, acc, n =>
    match digitValue c with
    | some d => takeDigits cs (acc * 10 + d) (n + 1)
    | none => (acc, n, c :: cs)

/-- The value of an `ExponentPart` at the front of the input, `0` when there is none. -/
def parseExponentPart : List Char → Int
  | [] => 0
  | c :: rest =>
    if c = 'e' ∨ c = 'E' then
      match rest with
      | [] => 0
      | s :: r =>
        if s = '-' then
          (match takeDigits r 0 0 with
           | (v, n, _) => if n = 0 then 0 else -(v : Int))
        else if s = '+' then
          (match takeDigits r 0 0 with
           | (v, n, _) => if n = 0 then 0 else (v : Int))
        else
          (match takeDigits rest 0 0 with
           | (v, n, _) => if n = 0 then 0 else (v : Int))
    else 0

/-- The number `2^1075`: a positive value of at most `2^-1075` rounds to zero. -/
def twoPow1075 : Nat :=
  404804506614621236704990693437834614099113299528284236713802716054860679135990693783920767402874248990374155728633623822779617474771586953734026799881477019843034848553132722728933815484186432682479535356945490137124014966849385397236206711298319112681620113024717539104666829230461005064372655017292012526615415482186989568

/-- The number `2^1024 - 2^970`: a value of at least this much rounds to infinity. -/
def overflowThreshold : Nat :=
  179769313486231580793728971405303415079934132710037826936173778980444968292764750946649017977587207096330286416692887910946555547851940402630657488671505820681908902000708383676273854845817711531764475730270069855571366959622842914819860834936475292719074168444365510704342711559699508093042880177904174497792

/-- The positive value `mant * 10^exp10` is at most `2^-1075` and rounds to zero. -/
def underflows (mant : Nat) (exp10 : Int) : Bool :=
  decide (exp10 < 0) && decide (mant * twoPow1075 ≤ 10 ^ exp10.natAbs)

/-- The value `mant * 10^exp10` is at least `2^1024 - 2^970` and rounds to infinity. -/
def overflows (mant : Nat) (exp10 : Int) : Bool :=
  if exp10 < 0 then decide (overflowThreshold * 10 ^ exp10.natAbs ≤ mant)
  else decide (overflowThreshold ≤ mant * 10 ^ exp10.natAbs)

/-- The characters of `Infinity`. -/
def infinityChars : List Char := ['I', 'n', 'f', 'i', 'n', 'i', 't', 'y']

/-- JavaScript `parseFloat` on the characters of a string: leading white space
is dropped, the longest prefix that is a decimal literal is read, and `NaN` is
returned when there is none.  Rounding to a double is followed only where it
changes the class of the value (to zero or to an infinity). -/
def parseFloatChars (cs : List Char) : JSNumber :=
  let t := trimLeadingWhiteSpace cs
  let signed : Bool × List Char :=
    match t with
    | [] => (false, [])
    | c :: r => if c = '-' then (true, r) else if c = '+' then (false, r) else (false, c :: r)
  let neg := signed.1
  let u := signed.2
  if infinityChars.isPrefixOf u then JSNumber.inf neg
  else
    match takeDigits u 0 0 with
    | (ip, n1, r1) =>
      let frac : Nat × Nat × List Char :=
        match r1 with
        | [] => (ip, 0, [])
        | c :: r => if c = '.' then takeDigits r ip 0 else (ip, 0, c :: r)
      let m := frac.1
      let n2 := frac.2.1
      let r2 := frac.2.2
      if n1 + n2 = 0 then JSNumber.nan
      else
        let e := parseExponentPart r2 - (n2 : Int)
        if m = 0 ∨ underflows m e = true then JSNumber.fin ⟨neg, 0, 0⟩
        else if overflows m e = true then JSNumber.inf neg
        else JSNumber.fin ⟨neg, m, e⟩

/-- JavaScript `parseFloat`. -/
def parseFloat (s : String) : JSNumber :=
  parseFloatChars s.data

/-- The comparison `x <= 0` on a JavaScript number; it is false on `NaN`. -/
def JSNumber.leZero : JSNumber → Bool
  | .nan => false
  | .inf neg => neg
  | .fin d => d.neg || d.mant == 0

/-- The value a number takes in a JSON request body: `NaN` and the infinities become `null`. -/
def JSNumber.toJson : JSNumber → Option Decimal
  | .fin d => some d
  | _ => none

/-- The test `!s || parseFloat(s) <= 0` that both amount forms apply. -/
def amountRejected (s : String) : Bool :=
  s.data.isEmpty || (parseFloat s).leZero

/-! ## Store calls on `fuel_queue` -/

/-- The object passed to `.update(...)`: a key that is absent is `none`. -/
structure Updates where
  status : Option Status
  served_amount : Option (Option Decimal)
  started_at : Option Nat
  completed_at : Option Nat
  queue_position : Option Int

/-- The patch `updates = {}` that `performAction` starts from. -/
def Updates.empty : Updates :=
  ⟨none, none, none, none, none⟩

/-- A row after the keys of a patch are written into it. -/
def Updates.apply (u : Updates) (r : QueueEntry) : QueueEntry :=
  { r with
    status := u.status.getD r.status
    served_amount := u.served_amount.getD r.served_amount
    started_at := (u.started_at.map some).getD r.started_at
    completed_at := (u.completed_at.map some).getD r.completed_at
    queue_position := u.queue_position.getD r.queue_position }

/-- The call `.update(u).eq('id', id)` when the store accepts it: every row with that id is patched. -/
def updateById (u : Updates) (id : Nat) (db : List QueueEntry) : List QueueEntry :=
  db.map (fun r => if r.id = id then u.apply r else r)

/-- The call `.delete().eq('id', id)` when the store accepts it. -/
def deleteById (id : Nat) (db : List QueueEntry) : List QueueEntry :=
  db.filter (fun r => r.id != id)

/-- The id the store gives the next inserted row: one more than every id in the table. -/
def nextId (db : List QueueEntry) : Nat :=
  (db.map (fun r => r.id)).foldr max 0 + 1

/-- The order `.order('queue_position', { ascending: true })` compares rows by. -/
def positionLe (a b : QueueEntry) : Prop :=
  a.queue_position ≤ b.queue_position

instance positionLe.decidable : DecidableRel positionLe :=
  fun a b => inferInstanceAs (Decidable (a.queue_position ≤ b.queue_position))

/-- Rows in ascending `queue_position`; rows with equal positions keep the
order the table has them in. -/
def orderByQueuePosition (rows : List QueueEntry) : List QueueEntry :=
  rows.insertionSort positionLe

/-- The filter `.eq('station_user_id', stationId).eq('status', 'pending')`. -/
def pendingAt (stationId : Nat) (db : List QueueEntry) : List QueueEntry :=
  db.filter (fun r => r.station_user_id == stationId && r.status == Status.pending)

/-! ## Station dashboard: `updateQueuePositions` and `performAction` -/

/-- The select of `updateQueuePositions`: the ids of the station's pending
rows in ascending `queue_position`. -/
def selectPendingCars (stationId : Nat) (db : List QueueEntry) : List Nat :=
  (orderByQueuePosition (pendingAt stationId db)).map (fun r => r.id)

/-- The patch `{ queue_position: i + 1 }`. -/
def positionPatch (i : Nat) : Updates :=
  { Updates.empty with queue_position := some ((i : Int) + 1) }

/-- The `for` loop of `updateQueuePositions` from index `i` on, over the ids
still to visit.  The result of each write is not looked at, so a rejected
write is skipped and the loop goes on. -/
def positionLoop (f : Faults) : List Nat → Nat → List QueueEntry → List QueueEntry
  | [], _, db => db
  | id :: rest, i, db =>
    positionLoop f rest (i + 1) (if f.position i then db else updateById (positionPatch i) id db)

/-- The function `updateQueuePositions(stationId)`; a rejected select yields `data = null`
and the loop is not entered. -/
def updateQueuePositions (f : Faults) (stationId : Nat) (db : List QueueEntry) : List QueueEntry :=
  if f.select then db else positionLoop f (selectPendingCars stationId db) 0 db

/-- What a handler leaves behind: the table and the alert it showed, if any. -/
structure Outcome where
  db : List QueueEntry
  alert : Option Alert

/-- The `switch (action)` of `performAction`: the patch to write, or the message of the
error thrown. `servedAmount` is the text of the amount field. -/
def actionUpdates (now : Nat) (servedAmount : String) : Action → Except String Updates
  | .start => .ok { Updates.empty with status := some Status.serving, started_at := some now }
  | .complete =>
    if amountRejected servedAmount then .error "Enter valid amount"
    else .ok { Updates.empty with
               status := some Status.completed
               served_amount := some (parseFloat servedAmount).toJson
               completed_at := some now }
  | .cancel => .ok { Updates.empty with status := some Status.cancelled }
  | .skip => .ok { Updates.empty with status := some Status.cancelled }

/-- The test `['complete', 'cancel', 'skip'].includes(action)`. -/
def Action.renumbers : Action → Bool
  | .start => false
  | .complete => true
  | .cancel => true
  | .skip => true

/-- The success alert of `performAction`. -/
def successAlert (action : Action) : Alert :=
  ⟨"Success", "Action " ++ action.toString ++ " successful"⟩

/-- The function `performAction(action, carData)`: `carData` is the row as the dashboard
holds it, of which only `id` and `station_user_id` are read. -/
def performAction (f : Faults) (now : Nat) (servedAmount : String) (action : Action)
    (carData : QueueEntry) (db : List QueueEntry) : Outcome :=
  match actionUpdates now servedAmount action with
  | .error msg => ⟨db, some ⟨"Error", msg⟩⟩
  | .ok updates =>
    if f.update then ⟨db, some ⟨"Error", f.message⟩⟩
    else
      let db1 := updateById updates carData.id db
      let db2 := if action.renumbers then updateQueuePositions f carData.station_user_id db1 else db1
      ⟨db2, some (successAlert action)⟩

/-! ## Car app: `fetchQueues`, `handleConfirmQueue`, `handleLeaveQueue` -/

/-- The function `fetchQueues`: the rows with status pending or serving, grouped by station
in the order the select returns them. A station without such a row has no key. -/
def fetchQueues (db : List QueueEntry) : Nat → Option (List QueueEntry) :=
  (db.filter (fun r => r.status == Status.pending || r.status == Status.serving)).foldl
    (fun map item k =>
      if k = item.station_user_id then some ((map k).getD [] ++ [item]) else map k)
    (fun _ => none)

/-- The expression `queueMap[station]?.length || 0`. -/
def queueCount (queueMap : Nat → Option (List QueueEntry)) (station : Nat) : Nat :=
  ((queueMap station).map List.length).getD 0

/-- The row `handleConfirmQueue` inserts, with the columns the store fills in. -/
def newEntry (id now user station : Nat) (fuelType fuelAmount : String) (count : Nat) : QueueEntry :=
  { id := id
    car_user_id := user
    station_user_id := station
    fuel_type := fuelType
    requested_amount := (parseFloat fuelAmount).toJson
    served_amount := none
    status := Status.pending
    queue_position := (count : Int) + 1
    created_at := now
    started_at := none
    completed_at := none }

/-- The function `handleConfirmQueue`: `user` is the signed-in user (`none` when
`getUser` returns `null`), `selectedStation` the `user_id` of the selected station and
`queueMap` the grouping the screen holds from its last `fetchQueues`.  The result of the
insert is not looked at.  With no user the read of `user.id` throws before the insert is
issued; the wording of that error is the engine's. -/
def handleConfirmQueue (f : Faults) (now : Nat) (user : Option Nat) (fuelAmount fuelType : String)
    (selectedStation : Nat) (queueMap : Nat → Option (List QueueEntry))
    (db : List QueueEntry) : Outcome :=
  if amountRejected fuelAmount then ⟨db, some ⟨"Wait!", "Please enter fuel amount"⟩⟩
  else
    match user with
    | none => ⟨db, some ⟨"Error", "Cannot read property id of null"⟩⟩
    | some uid =>
      let count := queueCount queueMap selectedStation
      let row := newEntry (nextId db) now uid selectedStation fuelType fuelAmount count
      ⟨if f.insert then db else db ++ [row], some ⟨"Confirmed!", "You are now in line."⟩⟩

/-- The confirm branch of `handleLeaveQueue(queueId)`. -/
def handleLeaveQueue (f : Faults) (queueId : Nat) (db : List QueueEntry) : Outcome :=
  if f.delete then ⟨db, some ⟨"Error", "Could not remove record. Please try again."⟩⟩
  else ⟨deleteById queueId db, none⟩

/-! ## Predicates the properties are stated with -/

/-- The `queue_position` values of the station's pending rows, in table order. -/
def pendingPositions (stationId : Nat) (db : List QueueEntry) : List Int :=
  (pendingAt stationId db).map (fun r => r.queue_position)

/-- The list `1, 2, ..., n`. -/
def oneTo (n : Nat) : List Int :=
  (List.range n).map (fun (i : Nat) => (i : Int) + 1)

/-- The station's pending positions are exactly `1..N`, each once, `N` the number of pending rows. -/
def Contiguous (stationId : Nat) (db : List QueueEntry) : Prop :=
  List.Perm (pendingPositions stationId db) (oneTo (pendingAt stationId db).length)

instance Contiguous.decidable (stationId : Nat) (db : List QueueEntry) :
    Decidable (Contiguous stationId db) :=
  inferInstanceAs (Decidable (List.Perm _ _))

/-- Ids are unique in the table (`id` is the primary key). -/
def UniqueIds (db : List QueueEntry) : Prop :=
  (db.map (fun r => r.id)).Nodup

instance UniqueIds.decidable (db : List QueueEntry) : Decidable (UniqueIds db) :=
  inferInstanceAs (Decidable (List.Nodup _))

/-- The row a complete renumbering pass over `ids`, started at index `i`, leaves in place of `r`. -/
def renumberRow (ids : List Nat) (i : Nat) (r : QueueEntry) : QueueEntry :=
  if r.id ∈ ids then { r with queue_position := ((i + ids.indexOf r.id : Nat) : Int) + 1 } else r

/-- The row with the given id, if the table has one. -/
def findById (id : Nat) (db : List QueueEntry) : Option QueueEntry :=
  db.find? (fun r => r.id == id)

instance positionLe.isTotal : IsTotal QueueEntry positionLe :=
  ⟨fun a b => le_total a.queue_position b.queue_position⟩

instance positionLe.isTrans : IsTrans QueueEntry positionLe :=
  ⟨fun _ _ _ hab hbc => le_trans hab hbc⟩

/-! ## Tables used as concrete inputs -/

/-- A row of 20 litres of Diesel with the given id, station, status and position. -/
def exampleEntry (id station : Nat) (status : Status) (position : Int) : QueueEntry :=
  { id := id
    car_user_id := 100 + id
    station_user_id := station
    fuel_type := "Diesel"
    requested_amount := some ⟨false, 20, 0⟩
    served_amount := none
    status := status
    queue_position := position
    created_at := 0
    started_at := none
    completed_at := none }

/-- Station 7 with pending rows at positions 5, 2 and 9, a serving row, and a pending row of station 8. -/
def gapTable : List QueueEntry :=
  [exampleEntry 1 7 Status.pending 5, exampleEntry 2 7 Status.pending 2,
   exampleEntry 3 7 Status.serving 1, exampleEntry 4 7 Status.pending 9,
   exampleEntry 5 8 Status.pending 4]

/-- The status `performAction` writes for an action. -/
def Action.target : Action → Status
  | .start => Status.serving
  | .complete => Status.completed
  | .cancel => Status.cancelled
  | .skip => Status.cancelled

/-- Cars A, B, C of station 7 pending at positions 1, 2, 3. -/
def abcTable : List QueueEntry :=
  [exampleEntry 1 7 Status.pending 1, exampleEntry 2 7 Status.pending 2,
   exampleEntry 3 7 Status.pending 3]

/-- The station's rows with status serving. -/
def servingAt (stationId : Nat) (db : List QueueEntry) : List QueueEntry :=
  db.filter (fun r => r.station_user_id == stationId && r.status == Status.serving)

/-- Station 7 with one serving row and no pending row. -/
def servingOnlyTable : List QueueEntry :=
  [exampleEntry 1 7 Status.serving 1]

/-- One row of station 7 that is completed with 15.5 litres served. -/
def completedEntry : QueueEntry :=
  { exampleEntry 1 7 Status.completed 1 with
    served_amount := some ⟨false, 155, -1⟩
    started_at := some 2
    completed_at := some 3 }

/-- The row `r2` is the row `r` with at most its `queue_position` changed. -/
def OnlyPosition (r r2 : QueueEntry) : Prop :=
  r2 = { r with queue_position := r2.queue_position }

/-- The status an action requires of the entry in the specification's state machine:
pending for start, serving for complete, pending or serving for cancel and skip. -/
def Action.Expects : Action → Status → Prop
  | .start, s => s = Status.pending
  | .complete, s => s = Status.serving
  | .cancel, s => s = Status.pending ∨ s = Status.serving
  | .skip, s => s = Status.pending ∨ s = Status.serving

/-- The four transitions of the state machine. -/
def LegalTransition (before after : Status) : Prop :=
  (before = Status.pending ∧ after = Status.serving)
  ∨ (before = Status.serving ∧ after = Status.completed)
  ∨ (before = Status.pending ∧ after = Status.cancelled)
  ∨ (before = Status.serving ∧ after = Status.cancelled)

/-- The predicate "`served_amount` is set exactly when the status is completed". -/
def ServedIffCompleted (r : QueueEntry) : Prop :=
  r.served_amount ≠ none ↔ r.status = Status.completed

instance ServedIffCompleted.decidable (r : QueueEntry) : Decidable (ServedIffCompleted r) :=
  inferInstanceAs (Decidable (_ ↔ _))

/-- Station 7 with one pending row at position 1 and one serving row. -/
def pendingAndServingTable : List QueueEntry :=
  [exampleEntry 1 7 Status.pending 1, exampleEntry 2 7 Status.serving 1]

/-! ## Read-only handlers: `fetchMyQueues`, the queue card, `loadQueues`, `loadStats` -/

/-- Which reads of one run of a read-only handler are rejected: the list select, and the
count query number `i`. -/
structure ReadFaults where
  select : Bool
  count : Nat → Bool

/-- Every read succeeds. -/
def noReadFaults : ReadFaults :=
  ⟨false, fun _ => false⟩

/-- The order `.order('created_at', { ascending: false })` compares rows by. -/
def createdAtGe (a b : QueueEntry) : Prop :=
  b.created_at ≤ a.created_at

instance createdAtGe.decidable : DecidableRel createdAtGe :=
  fun a b => inferInstanceAs (Decidable (b.created_at ≤ a.created_at))

/-- Rows in descending `created_at`; rows created at the same time keep table order. -/
def orderByCreatedAtDesc (rows : List QueueEntry) : List QueueEntry :=
  rows.insertionSort createdAtGe

/-- The count query of `fetchMyQueues` for the row `q`:
`.eq('station_user_id', q.station_user_id).eq('status', 'pending').lt('queue_position', q.queue_position)`. -/
def countAhead (q : QueueEntry) (db : List QueueEntry) : Nat :=
  (((db.filter (fun r => r.station_user_id == q.station_user_id)).filter
      (fun r => r.status == Status.pending)).filter
      (fun r => decide (r.queue_position < q.queue_position))).length

/-- The object `{ ...q, carsAhead }` of `fetchMyQueues`. -/
structure QueueCard where
  entry : QueueEntry
  carsAhead : Nat
  deriving DecidableEq, Repr

/-- The `myQueues.map(...)` of `fetchMyQueues` from index `i` on: a rejected count query
yields `count = null` and `count || 0` is `0`. -/
def attachCarsAhead (rf : ReadFaults) (db : List QueueEntry) : List QueueEntry → Nat → List QueueCard
  | [], _ => []
  | q :: rest, i =>
    ⟨q, if rf.count i then 0 else countAhead q db⟩ :: attachCarsAhead rf db rest (i + 1)

/-- The select of `fetchMyQueues`: the user's rows with status pending or serving, newest first. -/
def selectMyQueues (uid : Nat) (db : List QueueEntry) : List QueueEntry :=
  orderByCreatedAtDesc
    ((db.filter (fun r => r.car_user_id == uid)).filter
      (fun r => r.status == Status.pending || r.status == Status.serving))

/-- The function `fetchMyQueues`: the list it passes to `setQueues`, or `none` when it sets
none (no signed-in user, or the select is rejected and the error is thrown). -/
def fetchMyQueues (rf : ReadFaults) (user : Option Nat) (db : List QueueEntry) :
    Option (List QueueCard) :=
  match user with
  | none => none
  | some uid =>
    if rf.select then none
    else some (attachCarsAhead rf db (selectMyQueues uid db) 0)

/-- The number `renderQueueItem` prints on a card: `isServing ? "0" : item.carsAhead`. -/
def displayedCarsAhead (item : QueueCard) : String :=
  if item.entry.status = Status.serving then "0" else toString item.carsAhead

/-- The active part of `loadQueues`: the list it passes to `setActiveQueue`, or `none` when
there is no signed-in user. The result of the select is not checked: a rejected select
yields `activeData = null` and the list set is empty. -/
def loadActiveQueue (rf : ReadFaults) (user : Option Nat) (db : List QueueEntry) :
    Option (List QueueEntry) :=
  match user with
  | none => none
  | some uid =>
    some (if rf.select then []
      else orderByQueuePosition
        ((db.filter (fun r => r.station_user_id == uid)).filter
          (fun r => r.status == Status.pending || r.status == Status.serving)))

/-- The number of entries at the station of `entry` with status pending and a
`queue_position` strictly below that of `entry`, as the specification words it. -/
def computeCarsAhead (entry : QueueEntry) (db : List QueueEntry) : Nat :=
  db.countP (fun r => decide (r.station_user_id = entry.station_user_id
    ∧ r.status = Status.pending ∧ r.queue_position < entry.queue_position))

/-- Station 7 with car A pending at position 1 and car B serving at position 2. -/
def servingBehindTable : List QueueEntry :=
  [exampleEntry 1 7 Status.pending 1, exampleEntry 2 7 Status.serving 2]

/-- The store rejects the insert of `handleConfirmQueue`. -/
def insertRejected : Faults :=
  ⟨true, false, false, false, fun _ => false, "Network request failed"⟩

/-- The store rejects every position write of the renumbering loop. -/
def positionsRejected : Faults :=
  ⟨false, false, false, false, fun _ => true, "Network request failed"⟩

/-- A row as the dashboard may still hold it after the row was deleted: id 99, station 7. -/
def staleEntry : QueueEntry :=
  exampleEntry 99 7 Status.pending 4

/-! ## Station dashboard: `loadStats` -/

/-- The built-in number operations `loadStats` applies to amounts: `x + y`, and
`parseFloat(x.toFixed(2))`. They are parameters of the model. -/
structure JSArith where
  add : JSNumber → JSNumber → JSNumber
  roundTo2 : JSNumber → JSNumber

/-- The number `0`. -/
def JSNumber.zero : JSNumber :=
  JSNumber.fin ⟨false, 0, 0⟩

/-- A number that counts as false in `x || 0`: `NaN` and zero. -/
def JSNumber.isFalsy : JSNumber → Bool
  | .nan => true
  | .inf _ => false
  | .fin d => d.mant == 0

/-- The expression `x || 0` on a number. -/
def JSNumber.orZero (x : JSNumber) : JSNumber :=
  if x.isFalsy then JSNumber.zero else x

/-- The expression `item.served_amount || 0`, `null` counting as false. -/
def servedOrZero (a : Option Decimal) : JSNumber :=
  match a with
  | none => JSNumber.zero
  | some d => (JSNumber.fin d).orZero

/-- Milliseconds in a day; timestamps are milliseconds since the epoch, in UTC. -/
def msPerDay : Nat := 86400000

/-- The instant `today + 'T00:00:00'`, `today` being the UTC date of `now`. -/
def startOfDay (now : Nat) : Nat :=
  now / msPerDay * msPerDay

/-- The instant `today + 'T23:59:59'`. -/
def lastSecondOfDay (now : Nat) : Nat :=
  startOfDay now + 86399000

/-- The filter `.gte('completed_at', lo)`; a `null` column does not pass. -/
def completedAtGe (lo : Nat) (r : QueueEntry) : Bool :=
  match r.completed_at with
  | some t => decide (lo ≤ t)
  | none => false

/-- The filter `.lte('completed_at', hi)`; a `null` column does not pass. -/
def completedAtLe (hi : Nat) (r : QueueEntry) : Bool :=
  match r.completed_at with
  | some t => decide (t ≤ hi)
  | none => false

/-- The third select of `loadStats`: the station's completed rows of today. -/
def selectTodayCompleted (uid now : Nat) (db : List QueueEntry) : List QueueEntry :=
  ((((db.filter (fun r => r.station_user_id == uid)).filter
      (fun r => r.status == Status.completed)).filter
      (completedAtGe (startOfDay now))).filter
      (completedAtLe (lastSecondOfDay now)))

/-- The object `loadStats` passes to `setStats`. -/
structure Stats where
  pending : Nat
  serving : Nat
  completedToday : Nat
  totalFuelSold : JSNumber
  deriving DecidableEq, Repr

/-- The `reduce` of `loadStats`: the served amounts added up from `0`, in list order. -/
def sumServed (arith : JSArith) (rows : List QueueEntry) : JSNumber :=
  rows.foldl (fun sum item => arith.add sum (servedOrZero item.served_amount)) JSNumber.zero

/-- The function `loadStats`: the object it passes to `setStats`, or `none` when there is no
signed-in user. Count query 0 is the pending count, count query 1 the serving count, the
select is the one of today's completed rows; a rejected read yields `null`, which the
`|| 0` turn into `0`. -/
def loadStats (arith : JSArith) (rf : ReadFaults) (user : Option Nat) (now : Nat)
    (db : List QueueEntry) : Option Stats :=
  match user with
  | none => none
  | some uid =>
    let pendingCount := if rf.count 0 then 0
      else ((db.filter (fun r => r.station_user_id == uid)).filter
        (fun r => r.status == Status.pending)).length
    let servingCount := if rf.count 1 then 0
      else ((db.filter (fun r => r.station_user_id == uid)).filter
        (fun r => r.status == Status.serving)).length
    let todayCompleted : Option (List QueueEntry) :=
      if rf.select then none else some (selectTodayCompleted uid now db)
    let totalFuelSold : JSNumber :=
      match todayCompleted with
      | none => JSNumber.zero
      | some rows => (sumServed arith rows).orZero
    some ⟨pendingCount, servingCount, (todayCompleted.map List.length).getD 0,
      arith.roundTo2 totalFuelSold⟩

/-- The station's completed entries whose `completed_at` lies in the closed range
`[lo, hi]`, as one filter. -/
def completedBetween (stationId lo hi : Nat) (db : List QueueEntry) : List QueueEntry :=
  db.filter (fun r => decide (r.station_user_id = stationId ∧ r.status = Status.completed
    ∧ ∃ t, r.completed_at = some t ∧ lo ≤ t ∧ t ≤ hi))

/-- The station's completed entries whose `completed_at` lies in the half-open range
`[lo, hi)`, as one filter. -/
def completedBefore (stationId lo hi : Nat) (db : List QueueEntry) : List QueueEntry :=
  db.filter (fun r => decide (r.station_user_id = stationId ∧ r.status = Status.completed
    ∧ ∃ t, r.completed_at = some t ∧ lo ≤ t ∧ t < hi))

/-- The value of a decimal as an integer number of units `10^e`, for `e` at most its exponent. -/
def Decimal.scaled (d : Decimal) (e : Int) : Int :=
  (if d.neg then -1 else 1) * (d.mant : Int) * 10 ^ (d.exp10 - e).toNat

/-- Exact addition of two numbers. -/
def decimalAdd : JSNumber → JSNumber → JSNumber
  | .fin a, .fin b =>
    let e := min a.exp10 b.exp10
    let v := a.scaled e + b.scaled e
    JSNumber.fin ⟨decide (v < 0), v.natAbs, e⟩
  | .fin _, .inf s => JSNumber.inf s
  | .inf s, .fin _ => JSNumber.inf s
  | .inf s, .inf t => if s = t then JSNumber.inf s else JSNumber.nan
  | .nan, _ => JSNumber.nan
  | _, .nan => JSNumber.nan

/-- The number of hundredths nearest to `mant * 10^exp10`, a half rounding up. -/
def hundredths (mant : Nat) (exp10 : Int) : Nat :=
  if -2 ≤ exp10 then mant * 10 ^ (exp10 + 2).toNat
  else (mant + 5 * 10 ^ ((-(exp10 + 2)).toNat - 1)) / 10 ^ (-(exp10 + 2)).toNat

/-- Exact rounding to two decimals. -/
def decimalRoundTo2 : JSNumber → JSNumber
  | .fin d =>
    if hundredths d.mant d.exp10 = 0 then JSNumber.fin ⟨d.neg, 0, 0⟩
    else JSNumber.fin ⟨d.neg, hundredths d.mant d.exp10, -2⟩
  | x => x

/-- Exact decimal arithmetic: what `+` and `toFixed(2)` give where no binary rounding
intervenes. It is used for concrete inputs only. -/
def decimalArith : JSArith :=
  ⟨decimalAdd, decimalRoundTo2⟩

/-- A completed row of station 7 with the given id, completion time and served amount. -/
def completedAt (id t : Nat) (served : Decimal) : QueueEntry :=
  { exampleEntry id 7 Status.completed 1 with
    served_amount := some served
    started_at := some 0
    completed_at := some t }

/-- Station 7 with one row completed at 23:59:59.000 of day 3. -/
def lastSecondTable : List QueueEntry :=
  [completedAt 1 (3 * msPerDay + 86399000) ⟨false, 20, 0⟩]

/-- Station 7 with one row completed on day 3 with 0.004 litres served. -/
def smallAmountTable : List QueueEntry :=
  [completedAt 1 (3 * msPerDay + 1000) ⟨false, 4, -3⟩]

/-- Station 7 on day 3: completed rows with 15.5 and 20.25 litres, a row completed the day
after, and a pending row. -/
def dayTable : List QueueEntry :=
  [completedAt 1 (3 * msPerDay + 1000) ⟨false, 155, -1⟩,
   completedAt 2 (3 * msPerDay + 2000) ⟨false, 2025, -2⟩,
   completedAt 3 (4 * msPerDay) ⟨false, 1, 0⟩, exampleEntry 4 7 Status.pending 1]

/-- Station 7 with a pending row at 2, a serving row at 1, a pending row at 1 and a cancelled row;
one pending row of station 8. -/
def mixedTable : List QueueEntry :=
  [exampleEntry 1 7 Status.pending 2, exampleEntry 2 7 Status.serving 1,
   exampleEntry 3 7 Status.pending 1, exampleEntry 4 7 Status.cancelled 1,
   exampleEntry 5 8 Status.pending 1]

/-- The table after the first `k` iterations of the `for` loop of `updateQueuePositions`,
each of them accepted, the remaining iterations not run. -/
def updateQueuePositionsPrefix (k stationId : Nat) (db : List QueueEntry) : List QueueEntry :=
  positionLoop noFaults ((selectPendingCars stationId db).take k) 0 db

/-- Station 7 with pending rows at positions 4, 2 and 7. -/
def sparseTable : List QueueEntry :=
  [exampleEntry 1 7 Status.pending 4, exampleEntry 2 7 Status.pending 2,
   exampleEntry 3 7 Status.pending 7]

/-- Station 7 with one serving row. -/
def servingTable : List QueueEntry :=
  [exampleEntry 1 7 Status.serving 1]

/-- Station 7 on day 3: completed rows with 15.5 and 20.25 litres around its serving row, a
pending row, and a row completed the day after; station 8 has a row completed on day 3. -/
def busyDayTable : List QueueEntry :=
  [completedAt 1 (3 * msPerDay + 1000) ⟨false, 155, -1⟩,
   exampleEntry 2 7 Status.serving 1,
   completedAt 3 (3 * msPerDay + 2000) ⟨false, 2025, -2⟩,
   { completedAt 4 (3 * msPerDay + 3000) ⟨false, 50, 0⟩ with station_user_id := 8 },
   completedAt 5 (4 * msPerDay) ⟨false, 1, 0⟩,
   exampleEntry 6 7 Status.pending 1]

/-- The patch `performAction` sends for complete when the amount text parses to the finite
number `a`. -/
def completePatch (now : Nat) (a : Decimal) : Updates :=
  { Updates.empty with
    status := some Status.completed
    served_amount := some (some a)
    completed_at := some now }

/-! ## Station dashboard: the buttons of a queue card and the action modal -/

/-- The part of the dashboard state the action handlers read and write. -/
structure Dashboard where
  selectedCar : Option QueueEntry
  actionModalVisible : Bool

/-- The buttons `renderQueueItem` draws for an item, each given by the action string it
passes to `handleCarAction`: "Start Service" on a pending item, "Complete" and the skip
cross on a serving item. -/
def renderQueueItem (item : QueueEntry) : List Action :=
  (if item.status = Status.pending then [Action.start] else [])
    ++ (if item.status = Status.serving then [Action.complete, Action.skip] else [])

/-- The function `handleCarAction(action, carData)`: the dashboard state it leaves and the
call of `performAction` it makes, if any. -/
def handleCarAction (action : Action) (carData : QueueEntry) (d : Dashboard) :
    Dashboard × Option (Action × QueueEntry) :=
  if action = Action.start ∨ action = Action.complete then
    (⟨some carData, true⟩, none)
  else
    (⟨some carData, d.actionModalVisible⟩, some (action, carData))

/-- The confirm button of the action modal: the arguments of
`performAction(selectedCar?.status === 'serving' ? 'complete' : 'start', selectedCar)`. -/
def modalConfirm (d : Dashboard) : Action × Option QueueEntry :=
  (if d.selectedCar.map (fun c => c.status) = some Status.serving then Action.complete
    else Action.start,
   d.selectedCar)

/-- The call of `performAction` a press on a button of an item leads to: the one
`handleCarAction` makes at once, or the one of the confirm button of the modal it opens. -/
def pressButton (action : Action) (item : QueueEntry) (d : Dashboard) :
    Action × Option QueueEntry :=
  match handleCarAction action item d with
  | (_, some (a, c)) => (a, some c)
  | (d2, none) => modalConfirm d2

/-! ## Car app: `handleLogin` -/

/-- What `signInWithPassword` returns: an error with its message, no user, or a user. -/
inductive SignInResult
  | error (message : String)
  | noUser
  | user (id : Nat)

/-- What the select on `profiles` with `maybeSingle()` returns for the user: an error, no
row, or the row with its `role` column. -/
inductive ProfileResult
  | error
  | noRow
  | row (role : Option String)

/-- The arguments of `showAlert(title, message, type)`. -/
structure AppAlert where
  title : String
  message : String
  kind : String
  deriving DecidableEq, Repr

/-- What a run of `handleLogin` did: whether it called `router.replace` to the tabs, whether
it called `signOut`, and the alert it showed. -/
structure LoginOutcome where
  navigated : Bool
  signedOut : Bool
  alert : Option AppAlert
  deriving DecidableEq, Repr

/-- The test `msg.includes(part)`. -/
def includes (msg part : String) : Bool :=
  decide (List.IsInfix part.data msg.data)

/-- The message rewriting of the `catch` block of `handleLogin`. -/
def loginFailureMessage (msg : String) : String :=
  if includes msg "Invalid login credentials" then "Invalid email or password"
  else if includes msg "Email not confirmed" then
    "Please verify your email address before logging in."
  else if includes msg "Access Denied" || includes msg "car driver" then msg
  else if includes msg "User profile not found" then
    "Account setup incomplete. Please contact support."
  else msg

/-- The error message `handleLogin` builds for a role other than `car`. -/
def roleErrorMessage (role : Option String) : String :=
  if role = some "truck" then
    "This app is for car drivers only. Please use the truck driver app."
  else if role = some "station" then
    "This app is for car drivers only. Please use the fuel station app."
  else if role = none ∨ role = some "" then
    "Your account does not have a role assigned. Please contact support."
  else "Your account does not have car driver permissions."

/-- The `catch` block of `handleLogin` for a thrown error with the given message. -/
def loginFailed (signedOut : Bool) (msg : String) : LoginOutcome :=
  ⟨false, signedOut, some ⟨"Login Failed", loginFailureMessage msg, "error"⟩⟩

/-- The function `handleLogin`, given the texts of the two fields and what the two remote
calls return. -/
def handleLogin (email password : String) (signIn : SignInResult) (profile : ProfileResult) :
    LoginOutcome :=
  if email.data.isEmpty || password.data.isEmpty then
    ⟨false, false, some ⟨"Missing Info", "Please enter both email and password.", "warning"⟩⟩
  else
    match signIn with
    | .error message => loginFailed false message
    | .noUser => loginFailed false "Authentication failed"
    | .user _ =>
      match profile with
      | .error => loginFailed false "Could not fetch user profile"
      | .noRow => loginFailed false "User profile not found. Please contact support."
      | .row role =>
        if role = some "car" then ⟨true, false, none⟩
        else loginFailed true (roleErrorMessage role)

/-! ## Lemmas on the renumbering pass -/

theorem renumberRow_id (ids : List Nat) (i : Nat) (r : QueueEntry) :
    (renumberRow ids i r).id = r.id := by
  unfold renumberRow; split <;> rfl

theorem renumberRow_status (ids : List Nat) (i : Nat) (r : QueueEntry) :
    (renumberRow ids i r).status = r.status := by
  unfold renumberRow; split <;> rfl

theorem renumberRow_station (ids : List Nat) (i : Nat) (r : QueueEntry) :
    (renumberRow ids i r).station_user_id = r.station_user_id := by
  unfold renumberRow; split <;> rfl

theorem renumberRow_position_of_mem {ids : List Nat} (i : Nat) {r : QueueEntry} (h : r.id ∈ ids) :
    (renumberRow ids i r).queue_position = ((i + ids.indexOf r.id : Nat) : Int) + 1 := by
  unfold renumberRow; rw [if_pos h]

theorem renumberRow_of_not_mem {ids : List Nat} (i : Nat) {r : QueueEntry} (h : r.id ∉ ids) :
    renumberRow ids i r = r := by
  unfold renumberRow; rw [if_neg h]

theorem positionLoop_eq_map (f : Faults) (hf : ∀ i, f.position i = false) :
    ∀ (ids : List Nat) (i : Nat) (db : List QueueEntry), ids.Nodup →
      positionLoop f ids i db = db.map (renumberRow ids i) := by
  intro ids
  induction ids with
  | nil =>
    intro i db _
    have hid : renumberRow [] i = id := funext (fun r => by simp [renumberRow])
    simp [positionLoop, hid]
  | cons a rest ih =>
    intro i db hnd
    have hnd' := List.nodup_cons.mp hnd
    simp only [positionLoop, hf, Bool.false_eq_true, if_false]
    rw [ih (i + 1) _ hnd'.2, updateById, List.map_map]
    apply List.map_congr_left
    intro r _
    simp only [Function.comp]
    by_cases hra : r.id = a
    · have h1 : (positionPatch i).apply r = { r with queue_position := (i : Int) + 1 } := by
        simp [positionPatch, Updates.apply, Updates.empty]
      rw [if_pos hra, h1]
      have hnot : ({ r with queue_position := (i : Int) + 1 } : QueueEntry).id ∉ rest := by
        simpa [hra] using hnd'.1
      rw [renumberRow_of_not_mem _ hnot]
      unfold renumberRow
      rw [if_pos (by simp [hra])]
      simp [hra]
    · rw [if_neg hra]
      unfold renumberRow
      by_cases hmem : r.id ∈ rest
      · rw [if_pos hmem, if_pos (List.mem_cons_of_mem _ hmem)]
        rw [List.indexOf_cons_ne _ (fun h => hra h.symm)]
        congr 1
        push_cast
        omega
      · rw [if_neg hmem, if_neg (by simp [hra, hmem])]

theorem findById_of_mem {db : List QueueEntry} (h : UniqueIds db) {r : QueueEntry} (hr : r ∈ db) :
    findById r.id db = some r := by
  unfold findById
  induction db with
  | nil => simp at hr
  | cons x xs ih =>
    have hx := List.nodup_cons.mp (show (x.id :: xs.map (fun r => r.id)).Nodup from h)
    rcases List.mem_cons.mp hr with rfl | hmem
    · simp
    · have hne : x.id ≠ r.id := by
        intro heq
        exact hx.1 (heq ▸ List.mem_map_of_mem (fun r => r.id) hmem)
      rw [List.find?_cons_of_neg _ (by simpa using hne)]
      exact ih hx.2 hmem

theorem findById_map {g : QueueEntry → QueueEntry} (hg : ∀ r, (g r).id = r.id) (id : Nat)
    (db : List QueueEntry) : findById id (db.map g) = (findById id db).map g := by
  unfold findById
  induction db with
  | nil => rfl
  | cons x xs ih =>
    simp only [List.map_cons, List.find?_cons, hg]
    split
    · rfl
    · exact ih

theorem pendingAt_map {g : QueueEntry → QueueEntry}
    (hst : ∀ r, (g r).station_user_id = r.station_user_id) (hs : ∀ r, (g r).status = r.status)
    (stationId : Nat) (db : List QueueEntry) :
    pendingAt stationId (db.map g) = (pendingAt stationId db).map g := by
  unfold pendingAt
  rw [List.filter_map]
  congr 1
  apply List.filter_congr
  intro r _
  simp [Function.comp, hst, hs]

theorem orderByQueuePosition_perm (rows : List QueueEntry) :
    List.Perm (orderByQueuePosition rows) rows :=
  List.perm_insertionSort _ rows

theorem orderByQueuePosition_sorted (rows : List QueueEntry) :
    List.Sorted positionLe (orderByQueuePosition rows) :=
  List.sorted_insertionSort _ rows

theorem pendingAt_sublist (stationId : Nat) (db : List QueueEntry) :
    List.Sublist (pendingAt stationId db) db :=
  List.filter_sublist db

theorem pendingAt_uniqueIds {db : List QueueEntry} (h : UniqueIds db) (stationId : Nat) :
    UniqueIds (pendingAt stationId db) :=
  List.Nodup.sublist ((pendingAt_sublist stationId db).map _) h

theorem selectPendingCars_perm (stationId : Nat) (db : List QueueEntry) :
    List.Perm (selectPendingCars stationId db) ((pendingAt stationId db).map (fun r => r.id)) :=
  (orderByQueuePosition_perm _).map _

theorem selectPendingCars_nodup {db : List QueueEntry} (h : UniqueIds db) (stationId : Nat) :
    (selectPendingCars stationId db).Nodup :=
  (selectPendingCars_perm stationId db).nodup_iff.mpr (pendingAt_uniqueIds h stationId)

theorem mem_selectPendingCars {stationId : Nat} {db : List QueueEntry} {r : QueueEntry}
    (hr : r ∈ pendingAt stationId db) : r.id ∈ selectPendingCars stationId db :=
  (selectPendingCars_perm stationId db).mem_iff.mpr (List.mem_map_of_mem _ hr)

theorem selectPendingCars_length (stationId : Nat) (db : List QueueEntry) :
    (selectPendingCars stationId db).length = (pendingAt stationId db).length := by
  simpa using (selectPendingCars_perm stationId db).length_eq

theorem updateQueuePositions_eq_map (f : Faults) (hsel : f.select = false)
    (hpos : ∀ i, f.position i = false) (stationId : Nat) {db : List QueueEntry}
    (h : UniqueIds db) :
    updateQueuePositions f stationId db
      = db.map (renumberRow (selectPendingCars stationId db) 0) := by
  unfold updateQueuePositions
  rw [hsel]
  simp only [Bool.false_eq_true, if_false]
  exact positionLoop_eq_map f hpos _ 0 db (selectPendingCars_nodup h stationId)

theorem map_indexOf_of_nodup {l : List Nat} (h : l.Nodup) :
    l.map (fun x => l.indexOf x) = List.range l.length := by
  apply List.ext_getElem
  · simp
  · intro i h1 h2
    simp only [List.getElem_map, List.getElem_range]
    exact List.indexOf_getElem h i (by simpa using h1)

theorem oneTo_length (n : Nat) : (oneTo n).length = n := by
  simp [oneTo]

/-- After a complete pass the pending rows of the station, read in the order of the select,
carry `1, 2, ..., N`. -/
theorem renumbered_positions_in_order {db : List QueueEntry} (h : UniqueIds db) (stationId : Nat) :
    (orderByQueuePosition (pendingAt stationId db)).map
        (fun r => (renumberRow (selectPendingCars stationId db) 0 r).queue_position)
      = oneTo (pendingAt stationId db).length := by
  have hnd := selectPendingCars_nodup h stationId
  have h1 : (orderByQueuePosition (pendingAt stationId db)).map
        (fun r => (renumberRow (selectPendingCars stationId db) 0 r).queue_position)
      = (selectPendingCars stationId db).map
          (fun x => (((selectPendingCars stationId db).indexOf x : Nat) : Int) + 1) := by
    rw [selectPendingCars, List.map_map]
    apply List.map_congr_left
    intro r hr
    have hmem : r.id ∈ selectPendingCars stationId db :=
      List.mem_map_of_mem (fun r => r.id) hr
    simp only [Function.comp]
    rw [← selectPendingCars, renumberRow_position_of_mem 0 hmem]
    simp
  rw [h1]
  have h2 := map_indexOf_of_nodup hnd
  have h3 : (selectPendingCars stationId db).map
          (fun x => (((selectPendingCars stationId db).indexOf x : Nat) : Int) + 1)
      = ((selectPendingCars stationId db).map
          (fun x => (selectPendingCars stationId db).indexOf x)).map (fun (i : Nat) => (i : Int) + 1) := by
    rw [List.map_map]; rfl
  rw [h3, h2, selectPendingCars_length]
  rfl

theorem contiguous_map_renumberRow {db : List QueueEntry} (h : UniqueIds db) (stationId : Nat) :
    Contiguous stationId (db.map (renumberRow (selectPendingCars stationId db) 0)) := by
  unfold Contiguous pendingPositions
  rw [pendingAt_map (renumberRow_station _ _) (renumberRow_status _ _), List.map_map,
    List.length_map, ← renumbered_positions_in_order h stationId]
  have hp := (orderByQueuePosition_perm (pendingAt stationId db)).symm
  exact (hp.map _)

/-! ## Renumbering (`updateQueuePositions`) -/

/-- C2: when the select and every position write of `updateQueuePositions` succeed and ids
are unique, the station's pending rows, taken in ascending order of their previous
`queue_position`, end with positions `1, 2, ..., N`; the pending rows are the same rows as
before, and their positions are exactly `1..N`, whatever they were before. -/
theorem updateQueuePositions_renumbers (f : Faults) (stationId : Nat) (db : List QueueEntry)
    (hsel : f.select = false) (hpos : ∀ i, f.position i = false) (huniq : UniqueIds db) :
    (orderByQueuePosition (pendingAt stationId db)).map
        (fun r => (findById r.id (updateQueuePositions f stationId db)).map
          (fun e => e.queue_position))
      = (oneTo (pendingAt stationId db).length).map some
    ∧ (pendingAt stationId (updateQueuePositions f stationId db)).map (fun r => r.id)
        = (pendingAt stationId db).map (fun r => r.id)
    ∧ Contiguous stationId (updateQueuePositions f stationId db) := by
  rw [updateQueuePositions_eq_map f hsel hpos stationId huniq]
  refine ⟨?_, ?_, contiguous_map_renumberRow huniq stationId⟩
  · rw [← renumbered_positions_in_order huniq stationId, List.map_map]
    apply List.map_congr_left
    intro r hr
    have hmem : r ∈ db :=
      (pendingAt_sublist stationId db).subset ((orderByQueuePosition_perm _).subset hr)
    simp only [Function.comp]
    rw [findById_map (renumberRow_id _ _), findById_of_mem huniq hmem]
    rfl
  · rw [pendingAt_map (renumberRow_station _ _) (renumberRow_status _ _), List.map_map]
    apply List.map_congr_left
    intro r _
    exact renumberRow_id _ _ r

/-- Witness for C2 on a table whose pending positions at station 7 are 5, 2, 9. -/
theorem updateQueuePositions_renumbers_witness :
    UniqueIds gapTable ∧
    ((orderByQueuePosition (pendingAt 7 gapTable)).map
        (fun r => (findById r.id (updateQueuePositions noFaults 7 gapTable)).map
          (fun e => e.queue_position))
      = (oneTo (pendingAt 7 gapTable).length).map some
    ∧ (pendingAt 7 (updateQueuePositions noFaults 7 gapTable)).map (fun r => r.id)
        = (pendingAt 7 gapTable).map (fun r => r.id)
    ∧ Contiguous 7 (updateQueuePositions noFaults 7 gapTable)) :=
  ⟨by decide, updateQueuePositions_renumbers noFaults 7 gapTable rfl (fun _ => rfl) (by decide)⟩

/-! ## Lemmas on `performAction` -/

theorem indexOf_lt_of_sorted : ∀ {S : List QueueEntry}, List.Sorted positionLe S →
    (S.map (fun r => r.id)).Nodup → ∀ {a b : QueueEntry}, a ∈ S → b ∈ S →
    a.queue_position < b.queue_position →
    (S.map (fun r => r.id)).indexOf a.id < (S.map (fun r => r.id)).indexOf b.id := by
  intro S
  induction S with
  | nil => intro _ _ a b ha; simp at ha
  | cons x xs ih =>
    intro hs hnd a b ha hb hlt
    have hs' := List.sorted_cons.mp hs
    have hnd' := List.nodup_cons.mp (show (x.id :: xs.map (fun r => r.id)).Nodup from hnd)
    have hne : ∀ {c : QueueEntry}, c ∈ xs → x.id ≠ c.id := by
      intro c hc heq
      exact hnd'.1 (heq ▸ List.mem_map_of_mem (fun r => r.id) hc)
    rcases List.mem_cons.mp ha with rfl | ha'
    · rcases List.mem_cons.mp hb with rfl | hb'
      · exact absurd hlt (lt_irrefl _)
      · rw [List.map_cons, List.indexOf_cons_self, List.indexOf_cons_ne _ (hne hb')]
        exact Nat.succ_pos _
    · rcases List.mem_cons.mp hb with rfl | hb'
      · have hle : b.queue_position ≤ a.queue_position := hs'.1 a ha'
        exact absurd hlt (not_lt.mpr hle)
      · rw [List.map_cons, List.indexOf_cons_ne _ (hne ha'), List.indexOf_cons_ne _ (hne hb')]
        exact Nat.succ_lt_succ (ih hs'.2 hnd'.2 ha' hb' hlt)

theorem updateById_uniqueIds {u : Updates} {id : Nat} {db : List QueueEntry} (h : UniqueIds db) :
    UniqueIds (updateById u id db) := by
  unfold UniqueIds updateById
  rw [List.map_map]
  have hfun : ((fun r => r.id) ∘ fun r : QueueEntry => if r.id = id then u.apply r else r)
      = fun r => r.id := by
    funext r
    simp only [Function.comp]
    split <;> rfl
  rw [hfun]
  exact h

theorem actionUpdates_status {now : Nat} {s : String} {action : Action} {u : Updates}
    (h : actionUpdates now s action = .ok u) :
    u.status = some action.target ∧ u.queue_position = none := by
  cases action <;> simp only [actionUpdates] at h
  · cases h; exact ⟨rfl, rfl⟩
  · split at h
    · cases h
    · cases h; exact ⟨rfl, rfl⟩
  · cases h; exact ⟨rfl, rfl⟩
  · cases h; exact ⟨rfl, rfl⟩

/-- What a run of `performAction` that ends in the success alert did. -/
theorem performAction_success {f : Faults} {now : Nat} {s : String} {action : Action}
    {carData : QueueEntry} {db : List QueueEntry}
    (hok : (performAction f now s action carData db).alert = some (successAlert action)) :
    ∃ u, actionUpdates now s action = .ok u ∧ f.update = false ∧
      (performAction f now s action carData db).db
        = if action.renumbers then
            updateQueuePositions f carData.station_user_id (updateById u carData.id db)
          else updateById u carData.id db := by
  unfold performAction at hok ⊢
  cases hu : actionUpdates now s action with
  | error msg =>
    rw [hu] at hok
    simp [successAlert] at hok
  | ok u =>
    rw [hu] at hok
    cases hf : f.update with
    | true =>
      rw [hf] at hok
      simp [successAlert] at hok
    | false =>
      refine ⟨u, rfl, rfl, ?_⟩
      simp

theorem Updates.apply_id (u : Updates) (r : QueueEntry) : (u.apply r).id = r.id := rfl

theorem Updates.apply_station (u : Updates) (r : QueueEntry) :
    (u.apply r).station_user_id = r.station_user_id := rfl

theorem Updates.apply_status {u : Updates} {t : Status} (h : u.status = some t) (r : QueueEntry) :
    (u.apply r).status = t := by
  simp [Updates.apply, h]

theorem mem_updateById {u : Updates} {id : Nat} {db : List QueueEntry} {r : QueueEntry}
    (h : r ∈ updateById u id db) :
    ∃ r0 ∈ db, (r0.id = id ∧ r = u.apply r0) ∨ (r0.id ≠ id ∧ r = r0) := by
  unfold updateById at h
  obtain ⟨r0, hr0, hEq⟩ := List.mem_map.mp h
  refine ⟨r0, hr0, ?_⟩
  by_cases hid : r0.id = id
  · left; rw [if_pos hid] at hEq; exact ⟨hid, hEq.symm⟩
  · right; rw [if_neg hid] at hEq; exact ⟨hid, hEq.symm⟩

theorem pendingAt_updateById {u : Updates} {t : Status} (h : u.status = some t)
    (ht : t ≠ Status.pending) (stationId id : Nat) (db : List QueueEntry) :
    pendingAt stationId (updateById u id db)
      = (pendingAt stationId db).filter (fun r => r.id != id) := by
  unfold pendingAt updateById
  induction db with
  | nil => rfl
  | cons x xs ih =>
    rw [List.map_cons, List.filter_cons, List.filter_cons, ih]
    by_cases hid : x.id = id
    · have hs : (u.apply x).status = t := Updates.apply_status h x
      rw [if_pos hid]
      have hfalse : ((u.apply x).station_user_id == stationId
          && (u.apply x).status == Status.pending) = false := by
        rw [hs]; simp [ht]
      rw [hfalse]
      by_cases hp : (x.station_user_id == stationId && x.status == Status.pending) = true
      · rw [if_pos hp, List.filter_cons]
        simp [hid]
      · rw [if_neg hp]; simp
    · rw [if_neg hid]
      by_cases hp : (x.station_user_id == stationId && x.status == Status.pending) = true
      · simp only [hp, if_true, List.filter_cons]
        simp [hid]
      · simp only [hp, if_false]
        simp

theorem Action.target_ne_pending (action : Action) : action.target ≠ Status.pending := by
  cases action <;> simp [Action.target]

/-! ## Order of the remaining pending entries -/

/-- C3: after a successful cancel, skip or complete (select and position writes accepted,
ids unique) the pending rows of the station are exactly `1..N`; they are the rows that were
pending before other than the one acted on; any two of them that stood in the order
`position a < position b` before still do; and the row acted on carries the status of the
action and is not among the pending rows. -/
theorem performAction_keeps_order (f : Faults) (now : Nat) (servedAmount : String)
    (action : Action) (carData : QueueEntry) (db : List QueueEntry)
    (hact : action = Action.cancel ∨ action = Action.skip ∨ action = Action.complete)
    (hsel : f.select = false) (hpos : ∀ i, f.position i = false) (huniq : UniqueIds db)
    (hok : (performAction f now servedAmount action carData db).alert
      = some (successAlert action)) :
    Contiguous carData.station_user_id (performAction f now servedAmount action carData db).db
    ∧ (pendingAt carData.station_user_id
          (performAction f now servedAmount action carData db).db).map (fun r => r.id)
        = ((pendingAt carData.station_user_id db).filter
            (fun r => r.id != carData.id)).map (fun r => r.id)
    ∧ (∀ a b : QueueEntry,
        a ∈ pendingAt carData.station_user_id
          (performAction f now servedAmount action carData db).db →
        b ∈ pendingAt carData.station_user_id
          (performAction f now servedAmount action carData db).db →
        ∀ a0 b0 : QueueEntry, findById a.id db = some a0 → findById b.id db = some b0 →
          a0.queue_position < b0.queue_position → a.queue_position < b.queue_position)
    ∧ (∀ r ∈ (performAction f now servedAmount action carData db).db, r.id = carData.id →
        r.status = action.target ∧
        r ∉ pendingAt carData.station_user_id
          (performAction f now servedAmount action carData db).db) := by
  obtain ⟨u, hu, _, hdb⟩ := performAction_success hok
  have hren : action.renumbers = true := by
    rcases hact with h | h | h <;> rw [h] <;> rfl
  rw [hren, if_pos rfl] at hdb
  have hst := (actionUpdates_status hu).1
  have hu1 : UniqueIds (updateById u carData.id db) := updateById_uniqueIds huniq
  rw [hdb, updateQueuePositions_eq_map f hsel hpos _ hu1]
  have hpend := pendingAt_updateById hst action.target_ne_pending
    carData.station_user_id carData.id db
  have hpmap := pendingAt_map
    (renumberRow_station (selectPendingCars carData.station_user_id (updateById u carData.id db)) 0)
    (renumberRow_status (selectPendingCars carData.station_user_id (updateById u carData.id db)) 0)
    carData.station_user_id (updateById u carData.id db)
  refine ⟨contiguous_map_renumberRow hu1 _, ?_, ?_, ?_⟩
  · rw [hpmap, List.map_map, hpend]
    apply List.map_congr_left
    intro r _
    exact renumberRow_id _ _ r
  · intro a b ha hb a0 b0 ha0 hb0 hlt
    rw [hpmap] at ha hb
    obtain ⟨a1, ha1, rfl⟩ := List.mem_map.mp ha
    obtain ⟨b1, hb1, rfl⟩ := List.mem_map.mp hb
    have ha1db : a1 ∈ db := by
      rw [hpend] at ha1
      exact (pendingAt_sublist _ db).subset (List.mem_of_mem_filter ha1)
    have hb1db : b1 ∈ db := by
      rw [hpend] at hb1
      exact (pendingAt_sublist _ db).subset (List.mem_of_mem_filter hb1)
    rw [renumberRow_id, findById_of_mem huniq ha1db] at ha0
    rw [renumberRow_id, findById_of_mem huniq hb1db] at hb0
    cases ha0
    cases hb0
    rw [renumberRow_position_of_mem 0 (mem_selectPendingCars ha1),
      renumberRow_position_of_mem 0 (mem_selectPendingCars hb1)]
    have hS := orderByQueuePosition_sorted
      (pendingAt carData.station_user_id (updateById u carData.id db))
    have hnd : ((orderByQueuePosition
        (pendingAt carData.station_user_id (updateById u carData.id db))).map
          (fun r => r.id)).Nodup := selectPendingCars_nodup hu1 _
    have hidx := indexOf_lt_of_sorted hS hnd
      ((orderByQueuePosition_perm _).mem_iff.mpr ha1)
      ((orderByQueuePosition_perm _).mem_iff.mpr hb1) hlt
    unfold selectPendingCars
    omega
  · intro r hr hid
    obtain ⟨r1, hr1, rfl⟩ := List.mem_map.mp hr
    rw [renumberRow_id] at hid
    have hstatus : r1.status = action.target := by
      obtain ⟨r0, _, h | h⟩ := mem_updateById hr1
      · rw [h.2]; exact Updates.apply_status hst r0
      · exact absurd (h.2 ▸ hid) h.1
    have hs : (renumberRow (selectPendingCars carData.station_user_id
        (updateById u carData.id db)) 0 r1).status = action.target := by
      rw [renumberRow_status]; exact hstatus
    refine ⟨hs, ?_⟩
    intro hmem
    have := (List.mem_filter.mp hmem).2
    rw [hs] at this
    have hne := action.target_ne_pending
    simp [hne] at this

/-- Witness for C3, the scenario of cars A, B, C at positions 1, 2, 3: cancelling B leaves
A at 1 and C at 2, with B cancelled. -/
theorem performAction_keeps_order_witness :
    UniqueIds abcTable
    ∧ (performAction noFaults 5 "" Action.cancel (exampleEntry 2 7 Status.pending 2) abcTable).alert
        = some (successAlert Action.cancel)
    ∧ (performAction noFaults 5 "" Action.cancel (exampleEntry 2 7 Status.pending 2) abcTable).db
        = [exampleEntry 1 7 Status.pending 1, exampleEntry 2 7 Status.cancelled 2,
           exampleEntry 3 7 Status.pending 2]
    ∧ Contiguous 7
        (performAction noFaults 5 "" Action.cancel (exampleEntry 2 7 Status.pending 2) abcTable).db :=
  ⟨by decide, by decide, by decide,
    (performAction_keeps_order noFaults 5 "" Action.cancel (exampleEntry 2 7 Status.pending 2)
      abcTable (Or.inl rfl) rfl (fun _ => rfl) (by decide) (by decide)).1⟩

/-! ## Submitting a request (`handleConfirmQueue`) -/

theorem foldl_group_apply (l : List QueueEntry) :
    ∀ (m : Nat → Option (List QueueEntry)) (k : Nat),
      (l.foldl (fun map item k =>
          if k = item.station_user_id then some ((map k).getD [] ++ [item]) else map k) m) k
        = if l.filter (fun r => r.station_user_id == k) = [] then m k
          else some ((m k).getD [] ++ l.filter (fun r => r.station_user_id == k)) := by
  induction l with
  | nil => intro m k; simp
  | cons x xs ih =>
    intro m k
    rw [List.foldl_cons, ih]
    by_cases hk : x.station_user_id = k
    · have hk' : k = x.station_user_id := hk.symm
      simp only [List.filter_cons, hk, beq_self_eq_true, if_true]
      by_cases hxs : xs.filter (fun r => r.station_user_id == k) = []
      · simp [hxs]
      · simp [hxs]
    · have hk' : ¬ k = x.station_user_id := fun h => hk h.symm
      have hb : (x.station_user_id == k) = false := by simpa using hk
      simp only [List.filter_cons, hb, if_neg hk']
      simp

theorem queueCount_fetchQueues (stationId : Nat) (db : List QueueEntry) :
    queueCount (fetchQueues db) stationId
      = (pendingAt stationId db).length + (servingAt stationId db).length := by
  unfold queueCount fetchQueues
  rw [foldl_group_apply]
  have hlen : ((db.filter (fun r => r.status == Status.pending || r.status == Status.serving)).filter
        (fun r => r.station_user_id == stationId)).length
      = (pendingAt stationId db).length + (servingAt stationId db).length := by
    unfold pendingAt servingAt
    rw [List.filter_filter]
    induction db with
    | nil => rfl
    | cons x xs ih =>
      by_cases hst : x.station_user_id = stationId
      · cases hs : x.status <;> simp [List.filter_cons, hst, hs] <;> omega
      · cases hs : x.status <;> simp [List.filter_cons, hst, hs] <;> omega
  split
  · rename_i hnil
    rw [hnil] at hlen
    simpa using hlen
  · simpa using hlen

/-- C4 (amended): a request whose amount passes the form's test, made by a signed-in user
and accepted by the store, appends one row with status pending whose `queue_position` is one
more than the number of rows the screen's `queueMap` holds for the station; when `queueMap`
is the grouping of the current table, that number counts the station's pending and serving
rows together. -/
theorem handleConfirmQueue_position (f : Faults) (now uid : Nat) (fuelAmount fuelType : String)
    (selectedStation : Nat) (queueMap : Nat → Option (List QueueEntry)) (db : List QueueEntry)
    (hamt : amountRejected fuelAmount = false) (hins : f.insert = false) :
    ∃ e : QueueEntry,
      (handleConfirmQueue f now (some uid) fuelAmount fuelType selectedStation queueMap db).db
        = db ++ [e]
      ∧ e.status = Status.pending
      ∧ e.station_user_id = selectedStation
      ∧ e.queue_position = (queueCount queueMap selectedStation : Int) + 1
      ∧ (queueMap = fetchQueues db →
          e.queue_position
            = (((pendingAt selectedStation db).length
                + (servingAt selectedStation db).length : Nat) : Int) + 1) := by
  refine ⟨newEntry (nextId db) now uid selectedStation fuelType fuelAmount
    (queueCount queueMap selectedStation), ?_, rfl, rfl, rfl, ?_⟩
  · simp [handleConfirmQueue, hamt, hins]
  · intro hq
    rw [hq, ← queueCount_fetchQueues]
    rfl

/-- Witness for C4 (amended): a request of 20.0 litres at an empty station gets position 1. -/
theorem handleConfirmQueue_position_witness :
    amountRejected "20.0" = false
    ∧ ∃ e : QueueEntry,
      (handleConfirmQueue noFaults 9 (some 55) "20.0" "Diesel" 7 (fetchQueues []) []).db
        = [] ++ [e]
      ∧ e.status = Status.pending
      ∧ e.station_user_id = 7
      ∧ e.queue_position = (queueCount (fetchQueues []) 7 : Int) + 1
      ∧ (fetchQueues [] = fetchQueues [] →
          e.queue_position
            = (((pendingAt 7 []).length + (servingAt 7 []).length : Nat) : Int) + 1) :=
  ⟨by decide,
    handleConfirmQueue_position noFaults 9 55 "20.0" "Diesel" 7 (fetchQueues []) []
      (by decide) rfl⟩

/-- C4 fails as stated: station 7 has no pending row and one serving row, and the row
inserted on the current snapshot gets position 2, not 0 + 1. -/
theorem handleConfirmQueue_position_counterexample :
    (pendingAt 7 servingOnlyTable).length = 0
    ∧ ((handleConfirmQueue noFaults 9 (some 55) "20.0" "Diesel" 7
          (fetchQueues servingOnlyTable) servingOnlyTable).db.map
        (fun r => (r.id, r.status, r.queue_position)))
      = [(1, Status.serving, 1), (2, Status.pending, 2)] := by
  decide

/-! ## What `performAction` checks before it writes -/

/-- C5 (amended): `performAction` with action start never reads the stored status. Unless
the store rejects the update, it shows the success alert and writes status serving and
`started_at = now` into every row with the id of `carData`, whatever status that row has,
and changes nothing else; when the update is rejected it shows the error and the table is
unchanged. -/
theorem performAction_start (f : Faults) (now : Nat) (servedAmount : String)
    (carData : QueueEntry) (db : List QueueEntry) :
    performAction f now servedAmount Action.start carData db
      = if f.update then ⟨db, some ⟨"Error", f.message⟩⟩
        else ⟨db.map (fun r => if r.id = carData.id
                then { r with status := Status.serving, started_at := some now } else r),
              some (successAlert Action.start)⟩ := by
  cases hf : f.update <;> simp [performAction, actionUpdates, hf, Action.renumbers, updateById,
    Updates.apply, Updates.empty]

/-- C5 fails as stated: the dashboard still holds row 1 as pending while the table has it
completed; start on it succeeds and writes status serving. -/
theorem performAction_start_counterexample :
    completedEntry.status = Status.completed
    ∧ (performAction noFaults 5 "" Action.start (exampleEntry 1 7 Status.pending 1)
        [completedEntry]).alert = some (successAlert Action.start)
    ∧ (performAction noFaults 5 "" Action.start (exampleEntry 1 7 Status.pending 1)
        [completedEntry]).db
        = [{ completedEntry with status := Status.serving, started_at := some 5 }] := by
  decide

/-- C6 (amended): `performAction` with action complete tests the amount text only, never
the stored status. When the text passes the test, then unless the store rejects the update
it shows the success alert, writes status completed, the JSON value of the parsed amount and
`completed_at = now` into every row with the id of `carData`, whatever status that row has,
and runs the renumbering pass; when the update is rejected it shows the error and the table
is unchanged. -/
theorem performAction_complete (f : Faults) (now : Nat) (servedAmount : String)
    (carData : QueueEntry) (db : List QueueEntry)
    (hamt : amountRejected servedAmount = false) :
    performAction f now servedAmount Action.complete carData db
      = if f.update then ⟨db, some ⟨"Error", f.message⟩⟩
        else ⟨updateQueuePositions f carData.station_user_id
                (db.map (fun r => if r.id = carData.id
                  then { r with status := Status.completed
                                served_amount := (parseFloat servedAmount).toJson
                                completed_at := some now } else r)),
              some (successAlert Action.complete)⟩ := by
  cases hf : f.update <;> simp [performAction, actionUpdates, hf, hamt, Action.renumbers,
    updateById, Updates.apply, Updates.empty]

/-- Witness for C6 (amended): completing a pending row with 15.5 litres. -/
theorem performAction_complete_witness :
    amountRejected "15.5" = false
    ∧ performAction noFaults 5 "15.5" Action.complete (exampleEntry 2 7 Status.pending 2) abcTable
      = if noFaults.update then ⟨abcTable, some ⟨"Error", noFaults.message⟩⟩
        else ⟨updateQueuePositions noFaults (exampleEntry 2 7 Status.pending 2).station_user_id
                (abcTable.map (fun r => if r.id = (exampleEntry 2 7 Status.pending 2).id
                  then { r with status := Status.completed
                                served_amount := (parseFloat "15.5").toJson
                                completed_at := some 5 } else r)),
              some (successAlert Action.complete)⟩ :=
  ⟨by decide,
    performAction_complete noFaults 5 "15.5" (exampleEntry 2 7 Status.pending 2) abcTable
      (by decide)⟩

/-- C6 fails as stated: the dashboard still holds row 2 as serving while the table has it
cancelled; complete with 15.5 litres on it succeeds and writes status completed. -/
theorem performAction_complete_counterexample :
    (performAction noFaults 5 "15.5" Action.complete (exampleEntry 2 7 Status.serving 2)
        [exampleEntry 1 7 Status.pending 1, exampleEntry 2 7 Status.cancelled 2]).alert
      = some (successAlert Action.complete)
    ∧ ((performAction noFaults 5 "15.5" Action.complete (exampleEntry 2 7 Status.serving 2)
        [exampleEntry 1 7 Status.pending 1, exampleEntry 2 7 Status.cancelled 2]).db.map
          (fun r => (r.id, r.status, r.served_amount, r.completed_at)))
      = [(1, Status.pending, none, none),
         (2, Status.completed, some ⟨false, 155, -1⟩, some 5)] := by
  decide

/-- C7: the guard of complete rejects an empty amount text and one that parses to a value
`<= 0`, before any store call; but at the amount text `.` it does not fire: `parseFloat`
gives `NaN`, the comparison `NaN <= 0` is false, the update is issued with a `null` served
amount, the renumbering pass runs and the success alert is shown. -/
theorem complete_guard_misses_nan :
    (∀ (f : Faults) (now : Nat) (s : String) (carData : QueueEntry) (db : List QueueEntry),
        (s = "" ∨ (parseFloat s).leZero = true) →
        performAction f now s Action.complete carData db
          = ⟨db, some ⟨"Error", "Enter valid amount"⟩⟩)
    ∧ parseFloat "." = JSNumber.nan
    ∧ amountRejected "." = false
    ∧ (performAction noFaults 5 "." Action.complete
        (exampleEntry 2 7 Status.serving 2)
        [exampleEntry 1 7 Status.pending 4, exampleEntry 2 7 Status.serving 2]).alert
      = some (successAlert Action.complete)
    ∧ ((performAction noFaults 5 "." Action.complete
        (exampleEntry 2 7 Status.serving 2)
        [exampleEntry 1 7 Status.pending 4, exampleEntry 2 7 Status.serving 2]).db.map
          (fun r => (r.id, r.status, r.served_amount, r.completed_at, r.queue_position)))
      = [(1, Status.pending, none, none, 1), (2, Status.completed, none, some 5, 2)] := by
  refine ⟨?_, by decide⟩
  intro f now s carData db h
  have hrej : amountRejected s = true := by
    rcases h with rfl | h
    · decide
    · simp [amountRejected, h]
  simp [performAction, actionUpdates, hrej]

/-! ## Row by row: what the handlers leave of each row -/

theorem OnlyPosition.refl (r : QueueEntry) : OnlyPosition r r := by
  unfold OnlyPosition; rfl

theorem OnlyPosition.trans {a b c : QueueEntry} (h1 : OnlyPosition a b) (h2 : OnlyPosition b c) :
    OnlyPosition a c := by
  unfold OnlyPosition at *
  rw [h2, h1]

theorem OnlyPosition.positionPatch (i : Nat) (r : QueueEntry) :
    OnlyPosition r ((positionPatch i).apply r) := by
  unfold OnlyPosition; rfl

theorem positionLoop_rowwise (f : Faults) : ∀ (ids : List Nat) (i : Nat) (db : List QueueEntry),
    ∃ g : QueueEntry → QueueEntry, (∀ r, OnlyPosition r (g r)) ∧ positionLoop f ids i db = db.map g := by
  intro ids
  induction ids with
  | nil => intro i db; exact ⟨id, OnlyPosition.refl, by simp [positionLoop]⟩
  | cons a rest ih =>
    intro i db
    simp only [positionLoop]
    cases f.position i with
    | true => simpa using ih (i + 1) db
    | false =>
      obtain ⟨g, hg, hEq⟩ := ih (i + 1) (updateById (positionPatch i) a db)
      refine ⟨g ∘ (fun r => if r.id = a then (positionPatch i).apply r else r), ?_, ?_⟩
      · intro r
        simp only [Function.comp]
        refine OnlyPosition.trans ?_ (hg _)
        split
        · exact OnlyPosition.positionPatch i r
        · exact OnlyPosition.refl r
      · simp only [Bool.false_eq_true, if_false]
        rw [hEq, updateById, List.map_map]

theorem updateQueuePositions_rowwise (f : Faults) (stationId : Nat) (db : List QueueEntry) :
    ∃ g : QueueEntry → QueueEntry, (∀ r, OnlyPosition r (g r))
      ∧ updateQueuePositions f stationId db = db.map g := by
  unfold updateQueuePositions
  split
  · exact ⟨id, OnlyPosition.refl, by simp⟩
  · exact positionLoop_rowwise f _ 0 db

theorem OnlyPosition.id_eq {r r2 : QueueEntry} (h : OnlyPosition r r2) : r2.id = r.id := by
  unfold OnlyPosition at h; rw [h]

theorem OnlyPosition.status_eq {r r2 : QueueEntry} (h : OnlyPosition r r2) :
    r2.status = r.status := by
  unfold OnlyPosition at h; rw [h]

theorem OnlyPosition.served_eq {r r2 : QueueEntry} (h : OnlyPosition r r2) :
    r2.served_amount = r.served_amount := by
  unfold OnlyPosition at h; rw [h]

/-- Every run of `performAction` maps the table row by row: either no row changes, or the
rows with the id of `carData` take the patch of the action and every row may get a new
position. -/
theorem performAction_rowwise (f : Faults) (now : Nat) (s : String) (action : Action)
    (carData : QueueEntry) (db : List QueueEntry) :
    (performAction f now s action carData db).db = db
    ∨ ∃ (u : Updates) (g : QueueEntry → QueueEntry),
        actionUpdates now s action = .ok u ∧ (∀ r, OnlyPosition r (g r))
        ∧ (performAction f now s action carData db).alert = some (successAlert action)
        ∧ (performAction f now s action carData db).db
            = db.map (fun r => g (if r.id = carData.id then u.apply r else r)) := by
  unfold performAction
  cases hu : actionUpdates now s action with
  | error msg => left; rfl
  | ok u =>
    cases hf : f.update with
    | true => left; rfl
    | false =>
      right
      cases hr : action.renumbers with
      | false =>
        exact ⟨u, id, rfl, OnlyPosition.refl, rfl, by simp [hr, updateById]⟩
      | true =>
        obtain ⟨g, hg, hEq⟩ :=
          updateQueuePositions_rowwise f carData.station_user_id (updateById u carData.id db)
        refine ⟨u, g, rfl, hg, rfl, ?_⟩
        simp only [Bool.false_eq_true, if_false, if_true]
        rw [hEq, updateById, List.map_map]
        rfl

theorem forall₂_map_of_forall {R : QueueEntry → QueueEntry → Prop} {g : QueueEntry → QueueEntry}
    {db : List QueueEntry} (h : ∀ r ∈ db, R r (g r)) : List.Forall₂ R db (db.map g) := by
  induction db with
  | nil => exact List.Forall₂.nil
  | cons x xs ih =>
    exact List.Forall₂.cons (h x (List.mem_cons_self _ _))
      (ih (fun r hr => h r (List.mem_cons_of_mem _ hr)))

theorem performAction_success_rowwise {f : Faults} {now : Nat} {s : String} {action : Action}
    {carData : QueueEntry} {db : List QueueEntry}
    (hok : (performAction f now s action carData db).alert = some (successAlert action)) :
    ∃ (u : Updates) (g : QueueEntry → QueueEntry),
      actionUpdates now s action = .ok u ∧ (∀ r, OnlyPosition r (g r))
      ∧ (performAction f now s action carData db).db
          = db.map (fun r => g (if r.id = carData.id then u.apply r else r)) := by
  obtain ⟨u, hu, _, hdb⟩ := performAction_success hok
  cases hr : action.renumbers with
  | false =>
    refine ⟨u, id, hu, OnlyPosition.refl, ?_⟩
    rw [hdb, hr]
    simp [updateById]
  | true =>
    obtain ⟨g, hg, hEq⟩ :=
      updateQueuePositions_rowwise f carData.station_user_id (updateById u carData.id db)
    refine ⟨u, g, hu, hg, ?_⟩
    rw [hdb, hr, if_pos rfl, hEq, updateById, List.map_map]
    rfl

theorem legalTransition_of_expects {action : Action} {s : Status} (h : action.Expects s) :
    LegalTransition s action.target := by
  cases action <;> simp only [Action.Expects] at h
  · exact Or.inl ⟨h, rfl⟩
  · exact Or.inr (Or.inl ⟨h, rfl⟩)
  · rcases h with h | h
    · exact Or.inr (Or.inr (Or.inl ⟨h, rfl⟩))
    · exact Or.inr (Or.inr (Or.inr ⟨h, rfl⟩))
  · rcases h with h | h
    · exact Or.inr (Or.inr (Or.inl ⟨h, rfl⟩))
    · exact Or.inr (Or.inr (Or.inr ⟨h, rfl⟩))

/-! ## Status transitions -/

/-- C8 (amended): `performAction` never reads the stored status; the status it writes is
fixed by the action (start: serving, complete: completed, cancel and skip: cancelled).  So
when the run is accepted and every row with the id of `carData` has the status the action
expects (pending for start, serving for complete, pending or serving for cancel and skip),
each such row makes one of the transitions pending to serving, serving to completed, pending
to cancelled, serving to cancelled, and every other row keeps its status. -/
theorem performAction_transitions (f : Faults) (now : Nat) (servedAmount : String)
    (action : Action) (carData : QueueEntry) (db : List QueueEntry)
    (hpre : ∀ r ∈ db, r.id = carData.id → action.Expects r.status)
    (hok : (performAction f now servedAmount action carData db).alert
      = some (successAlert action)) :
    List.Forall₂
      (fun r r2 => r2.id = r.id
        ∧ (r.id ≠ carData.id → r2.status = r.status)
        ∧ (r.id = carData.id →
            r2.status = action.target ∧ LegalTransition r.status r2.status))
      db (performAction f now servedAmount action carData db).db := by
  obtain ⟨u, g, hu, hg, hdb⟩ := performAction_success_rowwise hok
  have hst := (actionUpdates_status hu).1
  rw [hdb]
  apply forall₂_map_of_forall
  intro r hr
  by_cases hid : r.id = carData.id
  · rw [if_pos hid]
    have hs : (g (u.apply r)).status = action.target := by
      rw [(hg _).status_eq]; exact Updates.apply_status hst r
    refine ⟨by rw [(hg _).id_eq]; rfl, fun h => absurd hid h, fun _ => ⟨hs, ?_⟩⟩
    rw [hs]
    exact legalTransition_of_expects (hpre r hr hid)
  · rw [if_neg hid]
    exact ⟨(hg _).id_eq, fun _ => (hg _).status_eq, fun h => absurd h hid⟩

/-- Witness for C8 (amended): skipping the serving row of a two-row table. -/
theorem performAction_transitions_witness :
    (∀ r ∈ [exampleEntry 1 7 Status.pending 1, exampleEntry 2 7 Status.serving 1],
        r.id = (exampleEntry 2 7 Status.serving 1).id → Action.skip.Expects r.status)
    ∧ List.Forall₂
      (fun r r2 => r2.id = r.id
        ∧ (r.id ≠ (exampleEntry 2 7 Status.serving 1).id → r2.status = r.status)
        ∧ (r.id = (exampleEntry 2 7 Status.serving 1).id →
            r2.status = Action.skip.target ∧ LegalTransition r.status r2.status))
      [exampleEntry 1 7 Status.pending 1, exampleEntry 2 7 Status.serving 1]
      (performAction noFaults 5 "" Action.skip (exampleEntry 2 7 Status.serving 1)
        [exampleEntry 1 7 Status.pending 1, exampleEntry 2 7 Status.serving 1]).db :=
  have hpre : ∀ r ∈ [exampleEntry 1 7 Status.pending 1, exampleEntry 2 7 Status.serving 1],
      r.id = (exampleEntry 2 7 Status.serving 1).id → Action.skip.Expects r.status := by
    intro r hr hid
    simp only [List.mem_cons, List.mem_singleton, List.not_mem_nil, or_false] at hr
    rcases hr with rfl | rfl
    · exact absurd hid (by decide)
    · exact Or.inr rfl
  ⟨hpre, performAction_transitions noFaults 5 "" Action.skip (exampleEntry 2 7 Status.serving 1)
    [exampleEntry 1 7 Status.pending 1, exampleEntry 2 7 Status.serving 1] hpre (by decide)⟩

/-- C8 fails as stated: the dashboard still holds row 1 as serving while the table has it
completed; skip on it is accepted and the row, which was in a terminal status, ends
cancelled. -/
theorem performAction_transitions_counterexample :
    completedEntry.status = Status.completed
    ∧ (performAction noFaults 5 "" Action.skip (exampleEntry 1 7 Status.serving 1)
        [completedEntry]).alert = some (successAlert Action.skip)
    ∧ (performAction noFaults 5 "" Action.skip (exampleEntry 1 7 Status.serving 1)
        [completedEntry]).db
        = [{ completedEntry with status := Status.cancelled }] := by
  decide

/-- C9: no handler writes status pending into an existing row. The patch `performAction`
sends never carries status pending and the patch of the renumbering loop carries no status.
After `performAction` and after `updateQueuePositions` the table has the same rows in the
same places, and a row that is pending afterwards was pending before; `handleLeaveQueue`
only removes rows; `handleConfirmQueue` leaves the existing rows as they are and at most
appends one row, which is pending. -/
theorem no_entry_revisits_pending (f : Faults) (now : Nat) (servedAmount : String)
    (action : Action) (carData : QueueEntry) (stationId queueId : Nat) (user : Option Nat)
    (fuelAmount fuelType : String) (selectedStation : Nat)
    (queueMap : Nat → Option (List QueueEntry)) (db : List QueueEntry) (i : Nat) :
    (∀ u : Updates, actionUpdates now servedAmount action = .ok u →
        u.status ≠ some Status.pending)
    ∧ (positionPatch i).status = none
    ∧ List.Forall₂
        (fun r r2 => r2.id = r.id ∧ (r2.status = Status.pending → r.status = Status.pending))
        db (performAction f now servedAmount action carData db).db
    ∧ List.Forall₂
        (fun r r2 => r2.id = r.id ∧ (r2.status = Status.pending → r.status = Status.pending))
        db (updateQueuePositions f stationId db)
    ∧ List.Sublist (handleLeaveQueue f queueId db).db db
    ∧ ((handleConfirmQueue f now user fuelAmount fuelType selectedStation queueMap db).db = db
        ∨ ∃ e : QueueEntry,
            (handleConfirmQueue f now user fuelAmount fuelType selectedStation queueMap db).db
              = db ++ [e] ∧ e.status = Status.pending) := by
  refine ⟨?_, rfl, ?_, ?_, ?_, ?_⟩
  · intro u hu hp
    rw [(actionUpdates_status hu).1] at hp
    exact action.target_ne_pending (Option.some.inj hp)
  · rcases performAction_rowwise f now servedAmount action carData db with h | h
    · rw [h]
      exact List.forall₂_same.mpr (fun r _ => ⟨rfl, fun h => h⟩)
    · obtain ⟨u, g, hu, hg, _, hdb⟩ := h
      have hst := (actionUpdates_status hu).1
      rw [hdb]
      apply forall₂_map_of_forall
      intro r _
      by_cases hid : r.id = carData.id
      · rw [if_pos hid]
        refine ⟨by rw [(hg _).id_eq]; rfl, fun hp => ?_⟩
        rw [(hg _).status_eq, Updates.apply_status hst r] at hp
        exact absurd hp action.target_ne_pending
      · rw [if_neg hid]
        exact ⟨(hg _).id_eq, fun hp => by rw [(hg _).status_eq] at hp; exact hp⟩
  · obtain ⟨g, hg, hEq⟩ := updateQueuePositions_rowwise f stationId db
    rw [hEq]
    apply forall₂_map_of_forall
    intro r _
    exact ⟨(hg _).id_eq, fun hp => by rw [(hg _).status_eq] at hp; exact hp⟩
  · unfold handleLeaveQueue
    split
    · exact List.Sublist.refl db
    · exact List.filter_sublist db
  · unfold handleConfirmQueue
    split
    · left; rfl
    · cases user with
      | none => left; rfl
      | some uid =>
        cases hi : f.insert with
        | true => left; simp
        | false =>
          right
          exact ⟨newEntry (nextId db) now uid selectedStation fuelType fuelAmount
            (queueCount queueMap selectedStation), by simp, rfl⟩

/-! ## Served amount and status -/

/-- C10 (amended): a freshly inserted row has no served amount and is not completed; and
`performAction` keeps "served amount set exactly when completed" true of every row,
provided every row with the id of `carData` has the status the action expects and, for
complete, the amount text parses to a finite number. -/
theorem servedIffCompleted_preserved (f : Faults) (now : Nat) (servedAmount : String)
    (action : Action) (carData : QueueEntry) (db : List QueueEntry)
    (id0 now0 user0 station0 : Nat) (fuelType0 fuelAmount0 : String) (count0 : Nat)
    (hpre : ∀ r ∈ db, r.id = carData.id → action.Expects r.status)
    (hfin : action = Action.complete → (parseFloat servedAmount).toJson ≠ none) :
    ServedIffCompleted (newEntry id0 now0 user0 station0 fuelType0 fuelAmount0 count0)
    ∧ List.Forall₂
        (fun r r2 => r2.id = r.id ∧ (ServedIffCompleted r → ServedIffCompleted r2))
        db (performAction f now servedAmount action carData db).db := by
  refine ⟨by simp [ServedIffCompleted, newEntry], ?_⟩
  rcases performAction_rowwise f now servedAmount action carData db with h | h
  · rw [h]
    exact List.forall₂_same.mpr (fun r _ => ⟨rfl, fun h => h⟩)
  · obtain ⟨u, g, hu, hg, _, hdb⟩ := h
    rw [hdb]
    apply forall₂_map_of_forall
    intro r hr
    have hkeep : ∀ x : QueueEntry, ServedIffCompleted x → ServedIffCompleted (g x) := by
      intro x hx
      unfold ServedIffCompleted at *
      rw [(hg x).served_eq, (hg x).status_eq]
      exact hx
    by_cases hid : r.id = carData.id
    · rw [if_pos hid]
      refine ⟨by rw [(hg _).id_eq]; rfl, fun hP => hkeep _ ?_⟩
      have hexp := hpre r hr hid
      unfold ServedIffCompleted at hP ⊢
      cases action <;> simp only [actionUpdates] at hu
      · cases hu
        simp only [Action.Expects] at hexp
        simp [Updates.apply, Updates.empty, hexp] at hP ⊢
        exact hP
      · split at hu
        · cases hu
        · cases hu
          have := hfin rfl
          simp [Updates.apply, Updates.empty, this]
      · cases hu
        simp only [Action.Expects] at hexp
        rcases hexp with hexp | hexp <;>
          (simp [Updates.apply, Updates.empty, hexp] at hP ⊢; exact hP)
      · cases hu
        simp only [Action.Expects] at hexp
        rcases hexp with hexp | hexp <;>
          (simp [Updates.apply, Updates.empty, hexp] at hP ⊢; exact hP)
    · rw [if_neg hid]
      exact ⟨(hg _).id_eq, hkeep r⟩

/-- C10 fails as stated: the dashboard still holds row 1 as pending while the table has it
completed with 15.5 litres served; start on it is accepted, and the row ends serving with
its served amount still set. -/
theorem servedIffCompleted_counterexample :
    ServedIffCompleted completedEntry
    ∧ (performAction noFaults 5 "" Action.start (exampleEntry 1 7 Status.pending 1)
        [completedEntry]).alert = some (successAlert Action.start)
    ∧ (performAction noFaults 5 "" Action.start (exampleEntry 1 7 Status.pending 1)
        [completedEntry]).db
        = [{ completedEntry with status := Status.serving, started_at := some 5 }]
    ∧ ¬ ServedIffCompleted
        { completedEntry with status := Status.serving, started_at := some 5 } := by
  decide

/-- Witness for C10 (amended): completing the serving row of a two-row table with 15.5 litres. -/
theorem servedIffCompleted_preserved_witness :
    (∀ r ∈ [exampleEntry 1 7 Status.pending 1, exampleEntry 2 7 Status.serving 1],
        r.id = (exampleEntry 2 7 Status.serving 1).id → Action.complete.Expects r.status)
    ∧ (Action.complete = Action.complete → (parseFloat "15.5").toJson ≠ none)
    ∧ ServedIffCompleted (newEntry 3 9 55 7 "Diesel" "20.0" 2)
    ∧ List.Forall₂
        (fun r r2 => r2.id = r.id ∧ (ServedIffCompleted r → ServedIffCompleted r2))
        [exampleEntry 1 7 Status.pending 1, exampleEntry 2 7 Status.serving 1]
        (performAction noFaults 5 "15.5" Action.complete (exampleEntry 2 7 Status.serving 1)
          [exampleEntry 1 7 Status.pending 1, exampleEntry 2 7 Status.serving 1]).db :=
  have hpre : ∀ r ∈ [exampleEntry 1 7 Status.pending 1, exampleEntry 2 7 Status.serving 1],
      r.id = (exampleEntry 2 7 Status.serving 1).id → Action.complete.Expects r.status := by
    intro r hr hid
    simp only [List.mem_cons, List.mem_singleton, List.not_mem_nil, or_false] at hr
    rcases hr with rfl | rfl
    · exact absurd hid (by decide)
    · exact rfl
  have hfin : Action.complete = Action.complete → (parseFloat "15.5").toJson ≠ none :=
    fun _ => by decide
  ⟨hpre, hfin,
    servedIffCompleted_preserved noFaults 5 "15.5" Action.complete
      (exampleEntry 2 7 Status.serving 1)
      [exampleEntry 1 7 Status.pending 1, exampleEntry 2 7 Status.serving 1]
      3 9 55 7 "Diesel" "20.0" 2 hpre hfin⟩

/-! ## Lemmas on the contiguous-position invariant -/

theorem oneTo_succ (n : Nat) : oneTo (n + 1) = oneTo n ++ [(n : Int) + 1] := by
  simp [oneTo, List.range_succ]

theorem eq_of_id_eq {db : List QueueEntry} (h : UniqueIds db) {a b : QueueEntry}
    (ha : a ∈ db) (hb : b ∈ db) (hid : a.id = b.id) : a = b := by
  have h1 := findById_of_mem h ha
  have h2 := findById_of_mem h hb
  rw [hid, h2] at h1
  exact (Option.some.inj h1).symm

theorem filter_ne_id_eq_erase : ∀ {L : List QueueEntry}, UniqueIds L → ∀ {r : QueueEntry},
    r ∈ L → L.filter (fun y => y.id != r.id) = L.erase r := by
  intro L
  induction L with
  | nil => intro _ r hr; simp at hr
  | cons y ys ih =>
    intro hu r hr
    have hnd := List.nodup_cons.mp (show (y.id :: ys.map (fun r => r.id)).Nodup from hu)
    by_cases hyr : y = r
    · subst hyr
      have hall : ∀ a ∈ ys, (a.id != y.id) = true := by
        intro a ha
        have : a.id ≠ y.id := fun heq => hnd.1 (heq ▸ List.mem_map_of_mem (fun r => r.id) ha)
        simpa using this
      rw [List.filter_cons, List.erase_cons_head]
      simp only [bne_self_eq_false, Bool.false_eq_true, if_false]
      exact List.filter_eq_self.mpr hall
    · have hr' : r ∈ ys := by
        rcases List.mem_cons.mp hr with h | h
        · exact absurd h.symm hyr
        · exact h
      have hne : y.id ≠ r.id := fun heq => hnd.1 (heq ▸ List.mem_map_of_mem (fun r => r.id) hr')
      have hb : (y.id != r.id) = true := by simpa using hne
      rw [List.filter_cons, if_pos hb, List.erase_cons_tail (by simpa using hyr), ih hnd.2 hr']

/-- Removing the rows with one id from a list of rows whose positions are `1..N` leaves
positions `1..N-1`, as long as a row removed holds position `N`. -/
theorem perm_oneTo_filter_last {L : List QueueEntry} (hu : UniqueIds L) (x : Nat)
    (hperm : List.Perm (L.map (fun r => r.queue_position)) (oneTo L.length))
    (hlast : ∀ r ∈ L, r.id = x → r.queue_position = (L.length : Int)) :
    List.Perm ((L.filter (fun y => y.id != x)).map (fun r => r.queue_position))
      (oneTo (L.filter (fun y => y.id != x)).length) := by
  by_cases hex : ∃ r ∈ L, r.id = x
  · obtain ⟨r, hr, hrx⟩ := hex
    subst hrx
    rw [filter_ne_id_eq_erase hu hr]
    have hlen : (L.erase r).length + 1 = L.length := by
      rw [List.length_erase_of_mem hr]
      have : 0 < L.length := List.length_pos_of_mem hr
      omega
    have hp0 : List.Perm ((r :: L.erase r).map (fun r => r.queue_position))
        (L.map (fun r => r.queue_position)) :=
      (List.perm_cons_erase hr).symm.map _
    have hp1 : List.Perm (r.queue_position :: (L.erase r).map (fun r => r.queue_position))
        (oneTo L.length) := by
      rw [List.map_cons] at hp0
      exact hp0.trans hperm
    have hrpos : r.queue_position = (((L.erase r).length : Nat) : Int) + 1 := by
      rw [hlast r hr rfl, ← hlen]; push_cast; rfl
    rw [← hlen, oneTo_succ, hrpos] at hp1
    have hp2 : List.Perm (oneTo (L.erase r).length ++ [(((L.erase r).length : Nat) : Int) + 1])
        (((((L.erase r).length : Nat) : Int) + 1) :: oneTo (L.erase r).length) :=
      List.perm_append_singleton _ _
    exact (List.Perm.cons_inv (hp1.trans hp2))
  · have hall : ∀ a ∈ L, (a.id != x) = true := by
      intro a ha
      have : a.id ≠ x := fun heq => hex ⟨a, ha, heq⟩
      simpa using this
    rw [List.filter_eq_self.mpr hall]
    exact hperm

theorem pendingAt_map_fix {g : QueueEntry → QueueEntry} {stationId : Nat} :
    ∀ {db : List QueueEntry},
    (∀ r ∈ db, (g r).station_user_id = r.station_user_id) →
    (∀ r ∈ db, r.station_user_id = stationId → g r = r) →
    pendingAt stationId (db.map g) = pendingAt stationId db := by
  intro db
  induction db with
  | nil => intro _ _; rfl
  | cons x xs ih =>
    intro hst hfix
    have ih' := ih (fun r hr => hst r (List.mem_cons_of_mem _ hr))
      (fun r hr => hfix r (List.mem_cons_of_mem _ hr))
    unfold pendingAt at ih' ⊢
    rw [List.map_cons, List.filter_cons, List.filter_cons, ih']
    by_cases hx : x.station_user_id = stationId
    · rw [hfix x (List.mem_cons_self _ _) hx]
    · have h1 : ((g x).station_user_id == stationId) = false := by
        rw [hst x (List.mem_cons_self _ _)]; simpa using hx
      have h2 : (x.station_user_id == stationId) = false := by simpa using hx
      simp [h1, h2]

theorem pendingAt_deleteById (stationId id : Nat) (db : List QueueEntry) :
    pendingAt stationId (deleteById id db)
      = (pendingAt stationId db).filter (fun r => r.id != id) := by
  unfold pendingAt deleteById
  rw [List.filter_filter, List.filter_filter]
  apply List.filter_congr
  intro r _
  exact Bool.and_comm _ _

theorem pendingAt_append_singleton (stationId : Nat) (db : List QueueEntry) (e : QueueEntry) :
    pendingAt stationId (db ++ [e])
      = if e.station_user_id = stationId ∧ e.status = Status.pending
        then pendingAt stationId db ++ [e] else pendingAt stationId db := by
  unfold pendingAt
  rw [List.filter_append]
  by_cases h : e.station_user_id = stationId ∧ e.status = Status.pending
  · rw [if_pos h]; simp [h.1, h.2]
  · rw [if_neg h]
    have : (e.station_user_id == stationId && e.status == Status.pending) = false := by
      rw [not_and_or] at h
      rcases h with h | h <;> simp [h]
    simp [this]

theorem contiguous_of_pendingAt_eq {stationId : Nat} {db db2 : List QueueEntry}
    (h : pendingAt stationId db2 = pendingAt stationId db) (hc : Contiguous stationId db) :
    Contiguous stationId db2 := by
  unfold Contiguous pendingPositions at *
  rw [h]; exact hc

/-- The table `performAction` leaves: the table it got, or the patched table, renumbered
when the action is not start. -/
theorem performAction_db (f : Faults) (now : Nat) (s : String) (action : Action)
    (carData : QueueEntry) (db : List QueueEntry) :
    (performAction f now s action carData db).db = db
    ∨ ∃ u : Updates, actionUpdates now s action = .ok u ∧
        (performAction f now s action carData db).db
          = if action.renumbers then
              updateQueuePositions f carData.station_user_id (updateById u carData.id db)
            else updateById u carData.id db := by
  unfold performAction
  cases hu : actionUpdates now s action with
  | error msg => left; rfl
  | ok u =>
    cases hf : f.update with
    | true => left; rfl
    | false => right; exact ⟨u, rfl, by simp⟩

theorem mem_pendingAt {stationId : Nat} {db : List QueueEntry} {r : QueueEntry}
    (h : r ∈ pendingAt stationId db) :
    r ∈ db ∧ r.station_user_id = stationId ∧ r.status = Status.pending := by
  unfold pendingAt at h
  have h2 := (List.mem_filter.mp h).2
  simp only [Bool.and_eq_true, beq_iff_eq] at h2
  exact ⟨(List.mem_filter.mp h).1, h2.1, h2.2⟩

theorem contiguous_filter_last {db : List QueueEntry} (huniq : UniqueIds db) (stationId x : Nat)
    (hc : Contiguous stationId db)
    (hlast : ∀ r ∈ db, r.id = x → r.status = Status.pending →
      r.queue_position = ((pendingAt r.station_user_id db).length : Int)) :
    List.Perm (((pendingAt stationId db).filter (fun y => y.id != x)).map
        (fun r => r.queue_position))
      (oneTo ((pendingAt stationId db).filter (fun y => y.id != x)).length) := by
  apply perm_oneTo_filter_last (pendingAt_uniqueIds huniq stationId) x hc
  intro r hr hid
  obtain ⟨hdb, hst, hs⟩ := mem_pendingAt hr
  have := hlast r hdb hid hs
  rw [hst] at this
  exact this

/-! ## The contiguous-position invariant -/

/-- C1 (amended): let the select and the position writes be accepted and ids be unique, and
let the pending positions of a station be exactly `1..N` before. They are again exactly
`1..N'` after complete, skip and cancel, which end with the renumbering pass, when `carData`
names the station of its row; after start and after withdraw, which do not renumber, when
the row acted on is not pending or holds the last position `N` of its station; and after
submit on the current snapshot when the selected station has no serving row. -/
theorem contiguous_preserved (f : Faults) (now : Nat) (servedAmount : String) (action : Action)
    (carData : QueueEntry) (queueId : Nat) (user : Option Nat) (fuelAmount fuelType : String)
    (selectedStation : Nat) (db : List QueueEntry) (stationId : Nat)
    (hsel : f.select = false) (hpos : ∀ i, f.position i = false) (huniq : UniqueIds db)
    (hc : Contiguous stationId db) :
    (action ≠ Action.start →
      (∀ r ∈ db, r.id = carData.id → r.station_user_id = carData.station_user_id) →
      Contiguous stationId (performAction f now servedAmount action carData db).db)
    ∧ ((∀ r ∈ db, r.id = carData.id → r.status = Status.pending →
          r.queue_position = ((pendingAt r.station_user_id db).length : Int)) →
      Contiguous stationId (performAction f now servedAmount Action.start carData db).db)
    ∧ ((∀ r ∈ db, r.id = queueId → r.status = Status.pending →
          r.queue_position = ((pendingAt r.station_user_id db).length : Int)) →
      Contiguous stationId (handleLeaveQueue f queueId db).db)
    ∧ (servingAt selectedStation db = [] →
      Contiguous stationId
        (handleConfirmQueue f now user fuelAmount fuelType selectedStation
          (fetchQueues db) db).db) := by
  refine ⟨?_, ?_, ?_, ?_⟩
  · intro hact hrow
    rcases performAction_db f now servedAmount action carData db with h | ⟨u, hu, hdb⟩
    · rw [h]; exact hc
    · have hren : action.renumbers = true := by
        cases action
        · exact absurd rfl hact
        · rfl
        · rfl
        · rfl
      rw [hren, if_pos rfl] at hdb
      have hu1 : UniqueIds (updateById u carData.id db) := updateById_uniqueIds huniq
      rw [hdb, updateQueuePositions_eq_map f hsel hpos _ hu1]
      by_cases hs : stationId = carData.station_user_id
      · rw [hs]
        exact contiguous_map_renumberRow hu1 _
      · apply contiguous_of_pendingAt_eq _ hc
        have h1 : pendingAt stationId
            ((updateById u carData.id db).map
              (renumberRow (selectPendingCars carData.station_user_id
                (updateById u carData.id db)) 0))
            = pendingAt stationId (updateById u carData.id db) := by
          apply pendingAt_map_fix
          · intro r _; exact renumberRow_station _ _ r
          · intro r hr hst
            apply renumberRow_of_not_mem
            intro hmem
            have hmem2 := (selectPendingCars_perm carData.station_user_id
              (updateById u carData.id db)).mem_iff.mp hmem
            obtain ⟨r2, hr2, hid2⟩ := List.mem_map.mp hmem2
            obtain ⟨hr2db, hr2st, _⟩ := mem_pendingAt hr2
            have heq := eq_of_id_eq hu1 hr2db hr hid2
            rw [heq] at hr2st
            exact hs (hst.symm.trans hr2st)
        have h2 : pendingAt stationId (updateById u carData.id db) = pendingAt stationId db := by
          unfold updateById
          apply pendingAt_map_fix
          · intro r _
            split
            · rfl
            · rfl
          · intro r hr hst
            have hne : r.id ≠ carData.id := by
              intro hid
              exact hs (hst.symm.trans (hrow r hr hid))
            rw [if_neg hne]
        rw [h1, h2]
  · intro hlast
    rcases performAction_db f now servedAmount Action.start carData db with h | ⟨u, hu, hdb⟩
    · rw [h]; exact hc
    · have hst := (actionUpdates_status hu).1
      have hdb2 : (performAction f now servedAmount Action.start carData db).db
          = updateById u carData.id db := by
        rw [hdb]; rfl
      unfold Contiguous pendingPositions
      rw [hdb2, pendingAt_updateById hst Action.start.target_ne_pending]
      exact contiguous_filter_last huniq stationId carData.id hc hlast
  · intro hlast
    unfold handleLeaveQueue
    split
    · exact hc
    · unfold Contiguous pendingPositions
      rw [pendingAt_deleteById]
      exact contiguous_filter_last huniq stationId queueId hc hlast
  · intro hserv
    unfold handleConfirmQueue
    split
    · exact hc
    · cases user with
      | none => exact hc
      | some uid =>
        cases hi : f.insert with
        | true => exact hc
        | false =>
          simp only [Bool.false_eq_true, if_false]
          unfold Contiguous pendingPositions
          rw [pendingAt_append_singleton]
          by_cases hs : selectedStation = stationId
          · have hcond : (newEntry (nextId db) now uid selectedStation fuelType fuelAmount
                (queueCount (fetchQueues db) selectedStation)).station_user_id = stationId
                ∧ (newEntry (nextId db) now uid selectedStation fuelType fuelAmount
                (queueCount (fetchQueues db) selectedStation)).status = Status.pending :=
              ⟨hs, rfl⟩
            rw [if_pos hcond, List.map_append, List.length_append, List.length_singleton,
              oneTo_succ, List.map_singleton]
            have hpos : (newEntry (nextId db) now uid selectedStation fuelType fuelAmount
                (queueCount (fetchQueues db) selectedStation)).queue_position
                = ((pendingAt stationId db).length : Int) + 1 := by
              show ((queueCount (fetchQueues db) selectedStation : Nat) : Int) + 1 = _
              rw [queueCount_fetchQueues, hserv, hs]
              simp
            rw [hpos]
            exact List.Perm.append_right _ hc
          · have hcond : ¬ ((newEntry (nextId db) now uid selectedStation fuelType fuelAmount
                (queueCount (fetchQueues db) selectedStation)).station_user_id = stationId
                ∧ (newEntry (nextId db) now uid selectedStation fuelType fuelAmount
                (queueCount (fetchQueues db) selectedStation)).status = Status.pending) :=
              fun h => hs h.1
            rw [if_neg hcond]
            exact hc

/-- Witness for C1 (amended) on the table of cars A, B, C at positions 1, 2, 3. -/
theorem contiguous_preserved_witness :
    UniqueIds abcTable ∧ Contiguous 7 abcTable
    ∧ Contiguous 7
        (performAction noFaults 5 "" Action.cancel (exampleEntry 2 7 Status.pending 2) abcTable).db
    ∧ Contiguous 7
        (performAction noFaults 5 "" Action.start (exampleEntry 3 7 Status.pending 3) abcTable).db
    ∧ Contiguous 7 (handleLeaveQueue noFaults 3 abcTable).db
    ∧ Contiguous 7
        (handleConfirmQueue noFaults 9 (some 55) "20.0" "Diesel" 7 (fetchQueues abcTable)
          abcTable).db :=
  have h := contiguous_preserved noFaults 5 "" Action.cancel (exampleEntry 2 7 Status.pending 2)
    3 (some 55) "20.0" "Diesel" 7 abcTable 7 rfl (fun _ => rfl) (by decide) (by decide)
  have h2 := contiguous_preserved noFaults 5 "" Action.start (exampleEntry 3 7 Status.pending 3)
    3 (some 55) "20.0" "Diesel" 7 abcTable 7 rfl (fun _ => rfl) (by decide) (by decide)
  ⟨by decide, by decide, h.1 (by decide) (by decide), h2.2.1 (by decide), h.2.2.1 (by decide),
    h.2.2.2 (by decide)⟩

/-- C1 fails as stated. On the table of cars A, B, C at positions 1, 2, 3: start on A leaves
pending positions 2, 3, and withdrawing A leaves 2, 3. On a table with one pending row at
position 1 and one serving row, a submit on the current snapshot adds position 3. -/
theorem contiguous_preserved_counterexample :
    Contiguous 7 abcTable
    ∧ pendingPositions 7
        (performAction noFaults 5 "" Action.start (exampleEntry 1 7 Status.pending 1) abcTable).db
      = [2, 3]
    ∧ ¬ Contiguous 7
        (performAction noFaults 5 "" Action.start (exampleEntry 1 7 Status.pending 1) abcTable).db
    ∧ pendingPositions 7 (handleLeaveQueue noFaults 1 abcTable).db = [2, 3]
    ∧ ¬ Contiguous 7 (handleLeaveQueue noFaults 1 abcTable).db
    ∧ Contiguous 7 pendingAndServingTable
    ∧ pendingPositions 7
        (handleConfirmQueue noFaults 9 (some 55) "20.0" "Diesel" 7
          (fetchQueues pendingAndServingTable) pendingAndServingTable).db
      = [1, 3]
    ∧ ¬ Contiguous 7
        (handleConfirmQueue noFaults 9 (some 55) "20.0" "Diesel" 7
          (fetchQueues pendingAndServingTable) pendingAndServingTable).db := by
  decide

/-! ## Cars ahead (`fetchMyQueues`) -/

theorem countAhead_eq_computeCarsAhead (q : QueueEntry) (db : List QueueEntry) :
    countAhead q db = computeCarsAhead q db := by
  unfold countAhead computeCarsAhead
  rw [List.filter_filter, List.filter_filter, List.countP_eq_length_filter]
  congr 1
  apply List.filter_congr
  intro r _
  by_cases h1 : r.station_user_id = q.station_user_id <;>
    by_cases h2 : r.status = Status.pending <;>
    by_cases h3 : r.queue_position < q.queue_position <;> simp [h1, h2, h3]

theorem mem_attachCarsAhead {rf : ReadFaults} {db : List QueueEntry} :
    ∀ {rows : List QueueEntry} {i : Nat} {c : QueueCard}, c ∈ attachCarsAhead rf db rows i →
      c.entry ∈ rows ∧ (c.carsAhead = countAhead c.entry db ∨ c.carsAhead = 0) := by
  intro rows
  induction rows with
  | nil => intro i c h; simp [attachCarsAhead] at h
  | cons q rest ih =>
    intro i c h
    simp only [attachCarsAhead, List.mem_cons] at h
    rcases h with h | h
    · subst h
      refine ⟨List.mem_cons_self _ _, ?_⟩
      by_cases hc : rf.count i = true
      · right; simp [hc]
      · left; simp [hc]
    · obtain ⟨h1, h2⟩ := ih h
      exact ⟨List.mem_cons_of_mem _ h1, h2⟩

theorem attachCarsAhead_of_accepted {rf : ReadFaults} (hcount : ∀ i, rf.count i = false)
    (db : List QueueEntry) : ∀ (rows : List QueueEntry) (i : Nat),
      attachCarsAhead rf db rows i = rows.map (fun q => ⟨q, countAhead q db⟩) := by
  intro rows
  induction rows with
  | nil => intro i; rfl
  | cons q rest ih =>
    intro i
    simp [attachCarsAhead, hcount, ih]

theorem mem_selectMyQueues {uid : Nat} {db : List QueueEntry} {r : QueueEntry} :
    r ∈ selectMyQueues uid db ↔
      r ∈ db ∧ r.car_user_id = uid ∧ (r.status = Status.pending ∨ r.status = Status.serving) := by
  unfold selectMyQueues orderByCreatedAtDesc
  rw [(List.perm_insertionSort _ _).mem_iff]
  simp only [List.mem_filter, beq_iff_eq, Bool.or_eq_true]
  tauto

/-- C12: when the reads are accepted, `fetchMyQueues` lists exactly the signed-in car's rows
with status pending or serving, and the `carsAhead` attached to each is the number of rows
at the same station with status pending and a `queue_position` strictly below its own. -/
theorem fetchMyQueues_carsAhead (rf : ReadFaults) (uid : Nat) (db : List QueueEntry)
    (hsel : rf.select = false) (hcount : ∀ i, rf.count i = false) :
    ∃ cards : List QueueCard, fetchMyQueues rf (some uid) db = some cards
      ∧ (∀ e : QueueEntry, e ∈ cards.map (fun c => c.entry) ↔
          e ∈ db ∧ e.car_user_id = uid
            ∧ (e.status = Status.pending ∨ e.status = Status.serving))
      ∧ ∀ c ∈ cards, c.carsAhead = computeCarsAhead c.entry db := by
  refine ⟨(selectMyQueues uid db).map (fun q => ⟨q, countAhead q db⟩), ?_, ?_, ?_⟩
  · simp [fetchMyQueues, hsel, attachCarsAhead_of_accepted hcount]
  · intro e
    rw [List.map_map]
    have hid : ((fun c : QueueCard => c.entry) ∘ fun q => (⟨q, countAhead q db⟩ : QueueCard))
        = id := rfl
    rw [hid, List.map_id]
    exact mem_selectMyQueues
  · intro c hc
    obtain ⟨q, _, rfl⟩ := List.mem_map.mp hc
    exact countAhead_eq_computeCarsAhead q db

/-- Witness for C12 on the table with gaps, for the car of row 4. -/
theorem fetchMyQueues_carsAhead_witness :
    ∃ cards : List QueueCard, fetchMyQueues noReadFaults (some 104) gapTable = some cards
      ∧ (∀ e : QueueEntry, e ∈ cards.map (fun c => c.entry) ↔
          e ∈ gapTable ∧ e.car_user_id = 104
            ∧ (e.status = Status.pending ∨ e.status = Status.serving))
      ∧ ∀ c ∈ cards, c.carsAhead = computeCarsAhead c.entry gapTable :=
  fetchMyQueues_carsAhead noReadFaults 104 gapTable rfl (fun _ => rfl)

theorem computeCarsAhead_eq_zero {e : QueueEntry} {db : List QueueEntry}
    (hlow : ∀ r ∈ pendingAt e.station_user_id db, e.queue_position ≤ r.queue_position) :
    computeCarsAhead e db = 0 := by
  unfold computeCarsAhead
  rw [List.countP_eq_zero]
  intro r hr hp
  simp only [decide_eq_true_eq] at hp
  have hmem : r ∈ pendingAt e.station_user_id db := by
    unfold pendingAt
    rw [List.mem_filter]
    exact ⟨hr, by simp [hp.1, hp.2.1]⟩
  exact absurd hp.2.2 (not_lt.mpr (hlow r hmem))

/-- C13: a pending entry in the car's list whose `queue_position` is the lowest among the
pending rows of its station has `carsAhead = 0`, whatever the positions are and whether or
not the count query is accepted. -/
theorem head_of_line_carsAhead (rf : ReadFaults) (user : Option Nat) (db : List QueueEntry)
    (cards : List QueueCard) (c : QueueCard)
    (hfetch : fetchMyQueues rf user db = some cards) (hc : c ∈ cards)
    (hpend : c.entry.status = Status.pending)
    (hlow : ∀ r ∈ pendingAt c.entry.station_user_id db,
      c.entry.queue_position ≤ r.queue_position) :
    c.carsAhead = 0 ∧ computeCarsAhead c.entry db = 0
      ∧ c.entry ∈ pendingAt c.entry.station_user_id db := by
  have hzero := computeCarsAhead_eq_zero hlow
  cases user with
  | none => simp [fetchMyQueues] at hfetch
  | some uid =>
    unfold fetchMyQueues at hfetch
    by_cases hs : rf.select = true
    · simp [hs] at hfetch
    · simp only [hs, Bool.false_eq_true, if_false, Option.some.injEq] at hfetch
      subst hfetch
      obtain ⟨hmem, hval⟩ := mem_attachCarsAhead hc
      refine ⟨?_, hzero, ?_⟩
      · rcases hval with h | h
        · rw [h, countAhead_eq_computeCarsAhead]; exact hzero
        · exact h
      · unfold pendingAt
        rw [List.mem_filter]
        exact ⟨(mem_selectMyQueues.mp hmem).1, by simp [hpend]⟩

/-- Witness for C13: on the table with pending positions 5, 2, 9 the head of the line is
row 2, and its car sees 0 cars ahead. -/
theorem head_of_line_carsAhead_witness :
    fetchMyQueues noReadFaults (some 102) gapTable
        = some [⟨exampleEntry 2 7 Status.pending 2, 0⟩]
    ∧ (∀ r ∈ pendingAt 7 gapTable, (2 : Int) ≤ r.queue_position)
    ∧ ((⟨exampleEntry 2 7 Status.pending 2, 0⟩ : QueueCard).carsAhead = 0
        ∧ computeCarsAhead (exampleEntry 2 7 Status.pending 2) gapTable = 0
        ∧ exampleEntry 2 7 Status.pending 2 ∈ pendingAt 7 gapTable) :=
  ⟨by decide, by decide,
    head_of_line_carsAhead noReadFaults (some 102) gapTable
      [⟨exampleEntry 2 7 Status.pending 2, 0⟩] ⟨exampleEntry 2 7 Status.pending 2, 0⟩
      (by decide) (by decide) rfl (by decide)⟩

/-- C14 (amended): for a serving entry in the car's list the card prints `0`; the
`carsAhead` attached to it is computed like for any other entry, the number of pending rows
at its station with a lower `queue_position`, and so is 0 when no pending row of the station
has a lower position. -/
theorem serving_card_carsAhead (rf : ReadFaults) (user : Option Nat) (db : List QueueEntry)
    (cards : List QueueCard) (c : QueueCard)
    (hfetch : fetchMyQueues rf user db = some cards) (hc : c ∈ cards)
    (hcount : ∀ i, rf.count i = false)
    (hserving : c.entry.status = Status.serving) :
    displayedCarsAhead c = "0"
    ∧ c.carsAhead = computeCarsAhead c.entry db
    ∧ ((∀ r ∈ pendingAt c.entry.station_user_id db,
          c.entry.queue_position ≤ r.queue_position) → c.carsAhead = 0) := by
  have hval : c.carsAhead = computeCarsAhead c.entry db := by
    cases user with
    | none => simp [fetchMyQueues] at hfetch
    | some uid =>
      unfold fetchMyQueues at hfetch
      by_cases hs : rf.select = true
      · simp [hs] at hfetch
      · simp only [hs, Bool.false_eq_true, if_false, Option.some.injEq] at hfetch
        subst hfetch
        rw [attachCarsAhead_of_accepted hcount] at hc
        obtain ⟨q, _, rfl⟩ := List.mem_map.mp hc
        exact countAhead_eq_computeCarsAhead q db
  refine ⟨by simp [displayedCarsAhead, hserving], hval, fun hlow => ?_⟩
  rw [hval]
  exact computeCarsAhead_eq_zero hlow

/-- Witness for C14 (amended): car B is serving at position 2 behind pending car A. -/
theorem serving_card_carsAhead_witness :
    fetchMyQueues noReadFaults (some 102) servingBehindTable
        = some [⟨exampleEntry 2 7 Status.serving 2, 1⟩]
    ∧ (displayedCarsAhead ⟨exampleEntry 2 7 Status.serving 2, 1⟩ = "0"
      ∧ (⟨exampleEntry 2 7 Status.serving 2, 1⟩ : QueueCard).carsAhead
          = computeCarsAhead (exampleEntry 2 7 Status.serving 2) servingBehindTable
      ∧ ((∀ r ∈ pendingAt 7 servingBehindTable, (2 : Int) ≤ r.queue_position) →
          (⟨exampleEntry 2 7 Status.serving 2, 1⟩ : QueueCard).carsAhead = 0)) :=
  ⟨by decide,
    serving_card_carsAhead noReadFaults (some 102) servingBehindTable
      [⟨exampleEntry 2 7 Status.serving 2, 1⟩] ⟨exampleEntry 2 7 Status.serving 2, 1⟩
      (by decide) (by decide) (fun _ => rfl) rfl⟩

/-- C14 fails as stated: car B is serving at position 2 while car A is pending at position
1; the value attached to B's entry is 1, not 0 (the card prints `0`). -/
theorem serving_card_carsAhead_counterexample :
    (exampleEntry 2 7 Status.serving 2).status = Status.serving
    ∧ fetchMyQueues noReadFaults (some 102) servingBehindTable
        = some [⟨exampleEntry 2 7 Status.serving 2, 1⟩]
    ∧ (⟨exampleEntry 2 7 Status.serving 2, 1⟩ : QueueCard).carsAhead ≠ 0
    ∧ displayedCarsAhead ⟨exampleEntry 2 7 Status.serving 2, 1⟩ = "0" := by
  decide

/-! ## Frame of `performAction`: complete and start -/

theorem positionLoop_fix (f : Faults) : ∀ (ids : List Nat) (i : Nat) (db : List QueueEntry),
    ∃ g : QueueEntry → QueueEntry, (∀ r, r.id ∉ ids → g r = r) ∧ (∀ r, (g r).id = r.id)
      ∧ positionLoop f ids i db = db.map g := by
  intro ids
  induction ids with
  | nil => intro i db; exact ⟨id, fun _ _ => rfl, fun _ => rfl, by simp [positionLoop]⟩
  | cons a rest ih =>
    intro i db
    simp only [positionLoop]
    cases f.position i with
    | true =>
      obtain ⟨g, hfix, hid, hEq⟩ := ih (i + 1) db
      refine ⟨g, fun r hr => hfix r (fun h => hr (List.mem_cons_of_mem _ h)), hid, ?_⟩
      simpa using hEq
    | false =>
      obtain ⟨g, hfix, hid, hEq⟩ := ih (i + 1) (updateById (positionPatch i) a db)
      refine ⟨g ∘ (fun r => if r.id = a then (positionPatch i).apply r else r), ?_, ?_, ?_⟩
      · intro r hr
        have hne : r.id ≠ a := fun h => hr (h ▸ List.mem_cons_self _ _)
        simp only [Function.comp, if_neg hne]
        exact hfix r (fun h => hr (List.mem_cons_of_mem _ h))
      · intro r
        simp only [Function.comp]
        rw [hid]
        split <;> rfl
      · simp only [Bool.false_eq_true, if_false]
        rw [hEq, updateById, List.map_map]

theorem updateQueuePositions_fix (f : Faults) (stationId : Nat) (db : List QueueEntry) :
    ∃ g : QueueEntry → QueueEntry,
      (∀ r, r.id ∉ selectPendingCars stationId db → g r = r) ∧ (∀ r, (g r).id = r.id)
      ∧ updateQueuePositions f stationId db = db.map g := by
  unfold updateQueuePositions
  split
  · exact ⟨id, fun _ _ => rfl, fun _ => rfl, by simp⟩
  · exact positionLoop_fix f _ 0 db

theorem not_mem_selectPendingCars {stationId : Nat} {db : List QueueEntry} (h : UniqueIds db)
    {r : QueueEntry} (hr : r ∈ db) (hs : r.status ≠ Status.pending) :
    r.id ∉ selectPendingCars stationId db := by
  intro hmem
  have hmem2 := (selectPendingCars_perm stationId db).mem_iff.mp hmem
  obtain ⟨r2, hr2, hid2⟩ := List.mem_map.mp hmem2
  obtain ⟨hr2db, _, hr2s⟩ := mem_pendingAt hr2
  have heq := eq_of_id_eq h hr2db hr hid2
  rw [heq] at hr2s
  exact hs hr2s

theorem amountRejected_of_fin {s : String} {d : Decimal} (hfin : parseFloat s = JSNumber.fin d)
    (hpos : (JSNumber.fin d).leZero = false) : amountRejected s = false := by
  unfold amountRejected
  rw [hfin, hpos, Bool.or_false]
  cases hdata : s.data with
  | nil =>
    have hnan : parseFloat s = JSNumber.nan := by
      unfold parseFloat; rw [hdata]; rfl
    rw [hnan] at hfin
    cases hfin
  | cons c cs => rfl

theorem mem_updateById_of_mem {u : Updates} {id : Nat} {db : List QueueEntry} {r : QueueEntry}
    (hr : r ∈ db) (hid : r.id = id) : u.apply r ∈ updateById u id db := by
  unfold updateById
  exact List.mem_map.mpr ⟨r, hr, by rw [if_pos hid]⟩

/-- C11: when the amount text parses to a finite number `a > 0` and the store accepts the
update, `performAction` with action complete reports success and leaves the entry with the
id of `carData` with status completed, `served_amount = a` and `completed_at = now`, every
other field as it was (ids unique). This holds whatever status the entry had, serving in
particular, and whatever the renumbering pass does. -/
theorem performAction_complete_postcondition (f : Faults) (now : Nat) (servedAmount : String)
    (carData : QueueEntry) (db : List QueueEntry) (r : QueueEntry) (a : Decimal)
    (huniq : UniqueIds db) (hr : r ∈ db) (hid : r.id = carData.id)
    (hfin : parseFloat servedAmount = JSNumber.fin a)
    (hpos : (JSNumber.fin a).leZero = false) (hupd : f.update = false) :
    (performAction f now servedAmount Action.complete carData db).alert
      = some (successAlert Action.complete)
    ∧ findById carData.id (performAction f now servedAmount Action.complete carData db).db
      = some { r with status := Status.completed
                      served_amount := some a
                      completed_at := some now } := by
  have hrej := amountRejected_of_fin hfin hpos
  have hu : actionUpdates now servedAmount Action.complete
      = .ok { Updates.empty with
              status := some Status.completed
              served_amount := some (some a)
              completed_at := some now } := by
    simp [actionUpdates, hrej, hfin, JSNumber.toJson]
  have hdb : performAction f now servedAmount Action.complete carData db
      = ⟨updateQueuePositions f carData.station_user_id
          (updateById { Updates.empty with
              status := some Status.completed
              served_amount := some (some a)
              completed_at := some now } carData.id db),
        some (successAlert Action.complete)⟩ := by
    simp [performAction, hu, hupd, Action.renumbers]
  rw [hdb]
  refine ⟨rfl, ?_⟩
  have hu1 : UniqueIds (updateById { Updates.empty with
              status := some Status.completed
              served_amount := some (some a)
              completed_at := some now } carData.id db) := updateById_uniqueIds huniq
  have hmem := mem_updateById_of_mem (u := { Updates.empty with
              status := some Status.completed
              served_amount := some (some a)
              completed_at := some now }) hr hid
  obtain ⟨g, hfix, hgid, hEq⟩ := updateQueuePositions_fix f carData.station_user_id
    (updateById { Updates.empty with
              status := some Status.completed
              served_amount := some (some a)
              completed_at := some now } carData.id db)
  have hnot := @not_mem_selectPendingCars carData.station_user_id _ hu1 _ hmem
    (by simp [Updates.apply, Updates.empty])
  rw [hEq, findById_map hgid]
  have hfind := findById_of_mem hu1 hmem
  rw [Updates.apply_id, hid] at hfind
  rw [hfind, Option.map_some', hfix _ hnot]
  rfl

/-- Witness for C11: completing the serving row of a two-row table with 15.5 litres. -/
theorem performAction_complete_postcondition_witness :
    parseFloat "15.5" = JSNumber.fin ⟨false, 155, -1⟩
    ∧ (performAction noFaults 5 "15.5" Action.complete (exampleEntry 2 7 Status.serving 1)
        pendingAndServingTable).alert = some (successAlert Action.complete)
    ∧ findById (exampleEntry 2 7 Status.serving 1).id
        (performAction noFaults 5 "15.5" Action.complete (exampleEntry 2 7 Status.serving 1)
          pendingAndServingTable).db
      = some { exampleEntry 2 7 Status.serving 1 with
                status := Status.completed
                served_amount := some ⟨false, 155, -1⟩
                completed_at := some 5 } :=
  ⟨by decide,
    performAction_complete_postcondition noFaults 5 "15.5" (exampleEntry 2 7 Status.serving 1)
      pendingAndServingTable (exampleEntry 2 7 Status.serving 1) ⟨false, 155, -1⟩
      (by decide) (by decide) rfl (by decide) (by decide) rfl⟩

/-- C16: when the store accepts the update, `performAction` with action start reports
success, writes status serving and `started_at = now` into the rows with the id of
`carData` and leaves every other row as it was, so no position is renumbered: the pending
rows of every station are the former ones without the row acted on, positions untouched. -/
theorem performAction_start_frame (f : Faults) (now : Nat) (servedAmount : String)
    (carData : QueueEntry) (db : List QueueEntry) (hupd : f.update = false) :
    (performAction f now servedAmount Action.start carData db).alert
      = some (successAlert Action.start)
    ∧ List.Forall₂
        (fun r r2 =>
          (r.id = carData.id →
            r2 = { r with status := Status.serving, started_at := some now })
          ∧ (r.id ≠ carData.id → r2 = r))
        db (performAction f now servedAmount Action.start carData db).db
    ∧ ∀ stationId : Nat,
        pendingAt stationId (performAction f now servedAmount Action.start carData db).db
          = (pendingAt stationId db).filter (fun r => r.id != carData.id) := by
  have hdb : performAction f now servedAmount Action.start carData db
      = ⟨updateById { Updates.empty with
            status := some Status.serving, started_at := some now } carData.id db,
          some (successAlert Action.start)⟩ := by
    simp [performAction, actionUpdates, hupd, Action.renumbers]
  rw [hdb]
  refine ⟨rfl, ?_, ?_⟩
  · unfold updateById
    apply forall₂_map_of_forall
    intro r _
    by_cases hid : r.id = carData.id
    · rw [if_pos hid]
      exact ⟨fun _ => rfl, fun h => absurd hid h⟩
    · rw [if_neg hid]
      exact ⟨fun h => absurd h hid, fun _ => rfl⟩
  · intro stationId
    exact pendingAt_updateById (t := Status.serving) rfl (by decide) stationId carData.id db

/-- Witness for C16: starting car A of the table A, B, C leaves B and C at positions 2, 3. -/
theorem performAction_start_frame_witness :
    (performAction noFaults 5 "" Action.start (exampleEntry 1 7 Status.pending 1) abcTable).db
      = [{ exampleEntry 1 7 Status.pending 1 with
            status := Status.serving, started_at := some 5 },
         exampleEntry 2 7 Status.pending 2, exampleEntry 3 7 Status.pending 3]
    ∧ ((performAction noFaults 5 "" Action.start (exampleEntry 1 7 Status.pending 1)
          abcTable).alert = some (successAlert Action.start)
      ∧ List.Forall₂
        (fun r r2 =>
          (r.id = (exampleEntry 1 7 Status.pending 1).id →
            r2 = { r with status := Status.serving, started_at := some 5 })
          ∧ (r.id ≠ (exampleEntry 1 7 Status.pending 1).id → r2 = r))
        abcTable
        (performAction noFaults 5 "" Action.start (exampleEntry 1 7 Status.pending 1)
          abcTable).db
      ∧ ∀ stationId : Nat,
        pendingAt stationId
            (performAction noFaults 5 "" Action.start (exampleEntry 1 7 Status.pending 1)
              abcTable).db
          = (pendingAt stationId abcTable).filter
              (fun r => r.id != (exampleEntry 1 7 Status.pending 1).id)) :=
  ⟨by decide,
    performAction_start_frame noFaults 5 "" (exampleEntry 1 7 Status.pending 1) abcTable rfl⟩

/-! ## Withdrawing (`handleLeaveQueue`) -/

theorem mem_loadActiveQueue {rf : ReadFaults} {user : Option Nat} {db l : List QueueEntry}
    (h : loadActiveQueue rf user db = some l) {r : QueueEntry} (hr : r ∈ l) : r ∈ db := by
  cases user with
  | none => simp [loadActiveQueue] at h
  | some uid =>
    simp only [loadActiveQueue, Option.some.injEq] at h
    subst h
    by_cases hs : rf.select = true
    · simp [hs] at hr
    · simp only [hs, Bool.false_eq_true, if_false] at hr
      have := (orderByQueuePosition_perm _).mem_iff.mp hr
      exact List.mem_of_mem_filter (List.mem_of_mem_filter this)

theorem mem_fetchMyQueues {rf : ReadFaults} {user : Option Nat} {db : List QueueEntry}
    {cards : List QueueCard} (h : fetchMyQueues rf user db = some cards) {c : QueueCard}
    (hc : c ∈ cards) : c.entry ∈ db := by
  cases user with
  | none => simp [fetchMyQueues] at h
  | some uid =>
    unfold fetchMyQueues at h
    by_cases hs : rf.select = true
    · simp [hs] at h
    · simp only [hs, Bool.false_eq_true, if_false, Option.some.injEq] at h
      subst h
      exact (mem_selectMyQueues.mp (mem_attachCarsAhead hc).1).1

theorem mem_deleteById {id : Nat} {db : List QueueEntry} {r : QueueEntry} :
    r ∈ deleteById id db ↔ r ∈ db ∧ r.id ≠ id := by
  unfold deleteById
  simp [List.mem_filter]

/-- C15: when the store accepts the delete, `handleLeaveQueue` shows no alert and removes
the rows with the given id, whatever their status, and nothing else: the rows left are the
other rows, unchanged and in the same order (with unique ids, the table with that one entry
erased); the pending rows of every station are the former ones without that entry, their
positions untouched; and the id occurs neither in the active list of a station
(`loadQueues`) nor in the list of a car (`fetchMyQueues`). -/
theorem handleLeaveQueue_frame (f : Faults) (queueId : Nat) (db : List QueueEntry)
    (hdel : f.delete = false) :
    (handleLeaveQueue f queueId db).alert = none
    ∧ List.Sublist (handleLeaveQueue f queueId db).db db
    ∧ (∀ r : QueueEntry, r ∈ (handleLeaveQueue f queueId db).db ↔ r ∈ db ∧ r.id ≠ queueId)
    ∧ (∀ e ∈ db, e.id = queueId → UniqueIds db →
        (handleLeaveQueue f queueId db).db = db.erase e)
    ∧ (∀ stationId : Nat,
        pendingAt stationId (handleLeaveQueue f queueId db).db
          = (pendingAt stationId db).filter (fun r => r.id != queueId))
    ∧ (∀ (rf : ReadFaults) (user : Option Nat) (l : List QueueEntry),
        loadActiveQueue rf user (handleLeaveQueue f queueId db).db = some l →
          ∀ r ∈ l, r.id ≠ queueId)
    ∧ (∀ (rf : ReadFaults) (user : Option Nat) (cards : List QueueCard),
        fetchMyQueues rf user (handleLeaveQueue f queueId db).db = some cards →
          ∀ c ∈ cards, c.entry.id ≠ queueId) := by
  have hdb : handleLeaveQueue f queueId db = ⟨deleteById queueId db, none⟩ := by
    simp [handleLeaveQueue, hdel]
  rw [hdb]
  refine ⟨rfl, List.filter_sublist db, fun r => mem_deleteById, ?_, ?_, ?_, ?_⟩
  · intro e he hid huniq
    subst hid
    exact filter_ne_id_eq_erase huniq he
  · intro stationId
    exact pendingAt_deleteById stationId queueId db
  · intro rf user l hl r hr
    exact (mem_deleteById.mp (mem_loadActiveQueue hl hr)).2
  · intro rf user cards hcards c hc
    exact (mem_deleteById.mp (mem_fetchMyQueues hcards hc)).2

/-- Witness for C15: car B withdraws from the table A, B, C. -/
theorem handleLeaveQueue_frame_witness :
    (handleLeaveQueue noFaults 2 abcTable).db
      = [exampleEntry 1 7 Status.pending 1, exampleEntry 3 7 Status.pending 3]
    ∧ loadActiveQueue noReadFaults (some 7) (handleLeaveQueue noFaults 2 abcTable).db
      = some [exampleEntry 1 7 Status.pending 1, exampleEntry 3 7 Status.pending 3]
    ∧ fetchMyQueues noReadFaults (some 102) (handleLeaveQueue noFaults 2 abcTable).db = some []
    ∧ (handleLeaveQueue noFaults 2 abcTable).alert = none
    ∧ List.Sublist (handleLeaveQueue noFaults 2 abcTable).db abcTable :=
  have h := handleLeaveQueue_frame noFaults 2 abcTable rfl
  ⟨by decide, by decide, by decide, h.1, h.2.1⟩

/-! ## Store errors and missing rows -/

/-- C17: a rejected update in `performAction` is reported with the error alert and nothing
is written; but a rejected insert in `handleConfirmQueue` still ends with the alert
"Confirmed!" although no row was added, and rejected position writes in the renumbering
pass still end with the success alert of `performAction` although the positions 1, 3 were
left with their gap. -/
theorem store_errors_not_surfaced :
    (∀ (f : Faults) (now : Nat) (s : String) (action : Action) (carData : QueueEntry)
        (db : List QueueEntry) (u : Updates),
        actionUpdates now s action = .ok u → f.update = true →
        (performAction f now s action carData db).alert = some ⟨"Error", f.message⟩
        ∧ (performAction f now s action carData db).db = db)
    ∧ insertRejected.insert = true
    ∧ (handleConfirmQueue insertRejected 9 (some 55) "20.0" "Diesel" 7
        (fetchQueues abcTable) abcTable).alert = some ⟨"Confirmed!", "You are now in line."⟩
    ∧ (handleConfirmQueue insertRejected 9 (some 55) "20.0" "Diesel" 7
        (fetchQueues abcTable) abcTable).db = abcTable
    ∧ positionsRejected.position 0 = true
    ∧ (performAction positionsRejected 5 "" Action.cancel (exampleEntry 2 7 Status.pending 2)
        abcTable).alert = some (successAlert Action.cancel)
    ∧ pendingPositions 7
        (performAction positionsRejected 5 "" Action.cancel (exampleEntry 2 7 Status.pending 2)
          abcTable).db = [1, 3] := by
  refine ⟨?_, by decide⟩
  intro f now s action carData db u hu hf
  simp [performAction, hu, hf]

/-- C18: the guard of `handleConfirmQueue` rejects an empty amount text and one that parses
to a value `<= 0` before any store call; but at the amount text `.` it does not fire:
`parseFloat` gives `NaN`, the comparison `NaN <= 0` is false, and a row is inserted whose
requested amount is `null`. -/
theorem submit_guard_misses_nan :
    (∀ (f : Faults) (now : Nat) (user : Option Nat) (fuelAmount fuelType : String)
        (selectedStation : Nat) (queueMap : Nat → Option (List QueueEntry))
        (db : List QueueEntry),
        (fuelAmount = "" ∨ (parseFloat fuelAmount).leZero = true) →
        (handleConfirmQueue f now user fuelAmount fuelType selectedStation queueMap db).alert
          = some ⟨"Wait!", "Please enter fuel amount"⟩
        ∧ (handleConfirmQueue f now user fuelAmount fuelType selectedStation queueMap db).db
          = db)
    ∧ parseFloat "." = JSNumber.nan
    ∧ amountRejected "." = false
    ∧ (handleConfirmQueue noFaults 9 (some 55) "." "Diesel" 7 (fetchQueues []) []).alert
        = some ⟨"Confirmed!", "You are now in line."⟩
    ∧ ((handleConfirmQueue noFaults 9 (some 55) "." "Diesel" 7 (fetchQueues []) []).db.map
        (fun r => (r.id, r.car_user_id, r.status, r.requested_amount, r.queue_position)))
      = [(1, 55, Status.pending, none, 1)] := by
  refine ⟨?_, by decide⟩
  intro f now user fuelAmount fuelType selectedStation queueMap db h
  have hrej : amountRejected fuelAmount = true := by
    rcases h with rfl | h
    · decide
    · simp [amountRejected, h]
  simp [handleConfirmQueue, hrej]

theorem updateById_of_no_match {u : Updates} {id : Nat} {db : List QueueEntry}
    (h : ∀ r ∈ db, r.id ≠ id) : updateById u id db = db := by
  unfold updateById
  have hmap : db.map (fun r => if r.id = id then u.apply r else r)
      = db.map (fun r : QueueEntry => r) := by
    apply List.map_congr_left
    intro r hr
    rw [if_neg (h r hr)]
  rw [hmap]
  exact List.map_id db

/-- C19 (amended): `performAction` has no "not found" outcome. When the id of `carData`
matches no row, the amount guard passes and the store accepts the update, it writes into no
row and reports success; for complete, cancel and skip it still runs the renumbering pass
on the station named by `carData`, and for start the table is left as it was. -/
theorem performAction_missing_entry (f : Faults) (now : Nat) (servedAmount : String)
    (action : Action) (carData : QueueEntry) (db : List QueueEntry)
    (hno : ∀ r ∈ db, r.id ≠ carData.id) (hupd : f.update = false)
    (hamt : action = Action.complete → amountRejected servedAmount = false) :
    (performAction f now servedAmount action carData db).alert = some (successAlert action)
    ∧ (performAction f now servedAmount action carData db).db
        = if action.renumbers then updateQueuePositions f carData.station_user_id db
          else db := by
  cases action
  · simp [performAction, actionUpdates, hupd, Action.renumbers, updateById_of_no_match hno]
  · simp [performAction, actionUpdates, hupd, hamt rfl, Action.renumbers,
      updateById_of_no_match hno]
  · simp [performAction, actionUpdates, hupd, Action.renumbers, updateById_of_no_match hno]
  · simp [performAction, actionUpdates, hupd, Action.renumbers, updateById_of_no_match hno]

/-- Witness for C19 (amended): skip on the id 99, which the table with gaps does not hold. -/
theorem performAction_missing_entry_witness :
    (∀ r ∈ gapTable, r.id ≠ staleEntry.id)
    ∧ (performAction noFaults 5 "" Action.skip staleEntry gapTable).alert
        = some (successAlert Action.skip)
    ∧ (performAction noFaults 5 "" Action.skip staleEntry gapTable).db
        = if Action.skip.renumbers then updateQueuePositions noFaults staleEntry.station_user_id
            gapTable
          else gapTable :=
  ⟨by decide,
    performAction_missing_entry noFaults 5 "" Action.skip staleEntry gapTable (by decide) rfl
      (fun h => by cases h)⟩

/-- C19 fails as stated: cancel on the id 99, which matches no row of the table with gaps,
reports success, and the renumbering pass has run: the pending positions 5, 2, 9 of station
7 have become 2, 1, 3. -/
theorem performAction_missing_entry_counterexample :
    (∀ r ∈ gapTable, r.id ≠ staleEntry.id)
    ∧ pendingPositions 7 gapTable = [5, 2, 9]
    ∧ (performAction noFaults 5 "" Action.cancel staleEntry gapTable).alert
        = some (successAlert Action.cancel)
    ∧ pendingPositions 7 (performAction noFaults 5 "" Action.cancel staleEntry gapTable).db
        = [2, 1, 3] := by
  decide

/-! ## Daily statistics (`loadStats`) -/

theorem selectTodayCompleted_eq (uid now : Nat) (db : List QueueEntry) :
    selectTodayCompleted uid now db
      = completedBetween uid (startOfDay now) (lastSecondOfDay now) db := by
  unfold selectTodayCompleted completedBetween
  rw [List.filter_filter, List.filter_filter, List.filter_filter]
  apply List.filter_congr
  intro r _
  cases hc : r.completed_at with
  | none => simp [completedAtGe, completedAtLe, hc]
  | some t =>
    by_cases h1 : r.station_user_id = uid <;> by_cases h2 : r.status = Status.completed <;>
      by_cases h3 : startOfDay now ≤ t <;> by_cases h4 : t ≤ lastSecondOfDay now <;>
      simp [completedAtGe, completedAtLe, hc, h1, h2, h3, h4]

theorem length_filter_filter_eq_countP (uid : Nat) (s : Status) (db : List QueueEntry) :
    ((db.filter (fun r => r.station_user_id == uid)).filter (fun r => r.status == s)).length
      = db.countP (fun r => decide (r.station_user_id = uid ∧ r.status = s)) := by
  rw [List.filter_filter, List.countP_eq_length_filter]
  congr 1
  apply List.filter_congr
  intro r _
  by_cases h1 : r.station_user_id = uid <;> by_cases h2 : r.status = s <;> simp [h1, h2]

/-- C20 (amended): when the three reads are accepted, `loadStats` for station `S` at time
`now` gives: the numbers of S's entries with status pending and with status serving; as
completed-today count the number of S's completed entries whose `completed_at` lies in the
closed range from 00:00:00 to 23:59:59 of the UTC date of `now`, both ends included; and as
fuel sold the sum of the served amounts over that slice (a `null` amount counting as 0)
rounded to two decimals. -/
theorem loadStats_values (arith : JSArith) (rf : ReadFaults) (uid now : Nat)
    (db : List QueueEntry) (hsel : rf.select = false) (hc0 : rf.count 0 = false)
    (hc1 : rf.count 1 = false) :
    ∃ stats : Stats, loadStats arith rf (some uid) now db = some stats
      ∧ stats.pending
          = db.countP (fun r => decide (r.station_user_id = uid ∧ r.status = Status.pending))
      ∧ stats.serving
          = db.countP (fun r => decide (r.station_user_id = uid ∧ r.status = Status.serving))
      ∧ stats.completedToday
          = (completedBetween uid (startOfDay now) (lastSecondOfDay now) db).length
      ∧ stats.totalFuelSold
          = arith.roundTo2
              (sumServed arith
                (completedBetween uid (startOfDay now) (lastSecondOfDay now) db)).orZero := by
  refine ⟨_, rfl, ?_, ?_, ?_, ?_⟩
  · simp only [hc0, Bool.false_eq_true, if_false]
    exact length_filter_filter_eq_countP uid Status.pending db
  · simp only [hc1, Bool.false_eq_true, if_false]
    exact length_filter_filter_eq_countP uid Status.serving db
  · simp [hsel, selectTodayCompleted_eq]
  · simp [hsel, selectTodayCompleted_eq]

/-- Witness for C20 (amended): station 7 on day 3 with 15.5 and 20.25 litres completed. -/
theorem loadStats_values_witness :
    loadStats decimalArith noReadFaults (some 7) (3 * msPerDay + 5000) dayTable
      = some ⟨1, 0, 2, JSNumber.fin ⟨false, 3575, -2⟩⟩
    ∧ ∃ stats : Stats,
      loadStats decimalArith noReadFaults (some 7) (3 * msPerDay + 5000) dayTable = some stats
      ∧ stats.pending
          = dayTable.countP
              (fun r => decide (r.station_user_id = 7 ∧ r.status = Status.pending))
      ∧ stats.serving
          = dayTable.countP
              (fun r => decide (r.station_user_id = 7 ∧ r.status = Status.serving))
      ∧ stats.completedToday
          = (completedBetween 7 (startOfDay (3 * msPerDay + 5000))
              (lastSecondOfDay (3 * msPerDay + 5000)) dayTable).length
      ∧ stats.totalFuelSold
          = decimalArith.roundTo2
              (sumServed decimalArith
                (completedBetween 7 (startOfDay (3 * msPerDay + 5000))
                  (lastSecondOfDay (3 * msPerDay + 5000)) dayTable)).orZero :=
  ⟨by decide,
    loadStats_values decimalArith noReadFaults 7 (3 * msPerDay + 5000) dayTable rfl rfl rfl⟩

/-- C20 fails as stated, twice. A row completed at 23:59:59.000 is counted (count 1, fuel
20) although the half-open range up to 23:59:59 holds no row. And with one row of 0.004
litres completed in the range, the fuel sold is 0 although the sum of the served amounts
over the slice is 0.004. -/
theorem loadStats_values_counterexample :
    (completedBefore 7 (startOfDay (3 * msPerDay + 5000))
        (lastSecondOfDay (3 * msPerDay + 5000)) lastSecondTable).length = 0
    ∧ loadStats decimalArith noReadFaults (some 7) (3 * msPerDay + 5000) lastSecondTable
        = some ⟨0, 0, 1, JSNumber.fin ⟨false, 2000, -2⟩⟩
    ∧ completedBefore 7 (startOfDay (3 * msPerDay + 5000))
        (lastSecondOfDay (3 * msPerDay + 5000)) smallAmountTable = smallAmountTable
    ∧ sumServed decimalArith smallAmountTable = JSNumber.fin ⟨false, 4, -3⟩
    ∧ loadStats decimalArith noReadFaults (some 7) (3 * msPerDay + 5000) smallAmountTable
        = some ⟨0, 0, 1, JSNumber.fin ⟨false, 0, 0⟩⟩ := by
  decide

/-! ## The station's active list (`loadQueues`) -/

/-- C22: when the select is accepted, the active list `loadQueues` sets for station `S`
holds exactly S's rows with status pending or serving, each as often as the table has it,
and no other row, in ascending order of `queue_position`. -/
theorem loadActiveQueue_lists (rf : ReadFaults) (stationId : Nat) (db : List QueueEntry)
    (hsel : rf.select = false) :
    ∃ l : List QueueEntry, loadActiveQueue rf (some stationId) db = some l
      ∧ List.Perm l
          (db.filter (fun r => decide (r.station_user_id = stationId
            ∧ (r.status = Status.pending ∨ r.status = Status.serving))))
      ∧ (∀ r : QueueEntry, r ∈ l ↔
          r ∈ db ∧ r.station_user_id = stationId
            ∧ (r.status = Status.pending ∨ r.status = Status.serving))
      ∧ List.Sorted (fun a b => a.queue_position ≤ b.queue_position) l := by
  have hfilter : (db.filter (fun r => r.station_user_id == stationId)).filter
        (fun r => r.status == Status.pending || r.status == Status.serving)
      = db.filter (fun r => decide (r.station_user_id = stationId
            ∧ (r.status = Status.pending ∨ r.status = Status.serving))) := by
    rw [List.filter_filter]
    apply List.filter_congr
    intro r _
    by_cases h1 : r.station_user_id = stationId <;> cases hs : r.status <;> simp [h1, hs]
  refine ⟨orderByQueuePosition
    ((db.filter (fun r => r.station_user_id == stationId)).filter
      (fun r => r.status == Status.pending || r.status == Status.serving)), ?_, ?_, ?_, ?_⟩
  · simp [loadActiveQueue, hsel]
  · rw [← hfilter]
    exact orderByQueuePosition_perm _
  · intro r
    rw [(orderByQueuePosition_perm _).mem_iff, hfilter, List.mem_filter]
    simp
  · exact orderByQueuePosition_sorted _

/-- Witness for C22 on a table with pending, serving and cancelled rows of two stations. -/
theorem loadActiveQueue_lists_witness :
    loadActiveQueue noReadFaults (some 7) mixedTable
      = some [exampleEntry 2 7 Status.serving 1, exampleEntry 3 7 Status.pending 1,
              exampleEntry 1 7 Status.pending 2]
    ∧ ∃ l : List QueueEntry, loadActiveQueue noReadFaults (some 7) mixedTable = some l
      ∧ List.Perm l
          (mixedTable.filter (fun r => decide (r.station_user_id = 7
            ∧ (r.status = Status.pending ∨ r.status = Status.serving))))
      ∧ (∀ r : QueueEntry, r ∈ l ↔
          r ∈ mixedTable ∧ r.station_user_id = 7
            ∧ (r.status = Status.pending ∨ r.status = Status.serving))
      ∧ List.Sorted (fun a b => a.queue_position ≤ b.queue_position) l :=
  ⟨by decide, loadActiveQueue_lists noReadFaults 7 mixedTable rfl⟩

/-! ## The position a submit writes -/

theorem fetchQueues_apply (snapshot : List QueueEntry) (k : Nat) :
    fetchQueues snapshot k
      = if (snapshot.filter
            (fun r => r.status == Status.pending || r.status == Status.serving)).filter
            (fun r => r.station_user_id == k) = [] then none
        else some ((snapshot.filter
            (fun r => r.status == Status.pending || r.status == Status.serving)).filter
            (fun r => r.station_user_id == k)) := by
  unfold fetchQueues
  rw [foldl_group_apply]
  simp

/-- C23: the `queue_position` `handleConfirmQueue` writes is one more than the number of
rows its `queueMap` holds for the selected station. When `queueMap` was built by
`fetchQueues` from a snapshot of the table, however old, every row it holds for a station is
a pending or serving row of that station in the snapshot, and the position written is
`p + s + 1` for `p` pending and `s` serving rows of the station in the snapshot. -/
theorem handleConfirmQueue_snapshot_position (f : Faults) (now uid : Nat)
    (fuelAmount fuelType : String) (selectedStation : Nat) (snapshot db : List QueueEntry)
    (hamt : amountRejected fuelAmount = false) (hins : f.insert = false) :
    (∀ (k : Nat) (l : List QueueEntry), fetchQueues snapshot k = some l →
        ∀ r ∈ l, r ∈ snapshot ∧ r.station_user_id = k
          ∧ (r.status = Status.pending ∨ r.status = Status.serving))
    ∧ ∃ e : QueueEntry,
      (handleConfirmQueue f now (some uid) fuelAmount fuelType selectedStation
          (fetchQueues snapshot) db).db = db ++ [e]
      ∧ e.queue_position = (queueCount (fetchQueues snapshot) selectedStation : Int) + 1
      ∧ e.queue_position
          = ((pendingAt selectedStation snapshot).length : Int)
            + ((servingAt selectedStation snapshot).length : Int) + 1 := by
  refine ⟨?_, newEntry (nextId db) now uid selectedStation fuelType fuelAmount
    (queueCount (fetchQueues snapshot) selectedStation), ?_, rfl, ?_⟩
  · intro k l hl r hr
    rw [fetchQueues_apply] at hl
    split at hl
    · cases hl
    · cases hl
      simp only [List.mem_filter, beq_iff_eq, Bool.or_eq_true] at hr
      exact ⟨hr.1.1, hr.2, hr.1.2⟩
  · simp [handleConfirmQueue, hamt, hins]
  · show ((queueCount (fetchQueues snapshot) selectedStation : Nat) : Int) + 1 = _
    rw [queueCount_fetchQueues]
    push_cast
    rfl

/-- Witness for C23: the snapshot is the table with one pending and one serving row, the
table itself has meanwhile lost them; the new row gets position 3. -/
theorem handleConfirmQueue_snapshot_position_witness :
    ((handleConfirmQueue noFaults 9 (some 55) "20.0" "Diesel" 7
        (fetchQueues pendingAndServingTable) []).db.map
          (fun r => (r.id, r.status, r.queue_position)))
      = [(1, Status.pending, 3)]
    ∧ ((∀ (k : Nat) (l : List QueueEntry), fetchQueues pendingAndServingTable k = some l →
        ∀ r ∈ l, r ∈ pendingAndServingTable ∧ r.station_user_id = k
          ∧ (r.status = Status.pending ∨ r.status = Status.serving))
      ∧ ∃ e : QueueEntry,
        (handleConfirmQueue noFaults 9 (some 55) "20.0" "Diesel" 7
            (fetchQueues pendingAndServingTable) []).db = [] ++ [e]
        ∧ e.queue_position = (queueCount (fetchQueues pendingAndServingTable) 7 : Int) + 1
        ∧ e.queue_position
            = ((pendingAt 7 pendingAndServingTable).length : Int)
              + ((servingAt 7 pendingAndServingTable).length : Int) + 1) :=
  ⟨by decide,
    handleConfirmQueue_snapshot_position noFaults 9 55 "20.0" "Diesel" 7
      pendingAndServingTable [] (by decide) rfl⟩

/-! ## Renumbering: frame and idempotence -/

theorem map_eq_on {g h : QueueEntry → QueueEntry} {db : List QueueEntry}
    (hEq : db.map g = db.map h) : ∀ r ∈ db, g r = h r := by
  induction db with
  | nil => intro r hr; simp at hr
  | cons x xs ih =>
    intro r hr
    simp only [List.map_cons, List.cons.injEq] at hEq
    rcases List.mem_cons.mp hr with rfl | hmem
    · exact hEq.1
    · exact ih hEq.2 r hmem

theorem not_mem_selectPendingCars_of_not_pendingAt {stationId : Nat} {db : List QueueEntry}
    (h : UniqueIds db) {r : QueueEntry} (hr : r ∈ db)
    (hs : ¬ (r.station_user_id = stationId ∧ r.status = Status.pending)) :
    r.id ∉ selectPendingCars stationId db := by
  intro hmem
  have hmem2 := (selectPendingCars_perm stationId db).mem_iff.mp hmem
  obtain ⟨r2, hr2, hid2⟩ := List.mem_map.mp hmem2
  obtain ⟨hr2db, hr2st, hr2s⟩ := mem_pendingAt hr2
  have heq := eq_of_id_eq h hr2db hr hid2
  rw [heq] at hr2st hr2s
  exact hs ⟨hr2st, hr2s⟩

/-- C26: with unique ids and whatever reads or writes are rejected, `updateQueuePositions`
leaves the table with the same rows in the same places, each row equal to the old one in
every field but `queue_position`, and every row that is not pending at the station (not
pending, or of another station) entirely as it was. -/
theorem updateQueuePositions_frame (f : Faults) (stationId : Nat) (db : List QueueEntry)
    (huniq : UniqueIds db) :
    List.Forall₂
      (fun r r2 => OnlyPosition r r2
        ∧ (¬ (r.station_user_id = stationId ∧ r.status = Status.pending) → r2 = r))
      db (updateQueuePositions f stationId db)
    ∧ (updateQueuePositions f stationId db).length = db.length := by
  obtain ⟨g, hg, hEq⟩ := updateQueuePositions_rowwise f stationId db
  obtain ⟨h, hfix, _, hEq2⟩ := updateQueuePositions_fix f stationId db
  have hon := map_eq_on (hEq.symm.trans hEq2)
  refine ⟨?_, by rw [hEq, List.length_map]⟩
  rw [hEq]
  apply forall₂_map_of_forall
  intro r hr
  refine ⟨hg r, fun hs => ?_⟩
  rw [hon r hr]
  exact hfix r (not_mem_selectPendingCars_of_not_pendingAt huniq hr hs)

/-- Witness for C26 on the table with gaps: only the pending rows of station 7 change, and
only in their position. -/
theorem updateQueuePositions_frame_witness :
    updateQueuePositions noFaults 7 gapTable
      = [exampleEntry 1 7 Status.pending 2, exampleEntry 2 7 Status.pending 1,
         exampleEntry 3 7 Status.serving 1, exampleEntry 4 7 Status.pending 3,
         exampleEntry 5 8 Status.pending 4]
    ∧ (List.Forall₂
        (fun r r2 => OnlyPosition r r2
          ∧ (¬ (r.station_user_id = 7 ∧ r.status = Status.pending) → r2 = r))
        gapTable (updateQueuePositions noFaults 7 gapTable)
      ∧ (updateQueuePositions noFaults 7 gapTable).length = gapTable.length) :=
  ⟨by decide, updateQueuePositions_frame noFaults 7 gapTable (by decide)⟩

theorem oneTo_sorted (n : Nat) : List.Sorted (fun a b : Int => a ≤ b) (oneTo n) := by
  unfold oneTo List.Sorted
  rw [List.pairwise_map]
  exact (List.sorted_le_range n).imp (fun h => by omega)

theorem sorted_positions (rows : List QueueEntry) :
    List.Sorted (fun a b : Int => a ≤ b)
      ((orderByQueuePosition rows).map (fun r => r.queue_position)) := by
  unfold List.Sorted
  rw [List.pairwise_map]
  exact orderByQueuePosition_sorted rows

theorem sorted_positions_of_contiguous {stationId : Nat} {db : List QueueEntry}
    (hc : Contiguous stationId db) :
    (orderByQueuePosition (pendingAt stationId db)).map (fun r => r.queue_position)
      = oneTo (pendingAt stationId db).length := by
  have hp : List.Perm
      ((orderByQueuePosition (pendingAt stationId db)).map (fun r => r.queue_position))
      (oneTo (pendingAt stationId db).length) :=
    ((orderByQueuePosition_perm _).map _).trans hc
  exact List.eq_of_perm_of_sorted hp (sorted_positions _) (oneTo_sorted _)

/-- A pass over a station whose pending positions are already `1..N` changes nothing. -/
theorem updateQueuePositions_of_contiguous (f : Faults) (hsel : f.select = false)
    (hpos : ∀ i, f.position i = false) {stationId : Nat} {db : List QueueEntry}
    (huniq : UniqueIds db) (hc : Contiguous stationId db) :
    updateQueuePositions f stationId db = db := by
  rw [updateQueuePositions_eq_map f hsel hpos stationId huniq]
  have hsame := (renumbered_positions_in_order huniq stationId).trans
    (sorted_positions_of_contiguous hc).symm
  have hpoint : ∀ r ∈ orderByQueuePosition (pendingAt stationId db),
      (renumberRow (selectPendingCars stationId db) 0 r).queue_position = r.queue_position :=
    fun r hr => List.map_inj_left.mp hsame r hr
  have hmap : db.map (renumberRow (selectPendingCars stationId db) 0)
      = db.map (fun r : QueueEntry => r) := by
    apply List.map_congr_left
    intro r hr
    by_cases hmem : r.id ∈ selectPendingCars stationId db
    · have hpend : r.station_user_id = stationId ∧ r.status = Status.pending := by
        by_contra hs
        exact not_mem_selectPendingCars_of_not_pendingAt huniq hr hs hmem
      have hrp : r ∈ pendingAt stationId db := by
        unfold pendingAt
        rw [List.mem_filter]
        exact ⟨hr, by simp [hpend.1, hpend.2]⟩
      have hq := hpoint r ((orderByQueuePosition_perm _).mem_iff.mpr hrp)
      unfold renumberRow at hq ⊢
      rw [if_pos hmem] at hq ⊢
      simp only at hq
      rw [hq]
    · exact renumberRow_of_not_mem 0 hmem
  rw [hmap]
  exact List.map_id db

theorem map_renumberRow_uniqueIds {ids : List Nat} {i : Nat} {db : List QueueEntry}
    (h : UniqueIds db) : UniqueIds (db.map (renumberRow ids i)) := by
  unfold UniqueIds at *
  rw [List.map_map]
  have hfun : ((fun r : QueueEntry => r.id) ∘ renumberRow ids i) = fun r => r.id := by
    funext r
    exact renumberRow_id ids i r
  rw [hfun]
  exact h

/-- C25: with the select and the position writes accepted and ids unique, a second run of
`updateQueuePositions` right after the first leaves the table the first run left; and a run
on a station whose pending positions are already exactly `1..N` changes nothing. -/
theorem updateQueuePositions_idempotent (f : Faults) (stationId : Nat) (db : List QueueEntry)
    (hsel : f.select = false) (hpos : ∀ i, f.position i = false) (huniq : UniqueIds db) :
    updateQueuePositions f stationId (updateQueuePositions f stationId db)
      = updateQueuePositions f stationId db
    ∧ (Contiguous stationId db → updateQueuePositions f stationId db = db) := by
  refine ⟨?_, updateQueuePositions_of_contiguous f hsel hpos huniq⟩
  have h1 := updateQueuePositions_eq_map f hsel hpos stationId huniq
  have hu : UniqueIds (updateQueuePositions f stationId db) := by
    rw [h1]; exact map_renumberRow_uniqueIds huniq
  have hc : Contiguous stationId (updateQueuePositions f stationId db) := by
    rw [h1]; exact contiguous_map_renumberRow huniq stationId
  exact updateQueuePositions_of_contiguous f hsel hpos hu hc

/-- Witness for C25 on the table with gaps. -/
theorem updateQueuePositions_idempotent_witness :
    UniqueIds gapTable
    ∧ updateQueuePositions noFaults 7 (updateQueuePositions noFaults 7 gapTable)
        = updateQueuePositions noFaults 7 gapTable
    ∧ (Contiguous 7 abcTable → updateQueuePositions noFaults 7 abcTable = abcTable) :=
  ⟨by decide,
    (updateQueuePositions_idempotent noFaults 7 gapTable rfl (fun _ => rfl) (by decide)).1,
    (updateQueuePositions_idempotent noFaults 7 abcTable rfl (fun _ => rfl) (by decide)).2⟩

/-! ## A renumbering pass that stops part way -/

theorem indexOf_take_of_mem {x : Nat} : ∀ {l : List Nat} {k : Nat}, x ∈ l.take k →
    (l.take k).indexOf x = l.indexOf x ∧ l.indexOf x < k := by
  intro l
  induction l with
  | nil => intro k h; simp at h
  | cons y ys ih =>
    intro k h
    cases k with
    | zero => simp at h
    | succ k =>
      rw [List.take_succ_cons] at h ⊢
      by_cases hxy : y = x
      · subst hxy
        simp
      · rw [List.indexOf_cons_ne _ hxy, List.indexOf_cons_ne _ hxy]
        have hmem : x ∈ ys.take k := by
          rcases List.mem_cons.mp h with h1 | h1
          · exact absurd h1.symm hxy
          · exact h1
        obtain ⟨h1, h2⟩ := ih hmem
        exact ⟨by rw [h1], Nat.succ_lt_succ h2⟩

theorem mem_take_of_indexOf_lt {x : Nat} : ∀ {l : List Nat} {k : Nat}, x ∈ l →
    l.indexOf x < k → x ∈ l.take k := by
  intro l
  induction l with
  | nil => intro k h; simp at h
  | cons y ys ih =>
    intro k h hlt
    cases k with
    | zero => exact absurd hlt (Nat.not_lt_zero _)
    | succ k =>
      rw [List.take_succ_cons]
      by_cases hxy : y = x
      · subst hxy
        exact List.mem_cons_self _ _
      · rw [List.indexOf_cons_ne _ hxy] at hlt
        have hmem : x ∈ ys := by
          rcases List.mem_cons.mp h with h1 | h1
          · exact absurd h1.symm hxy
          · exact h1
        exact List.mem_cons_of_mem _ (ih hmem (Nat.lt_of_succ_lt_succ hlt))

/-- In a list of rows sorted by position, with distinct positions all at least `m`, the row
at index `j` has a position of at least `m + j`. -/
theorem position_ge_index : ∀ {S : List QueueEntry} (m : Int), List.Sorted positionLe S →
    (S.map (fun r => r.queue_position)).Nodup → (S.map (fun r => r.id)).Nodup →
    (∀ r ∈ S, m ≤ r.queue_position) →
    ∀ r ∈ S, m + (((S.map (fun r => r.id)).indexOf r.id : Nat) : Int) ≤ r.queue_position := by
  intro S
  induction S with
  | nil => intro m _ _ _ _ r hr; simp at hr
  | cons x xs ih =>
    intro m hs hpos hids hlow r hr
    have hs' := List.sorted_cons.mp hs
    have hpos' := List.nodup_cons.mp
      (show (x.queue_position :: xs.map (fun r => r.queue_position)).Nodup from hpos)
    have hids' := List.nodup_cons.mp (show (x.id :: xs.map (fun r => r.id)).Nodup from hids)
    rcases List.mem_cons.mp hr with rfl | hmem
    · rw [List.map_cons, List.indexOf_cons_self]
      simpa using hlow r (List.mem_cons_self _ _)
    · have hne : x.id ≠ r.id := fun heq =>
        hids'.1 (heq ▸ List.mem_map_of_mem (fun r => r.id) hmem)
      rw [List.map_cons, List.indexOf_cons_ne _ hne]
      have hlow' : ∀ q ∈ xs, m + 1 ≤ q.queue_position := by
        intro q hq
        have h1 : x.queue_position ≤ q.queue_position := hs'.1 q hq
        have h2 : x.queue_position ≠ q.queue_position := fun heq =>
          hpos'.1 (heq ▸ List.mem_map_of_mem (fun r => r.queue_position) hq)
        have h3 := hlow x (List.mem_cons_self _ _)
        omega
      have := ih (m + 1) hs'.2 hpos'.2 hids'.2 hlow' r hmem
      push_cast
      omega

/-- What a pass stopped after `k` iterations does to the order of two pending rows. -/
theorem prefix_keeps_order {db : List QueueEntry} (huniq : UniqueIds db) (stationId k : Nat)
    (hdist : (pendingPositions stationId db).Nodup)
    (hpos : ∀ p ∈ pendingPositions stationId db, 1 ≤ p)
    {a b : QueueEntry} (ha : a ∈ pendingAt stationId db) (hb : b ∈ pendingAt stationId db)
    (hlt : a.queue_position < b.queue_position) :
    (renumberRow ((selectPendingCars stationId db).take k) 0 a).queue_position
      < (renumberRow ((selectPendingCars stationId db).take k) 0 b).queue_position := by
  have hperm := orderByQueuePosition_perm (pendingAt stationId db)
  have hS := orderByQueuePosition_sorted (pendingAt stationId db)
  have hnd : (selectPendingCars stationId db).Nodup := selectPendingCars_nodup huniq stationId
  have haS := hperm.mem_iff.mpr ha
  have hbS := hperm.mem_iff.mpr hb
  have hidx : (selectPendingCars stationId db).indexOf a.id
      < (selectPendingCars stationId db).indexOf b.id := indexOf_lt_of_sorted hS hnd haS hbS hlt
  have hposS : ((orderByQueuePosition (pendingAt stationId db)).map
      (fun r => r.queue_position)).Nodup := ((hperm.map _).nodup_iff).mpr hdist
  have hlowS : ∀ r ∈ orderByQueuePosition (pendingAt stationId db),
      (1 : Int) ≤ r.queue_position := fun r hr =>
    hpos _ (List.mem_map_of_mem (fun r => r.queue_position) (hperm.mem_iff.mp hr))
  have hbge : (1 : Int) + (((selectPendingCars stationId db).indexOf b.id : Nat) : Int)
      ≤ b.queue_position := position_ge_index 1 hS hposS hnd hlowS b hbS
  by_cases hbk : b.id ∈ (selectPendingCars stationId db).take k
  · obtain ⟨hb1, hb2⟩ := indexOf_take_of_mem hbk
    have hak : a.id ∈ (selectPendingCars stationId db).take k :=
      mem_take_of_indexOf_lt (mem_selectPendingCars ha) (lt_trans hidx hb2)
    obtain ⟨ha1, _⟩ := indexOf_take_of_mem hak
    rw [renumberRow_position_of_mem 0 hak, renumberRow_position_of_mem 0 hbk, ha1, hb1]
    omega
  · rw [renumberRow_of_not_mem 0 hbk]
    by_cases hak : a.id ∈ (selectPendingCars stationId db).take k
    · obtain ⟨ha1, ha2⟩ := indexOf_take_of_mem hak
      rw [renumberRow_position_of_mem 0 hak, ha1]
      omega
    · rw [renumberRow_of_not_mem 0 hak]
      exact hlt

theorem updateQueuePositionsPrefix_eq_map {db : List QueueEntry} (huniq : UniqueIds db)
    (stationId k : Nat) :
    updateQueuePositionsPrefix k stationId db
      = db.map (renumberRow ((selectPendingCars stationId db).take k) 0) :=
  positionLoop_eq_map noFaults (fun _ => rfl) _ 0 db
    (List.Nodup.sublist (List.take_sublist k _) (selectPendingCars_nodup huniq stationId))

/-- C24: let ids be unique and the pending rows of a station have pairwise distinct
positions, all at least 1. After the first `k` iterations of the loop of
`updateQueuePositions` (the rest not run), for any `k`: the pending rows of the station are
the same rows, their positions are still pairwise distinct, and any two of them that stood
in the order `position a < position b` before still do. -/
theorem partial_renumbering_keeps_order (k stationId : Nat) (db : List QueueEntry)
    (huniq : UniqueIds db) (hdist : (pendingPositions stationId db).Nodup)
    (hpos : ∀ p ∈ pendingPositions stationId db, 1 ≤ p) :
    (pendingAt stationId (updateQueuePositionsPrefix k stationId db)).map (fun r => r.id)
      = (pendingAt stationId db).map (fun r => r.id)
    ∧ (pendingPositions stationId (updateQueuePositionsPrefix k stationId db)).Nodup
    ∧ (∀ a b : QueueEntry, a ∈ pendingAt stationId db → b ∈ pendingAt stationId db →
        a.queue_position < b.queue_position →
        ∃ a2 b2 : QueueEntry,
          findById a.id (updateQueuePositionsPrefix k stationId db) = some a2
          ∧ findById b.id (updateQueuePositionsPrefix k stationId db) = some b2
          ∧ a2 ∈ pendingAt stationId (updateQueuePositionsPrefix k stationId db)
          ∧ b2 ∈ pendingAt stationId (updateQueuePositionsPrefix k stationId db)
          ∧ a2.queue_position < b2.queue_position) := by
  rw [updateQueuePositionsPrefix_eq_map huniq]
  have hpmap := pendingAt_map
    (renumberRow_station ((selectPendingCars stationId db).take k) 0)
    (renumberRow_status ((selectPendingCars stationId db).take k) 0) stationId db
  refine ⟨?_, ?_, ?_⟩
  · rw [hpmap, List.map_map]
    apply List.map_congr_left
    intro r _
    exact renumberRow_id _ _ r
  · unfold pendingPositions
    rw [hpmap, List.map_map]
    have hP : (pendingAt stationId db).Nodup := List.Nodup.of_map _ hdist
    apply List.Nodup.map_on _ hP
    intro x hx y hy hxy
    simp only [Function.comp] at hxy
    rcases lt_trichotomy x.queue_position y.queue_position with h | h | h
    · exact absurd hxy (ne_of_lt (prefix_keeps_order huniq stationId k hdist hpos hx hy h))
    · exact List.inj_on_of_nodup_map hdist hx hy h
    · exact absurd hxy.symm (ne_of_lt (prefix_keeps_order huniq stationId k hdist hpos hy hx h))
  · intro a b ha hb hlt
    have hadb := (mem_pendingAt ha).1
    have hbdb := (mem_pendingAt hb).1
    refine ⟨renumberRow ((selectPendingCars stationId db).take k) 0 a,
      renumberRow ((selectPendingCars stationId db).take k) 0 b, ?_, ?_, ?_, ?_,
      prefix_keeps_order huniq stationId k hdist hpos ha hb hlt⟩
    · rw [findById_map (renumberRow_id _ _), findById_of_mem huniq hadb]; rfl
    · rw [findById_map (renumberRow_id _ _), findById_of_mem huniq hbdb]; rfl
    · rw [hpmap]; exact List.mem_map_of_mem _ ha
    · rw [hpmap]; exact List.mem_map_of_mem _ hb

/-- Witness for C24: positions 4, 2, 7 after one iteration are 4, 1, 7. -/
theorem partial_renumbering_keeps_order_witness :
    pendingPositions 7 (updateQueuePositionsPrefix 1 7 sparseTable) = [4, 1, 7]
    ∧ pendingPositions 7 (updateQueuePositionsPrefix 2 7 sparseTable) = [2, 1, 7]
    ∧ (pendingPositions 7 (updateQueuePositionsPrefix 1 7 sparseTable)).Nodup :=
  ⟨by decide, by decide,
    (partial_renumbering_keeps_order 1 7 sparseTable (by decide) (by decide)
      (by decide)).2.1⟩

/-! ## Cars ahead and stored positions -/

theorem computeCarsAhead_eq_countP_positions (e : QueueEntry) (db : List QueueEntry) :
    computeCarsAhead e db
      = (pendingPositions e.station_user_id db).countP
          (fun p => decide (p < e.queue_position)) := by
  unfold computeCarsAhead pendingPositions pendingAt
  rw [List.countP_map, List.countP_filter]
  apply List.countP_congr
  intro x _
  by_cases h1 : x.station_user_id = e.station_user_id <;>
    by_cases h2 : x.status = Status.pending <;>
    by_cases h3 : x.queue_position < e.queue_position <;>
    simp [Function.comp, h1, h2, h3]

theorem countP_lt_oneTo (n m : Nat) :
    (oneTo n).countP (fun p => decide (p < (m : Int) + 1)) = min m n := by
  induction n with
  | zero => simp [oneTo]
  | succ n ih =>
    rw [oneTo_succ, List.countP_append, ih]
    by_cases h : m ≤ n
    · have hfalse : ¬ ((n : Int) + 1 < (m : Int) + 1) := by omega
      simp [List.countP_cons, hfalse]
      omega
    · have htrue : (n : Int) + 1 < (m : Int) + 1 := by omega
      simp [List.countP_cons, htrue]
      omega

theorem mem_oneTo {n : Nat} {p : Int} (h : p ∈ oneTo n) :
    ∃ j : Nat, j < n ∧ p = (j : Int) + 1 := by
  unfold oneTo at h
  obtain ⟨j, hj, rfl⟩ := List.mem_map.mp h
  exact ⟨j, List.mem_range.mp hj, rfl⟩

theorem carsAhead_of_fetch {rf : ReadFaults} {user : Option Nat} {db : List QueueEntry}
    {cards : List QueueCard} (hfetch : fetchMyQueues rf user db = some cards)
    (hcount : ∀ i, rf.count i = false) {c : QueueCard} (hc : c ∈ cards) :
    c.entry ∈ db ∧ c.carsAhead = computeCarsAhead c.entry db := by
  refine ⟨mem_fetchMyQueues hfetch hc, ?_⟩
  cases user with
  | none => simp [fetchMyQueues] at hfetch
  | some uid =>
    unfold fetchMyQueues at hfetch
    by_cases hs : rf.select = true
    · simp [hs] at hfetch
    · simp only [hs, Bool.false_eq_true, if_false, Option.some.injEq] at hfetch
      subst hfetch
      rw [attachCarsAhead_of_accepted hcount] at hc
      obtain ⟨q, _, rfl⟩ := List.mem_map.mp hc
      exact countAhead_eq_computeCarsAhead q db

/-- C27: when the pending positions of a station are exactly `1..N` and the reads are
accepted, the `carsAhead` that `fetchMyQueues` attaches to a pending entry of that station
is its `queue_position` minus 1, and is below `N`. -/
theorem carsAhead_eq_position_pred (rf : ReadFaults) (user : Option Nat)
    (db : List QueueEntry) (cards : List QueueCard) (c : QueueCard)
    (hfetch : fetchMyQueues rf user db = some cards) (hc : c ∈ cards)
    (hcount : ∀ i, rf.count i = false) (hpend : c.entry.status = Status.pending)
    (hcont : Contiguous c.entry.station_user_id db) :
    (c.carsAhead : Int) = c.entry.queue_position - 1
    ∧ c.carsAhead < (pendingAt c.entry.station_user_id db).length := by
  obtain ⟨hdb, hval⟩ := carsAhead_of_fetch hfetch hcount hc
  have hmem : c.entry ∈ pendingAt c.entry.station_user_id db := by
    unfold pendingAt
    rw [List.mem_filter]
    exact ⟨hdb, by simp [hpend]⟩
  have hposmem : c.entry.queue_position ∈ pendingPositions c.entry.station_user_id db :=
    List.mem_map_of_mem (fun r => r.queue_position) hmem
  obtain ⟨j, hj, hpj⟩ := mem_oneTo (hcont.mem_iff.mp hposmem)
  have hcount2 : computeCarsAhead c.entry db = j := by
    rw [computeCarsAhead_eq_countP_positions, hcont.countP_eq, hpj, countP_lt_oneTo]
    omega
  rw [hval, hcount2, hpj]
  exact ⟨by omega, hj⟩

/-- Witness for C27: car C of the table A, B, C is at position 3 and sees 2 cars ahead. -/
theorem carsAhead_eq_position_pred_witness :
    fetchMyQueues noReadFaults (some 103) abcTable
        = some [⟨exampleEntry 3 7 Status.pending 3, 2⟩]
    ∧ Contiguous 7 abcTable
    ∧ (((⟨exampleEntry 3 7 Status.pending 3, 2⟩ : QueueCard).carsAhead : Int)
          = (exampleEntry 3 7 Status.pending 3).queue_position - 1
      ∧ (⟨exampleEntry 3 7 Status.pending 3, 2⟩ : QueueCard).carsAhead
          < (pendingAt 7 abcTable).length) :=
  ⟨by decide, by decide,
    carsAhead_eq_position_pred noReadFaults (some 103) abcTable
      [⟨exampleEntry 3 7 Status.pending 3, 2⟩] ⟨exampleEntry 3 7 Status.pending 3, 2⟩
      (by decide) (by decide) (fun _ => rfl) rfl (by decide)⟩

theorem renumbering_order_iff {db : List QueueEntry} (huniq : UniqueIds db) (stationId : Nat)
    (hdist : (pendingPositions stationId db).Nodup)
    {x e : QueueEntry} (hx : x ∈ pendingAt stationId db) (he : e ∈ pendingAt stationId db) :
    (renumberRow (selectPendingCars stationId db) 0 x).queue_position
        < (renumberRow (selectPendingCars stationId db) 0 e).queue_position
      ↔ x.queue_position < e.queue_position := by
  have hperm := orderByQueuePosition_perm (pendingAt stationId db)
  have hS := orderByQueuePosition_sorted (pendingAt stationId db)
  have hnd : (selectPendingCars stationId db).Nodup := selectPendingCars_nodup huniq stationId
  have hxS := hperm.mem_iff.mpr hx
  have heS := hperm.mem_iff.mpr he
  rw [renumberRow_position_of_mem 0 (mem_selectPendingCars hx),
    renumberRow_position_of_mem 0 (mem_selectPendingCars he)]
  constructor
  · intro h
    have hidx : (selectPendingCars stationId db).indexOf x.id
        < (selectPendingCars stationId db).indexOf e.id := by omega
    rcases lt_trichotomy x.queue_position e.queue_position with h1 | h1 | h1
    · exact h1
    · have hxe : x = e := List.inj_on_of_nodup_map hdist hx he h1
      rw [hxe] at hidx
      exact absurd hidx (lt_irrefl _)
    · have := indexOf_lt_of_sorted hS hnd heS hxS h1
      unfold selectPendingCars at hidx
      omega
  · intro h
    have := indexOf_lt_of_sorted hS hnd hxS heS h
    unfold selectPendingCars
    omega

theorem computeCarsAhead_renumbered {db : List QueueEntry} (huniq : UniqueIds db)
    (stationId : Nat) (hdist : (pendingPositions stationId db).Nodup)
    {e : QueueEntry} (he : e ∈ pendingAt stationId db) :
    computeCarsAhead (renumberRow (selectPendingCars stationId db) 0 e)
        (db.map (renumberRow (selectPendingCars stationId db) 0))
      = computeCarsAhead e db := by
  have hst := (mem_pendingAt he).2.1
  rw [computeCarsAhead_eq_countP_positions, computeCarsAhead_eq_countP_positions,
    renumberRow_station, hst]
  unfold pendingPositions
  rw [pendingAt_map (renumberRow_station _ _) (renumberRow_status _ _), List.map_map,
    List.countP_map, List.countP_map]
  apply List.countP_congr
  intro x hx
  simp only [Function.comp, decide_eq_true_eq]
  exact renumbering_order_iff huniq stationId hdist hx he

/-- C28: let ids be unique, the pending rows of a station have pairwise distinct positions,
and the reads and writes be accepted. For every pending entry of that station in a car's
list before a complete pass of `updateQueuePositions`, the car's list after the pass holds
the entry with the same id, still pending, with the same `carsAhead`. -/
theorem renumbering_keeps_carsAhead (f : Faults) (rf : ReadFaults) (stationId : Nat)
    (user : Option Nat) (db : List QueueEntry) (before after : List QueueCard)
    (hsel : f.select = false) (hpos : ∀ i, f.position i = false) (huniq : UniqueIds db)
    (hdist : (pendingPositions stationId db).Nodup)
    (hcount : ∀ i, rf.count i = false)
    (hbefore : fetchMyQueues rf user db = some before)
    (hafter : fetchMyQueues rf user (updateQueuePositions f stationId db) = some after) :
    ∀ c0 ∈ before, c0.entry.status = Status.pending →
      c0.entry.station_user_id = stationId →
      ∃ c ∈ after, c.entry.id = c0.entry.id ∧ c.entry.status = Status.pending
        ∧ c.carsAhead = c0.carsAhead := by
  intro c0 hc0 hpend hst
  rw [updateQueuePositions_eq_map f hsel hpos stationId huniq] at hafter
  obtain ⟨hdb0, hval0⟩ := carsAhead_of_fetch hbefore hcount hc0
  have he : c0.entry ∈ pendingAt stationId db := by
    unfold pendingAt
    rw [List.mem_filter]
    exact ⟨hdb0, by simp [hpend, hst]⟩
  cases user with
  | none => simp [fetchMyQueues] at hbefore
  | some uid =>
    have hcar : c0.entry.car_user_id = uid := by
      unfold fetchMyQueues at hbefore
      by_cases hs : rf.select = true
      · simp [hs] at hbefore
      · simp only [hs, Bool.false_eq_true, if_false, Option.some.injEq] at hbefore
        subst hbefore
        exact (mem_selectMyQueues.mp (mem_attachCarsAhead hc0).1).2.1
    unfold fetchMyQueues at hafter
    by_cases hs : rf.select = true
    · simp [hs] at hafter
    · simp only [hs, Bool.false_eq_true, if_false, Option.some.injEq] at hafter
      subst hafter
      rw [attachCarsAhead_of_accepted hcount]
      refine ⟨⟨renumberRow (selectPendingCars stationId db) 0 c0.entry,
        countAhead (renumberRow (selectPendingCars stationId db) 0 c0.entry)
          (db.map (renumberRow (selectPendingCars stationId db) 0))⟩, ?_, ?_, ?_, ?_⟩
      · apply List.mem_map.mpr
        refine ⟨renumberRow (selectPendingCars stationId db) 0 c0.entry, ?_, rfl⟩
        rw [mem_selectMyQueues]
        refine ⟨List.mem_map_of_mem _ hdb0, ?_, ?_⟩
        · unfold renumberRow; split <;> exact hcar
        · left; rw [renumberRow_status]; exact hpend
      · exact renumberRow_id _ _ _
      · show (renumberRow (selectPendingCars stationId db) 0 c0.entry).status = Status.pending
        rw [renumberRow_status]; exact hpend
      · show countAhead _ _ = c0.carsAhead
        rw [countAhead_eq_computeCarsAhead, computeCarsAhead_renumbered huniq stationId hdist he,
          hval0]

/-- Witness for C28: car 4 of the table with gaps sees 2 cars ahead at position 9 before
the pass and at position 3 after it. -/
theorem renumbering_keeps_carsAhead_witness :
    fetchMyQueues noReadFaults (some 104) gapTable
        = some [⟨exampleEntry 4 7 Status.pending 9, 2⟩]
    ∧ fetchMyQueues noReadFaults (some 104) (updateQueuePositions noFaults 7 gapTable)
        = some [⟨exampleEntry 4 7 Status.pending 3, 2⟩]
    ∧ ∀ c0 ∈ [(⟨exampleEntry 4 7 Status.pending 9, 2⟩ : QueueCard)],
        c0.entry.status = Status.pending → c0.entry.station_user_id = 7 →
        ∃ c ∈ [(⟨exampleEntry 4 7 Status.pending 3, 2⟩ : QueueCard)],
          c.entry.id = c0.entry.id ∧ c.entry.status = Status.pending
            ∧ c.carsAhead = c0.carsAhead :=
  ⟨by decide, by decide,
    renumbering_keeps_carsAhead noFaults noReadFaults 7 (some 104) gapTable
      [⟨exampleEntry 4 7 Status.pending 9, 2⟩] [⟨exampleEntry 4 7 Status.pending 3, 2⟩]
      rfl (fun _ => rfl) (by decide) (by decide) (fun _ => rfl) (by decide) (by decide)⟩

/-! ## Daily statistics across a completion -/

theorem loadStats_completed (arith : JSArith) (rf : ReadFaults) (uid now : Nat)
    (db : List QueueEntry) (hsel : rf.select = false) :
    ∃ stats : Stats, loadStats arith rf (some uid) now db = some stats
      ∧ stats.completedToday
          = (completedBetween uid (startOfDay now) (lastSecondOfDay now) db).length
      ∧ stats.totalFuelSold
          = arith.roundTo2
              (sumServed arith
                (completedBetween uid (startOfDay now) (lastSecondOfDay now) db)).orZero := by
  refine ⟨_, rfl, ?_, ?_⟩
  · simp [hsel, selectTodayCompleted_eq]
  · simp [hsel, selectTodayCompleted_eq]

theorem filter_map_fix {p : QueueEntry → Bool} {g : QueueEntry → QueueEntry} :
    ∀ {l : List QueueEntry}, (∀ r ∈ l, p (g r) = p r) → (∀ r ∈ l, p r = true → g r = r) →
      (l.map g).filter p = l.filter p := by
  intro l
  induction l with
  | nil => intro _ _; rfl
  | cons x xs ih =>
    intro h1 h2
    have ih' := ih (fun r hr => h1 r (List.mem_cons_of_mem _ hr))
      (fun r hr => h2 r (List.mem_cons_of_mem _ hr))
    rw [List.map_cons, List.filter_cons, List.filter_cons, ih',
      h1 x (List.mem_cons_self _ _)]
    by_cases hp : p x = true
    · rw [if_pos hp, if_pos hp, h2 x (List.mem_cons_self _ _) hp]
    · rw [if_neg hp, if_neg hp]

theorem completedBetween_updateQueuePositions (f : Faults) (cst stationId lo hi : Nat)
    {db : List QueueEntry} (huniq : UniqueIds db) :
    completedBetween stationId lo hi (updateQueuePositions f cst db)
      = completedBetween stationId lo hi db := by
  obtain ⟨g, hg, hEq⟩ := updateQueuePositions_rowwise f cst db
  obtain ⟨h, hfix, _, hEq2⟩ := updateQueuePositions_fix f cst db
  have hon := map_eq_on (hEq.symm.trans hEq2)
  rw [hEq]
  unfold completedBetween
  apply filter_map_fix
  · intro r _
    have hop := hg r
    unfold OnlyPosition at hop
    rw [hop]
  · intro r hr hp
    simp only [decide_eq_true_eq] at hp
    rw [hon r hr]
    apply hfix r
    apply not_mem_selectPendingCars huniq hr
    rw [hp.2.1]
    decide

theorem updateById_split {u : Updates} {A B : List QueueEntry} {r : QueueEntry}
    (huniq : UniqueIds (A ++ r :: B)) :
    updateById u r.id (A ++ r :: B) = A ++ u.apply r :: B := by
  have hmemA : ∀ x ∈ A, x.id ≠ r.id := by
    intro x hx heq
    have hxdb : x ∈ A ++ r :: B := List.mem_append_left _ hx
    have hrdb : r ∈ A ++ r :: B := List.mem_append_right _ (List.mem_cons_self _ _)
    have hxr := eq_of_id_eq huniq hxdb hrdb heq
    subst hxr
    unfold UniqueIds at huniq
    rw [List.map_append, List.map_cons] at huniq
    have hdis := (List.nodup_append.mp huniq).2.2
    exact hdis (List.mem_map_of_mem (fun r => r.id) hx) (List.mem_cons_self _ _)
  have hmemB : ∀ x ∈ B, x.id ≠ r.id := by
    intro x hx heq
    unfold UniqueIds at huniq
    rw [List.map_append, List.map_cons] at huniq
    have hnd := (List.nodup_cons.mp (List.nodup_append.mp huniq).2.1).1
    exact hnd (heq ▸ List.mem_map_of_mem (fun r => r.id) hx)
  unfold updateById
  rw [List.map_append, List.map_cons, if_pos rfl]
  have hA : A.map (fun x => if x.id = r.id then u.apply x else x) = A := by
    have : A.map (fun x => if x.id = r.id then u.apply x else x)
        = A.map (fun x : QueueEntry => x) := by
      apply List.map_congr_left
      intro x hx
      rw [if_neg (hmemA x hx)]
    rw [this]; exact List.map_id A
  have hB : B.map (fun x => if x.id = r.id then u.apply x else x) = B := by
    have : B.map (fun x => if x.id = r.id then u.apply x else x)
        = B.map (fun x : QueueEntry => x) := by
      apply List.map_congr_left
      intro x hx
      rw [if_neg (hmemB x hx)]
    rw [this]; exact List.map_id B
  rw [hA, hB]

/-- C21 (amended): let ids be unique, the entry be a serving entry of station `S`, the
amount text parse to a finite number `a > 0`, the update and the statistics reads be
accepted, both statistics be computed for the same UTC date, and the completion time lie
within 00:00:00 to 23:59:59 of that date. Write the table as `A ++ entry :: B`. Then the
day's slice of `S` (the entries of station `S` with status completed and `completed_at`
within that date, in table order) is, before, the slice of `A` followed by the slice of `B`,
and, after `performAction` with action complete, the slice of `A`, then the entry, now
completed with `served_amount = a` and `completed_at` the completion time, then the slice
of `B`. The completed-today count before is the length of the slice before, and the count
after is one more. The fuel sold before is the two-decimal rounding of the sum of the served
amounts of the slice before, and the fuel sold after is the two-decimal rounding of the sum
of the served amounts of the slice after, both added up in table order. -/
theorem complete_raises_daily_stats (arith : JSArith) (f : Faults) (rf : ReadFaults)
    (now tb ta : Nat) (servedAmount : String) (carData : QueueEntry) (db : List QueueEntry)
    (r : QueueEntry) (a : Decimal) (stationId : Nat)
    (huniq : UniqueIds db) (hr : r ∈ db) (hid : r.id = carData.id)
    (hst : r.station_user_id = stationId) (hserving : r.status = Status.serving)
    (hfin : parseFloat servedAmount = JSNumber.fin a)
    (hpos : (JSNumber.fin a).leZero = false) (hupd : f.update = false)
    (hsel : rf.select = false) (hday : startOfDay tb = startOfDay ta)
    (hlo : startOfDay ta ≤ now) (hhi : now ≤ lastSecondOfDay ta) :
    ∃ (sb sa : Stats) (A B : List QueueEntry),
      db = A ++ r :: B
      ∧ loadStats arith rf (some stationId) tb db = some sb
      ∧ loadStats arith rf (some stationId) ta
          (performAction f now servedAmount Action.complete carData db).db = some sa
      ∧ completedBetween stationId (startOfDay ta) (lastSecondOfDay ta) db
          = completedBetween stationId (startOfDay ta) (lastSecondOfDay ta) A
            ++ completedBetween stationId (startOfDay ta) (lastSecondOfDay ta) B
      ∧ completedBetween stationId (startOfDay ta) (lastSecondOfDay ta)
            (performAction f now servedAmount Action.complete carData db).db
          = completedBetween stationId (startOfDay ta) (lastSecondOfDay ta) A
            ++ { r with status := Status.completed
                        served_amount := some a
                        completed_at := some now }
              :: completedBetween stationId (startOfDay ta) (lastSecondOfDay ta) B
      ∧ sb.completedToday
          = (completedBetween stationId (startOfDay ta) (lastSecondOfDay ta) db).length
      ∧ sa.completedToday = sb.completedToday + 1
      ∧ sb.totalFuelSold
          = arith.roundTo2
              (sumServed arith
                (completedBetween stationId (startOfDay ta) (lastSecondOfDay ta) db)).orZero
      ∧ sa.totalFuelSold
          = arith.roundTo2
              (sumServed arith
                (completedBetween stationId (startOfDay ta) (lastSecondOfDay ta) A
                  ++ { r with status := Status.completed
                              served_amount := some a
                              completed_at := some now }
                    :: completedBetween stationId (startOfDay ta)
                        (lastSecondOfDay ta) B)).orZero := by
  have hrej := amountRejected_of_fin hfin hpos
  have hdb : (performAction f now servedAmount Action.complete carData db).db
      = updateQueuePositions f carData.station_user_id
          (updateById (completePatch now a) carData.id db) := by
    simp [performAction, actionUpdates, hrej, hfin, JSNumber.toJson, hupd, Action.renumbers,
      completePatch]
  have happly : (completePatch now a).apply r
      = { r with status := Status.completed
                 served_amount := some a
                 completed_at := some now } := rfl
  obtain ⟨A, B, hAB⟩ := List.mem_iff_append.mp hr
  have hu1 : UniqueIds (updateById (completePatch now a) carData.id db) :=
    updateById_uniqueIds huniq
  obtain ⟨sb, hsb, hsbc, hsbf⟩ := loadStats_completed arith rf stationId tb db hsel
  obtain ⟨sa, hsa, hsac, hsaf⟩ := loadStats_completed arith rf stationId ta
    (performAction f now servedAmount Action.complete carData db).db hsel
  have hlast : lastSecondOfDay tb = lastSecondOfDay ta := by
    unfold lastSecondOfDay; rw [hday]
  rw [hday, hlast] at hsbc hsbf
  have hbefore : completedBetween stationId (startOfDay ta) (lastSecondOfDay ta) db
      = completedBetween stationId (startOfDay ta) (lastSecondOfDay ta) A
        ++ completedBetween stationId (startOfDay ta) (lastSecondOfDay ta) B := by
    rw [hAB]
    unfold completedBetween
    rw [List.filter_append, List.filter_cons]
    have hq : decide (r.station_user_id = stationId ∧ r.status = Status.completed
        ∧ ∃ t, r.completed_at = some t ∧ startOfDay ta ≤ t ∧ t ≤ lastSecondOfDay ta)
        = false := by
      simp [hserving]
    rw [hq]
    rfl
  have hafter : completedBetween stationId (startOfDay ta) (lastSecondOfDay ta)
        (performAction f now servedAmount Action.complete carData db).db
      = completedBetween stationId (startOfDay ta) (lastSecondOfDay ta) A
        ++ (completePatch now a).apply r
          :: completedBetween stationId (startOfDay ta) (lastSecondOfDay ta) B := by
    rw [hdb, completedBetween_updateQueuePositions f _ _ _ _ hu1, ← hid]
    have hsplit : updateById (completePatch now a) r.id (A ++ r :: B)
        = A ++ (completePatch now a).apply r :: B := updateById_split (hAB ▸ huniq)
    rw [hAB, hsplit]
    unfold completedBetween
    rw [List.filter_append, List.filter_cons]
    have hq : decide (((completePatch now a).apply r).station_user_id = stationId
          ∧ ((completePatch now a).apply r).status = Status.completed
          ∧ ∃ t, ((completePatch now a).apply r).completed_at = some t
            ∧ startOfDay ta ≤ t ∧ t ≤ lastSecondOfDay ta) = true := by
      rw [happly]
      simp [hst, hlo, hhi]
    rw [if_pos hq]
  rw [happly] at hafter
  refine ⟨sb, sa, A, B, hAB, hsb, hsa, hbefore, hafter, hsbc, ?_, hsbf, ?_⟩
  · rw [hsac, hsbc, hafter, hbefore]
    simp
    omega
  · rw [hsaf, hafter]

/-- Witness for C21 (amended): on day 3 station 7 has completed 15.5 and 20.25 litres, and
its serving row, which stands between the two in the table, is completed with 4.25 litres.
The day's slice goes from rows 1, 3 to rows 1, 2, 3, the count from 2 to 3 and the fuel
sold from 35.75 to 40; the row station 8 completed that day and the row station 7 completed
the day after are not counted. -/
theorem complete_raises_daily_stats_witness :
    loadStats decimalArith noReadFaults (some 7) (3 * msPerDay + 5000) busyDayTable
      = some ⟨1, 1, 2, JSNumber.fin ⟨false, 3575, -2⟩⟩
    ∧ loadStats decimalArith noReadFaults (some 7) (3 * msPerDay + 9000)
        (performAction noFaults (3 * msPerDay + 7000) "4.25" Action.complete
          (exampleEntry 2 7 Status.serving 1) busyDayTable).db
      = some ⟨1, 0, 3, JSNumber.fin ⟨false, 4000, -2⟩⟩
    ∧ completedBetween 7 (startOfDay (3 * msPerDay + 9000))
        (lastSecondOfDay (3 * msPerDay + 9000)) busyDayTable
      = [completedAt 1 (3 * msPerDay + 1000) ⟨false, 155, -1⟩,
         completedAt 3 (3 * msPerDay + 2000) ⟨false, 2025, -2⟩]
    ∧ completedBetween 7 (startOfDay (3 * msPerDay + 9000))
        (lastSecondOfDay (3 * msPerDay + 9000))
        (performAction noFaults (3 * msPerDay + 7000) "4.25" Action.complete
          (exampleEntry 2 7 Status.serving 1) busyDayTable).db
      = [completedAt 1 (3 * msPerDay + 1000) ⟨false, 155, -1⟩,
         { exampleEntry 2 7 Status.serving 1 with
           status := Status.completed
           served_amount := some ⟨false, 425, -2⟩
           completed_at := some (3 * msPerDay + 7000) },
         completedAt 3 (3 * msPerDay + 2000) ⟨false, 2025, -2⟩]
    ∧ ∃ (sb sa : Stats) (A B : List QueueEntry),
      busyDayTable = A ++ exampleEntry 2 7 Status.serving 1 :: B
      ∧ loadStats decimalArith noReadFaults (some 7) (3 * msPerDay + 5000) busyDayTable
          = some sb
      ∧ loadStats decimalArith noReadFaults (some 7) (3 * msPerDay + 9000)
          (performAction noFaults (3 * msPerDay + 7000) "4.25" Action.complete
            (exampleEntry 2 7 Status.serving 1) busyDayTable).db = some sa
      ∧ completedBetween 7 (startOfDay (3 * msPerDay + 9000))
          (lastSecondOfDay (3 * msPerDay + 9000)) busyDayTable
          = completedBetween 7 (startOfDay (3 * msPerDay + 9000))
              (lastSecondOfDay (3 * msPerDay + 9000)) A
            ++ completedBetween 7 (startOfDay (3 * msPerDay + 9000))
              (lastSecondOfDay (3 * msPerDay + 9000)) B
      ∧ completedBetween 7 (startOfDay (3 * msPerDay + 9000))
            (lastSecondOfDay (3 * msPerDay + 9000))
            (performAction noFaults (3 * msPerDay + 7000) "4.25" Action.complete
              (exampleEntry 2 7 Status.serving 1) busyDayTable).db
          = completedBetween 7 (startOfDay (3 * msPerDay + 9000))
              (lastSecondOfDay (3 * msPerDay + 9000)) A
            ++ { exampleEntry 2 7 Status.serving 1 with
                  status := Status.completed
                  served_amount := some ⟨false, 425, -2⟩
                  completed_at := some (3 * msPerDay + 7000) }
              :: completedBetween 7 (startOfDay (3 * msPerDay + 9000))
                  (lastSecondOfDay (3 * msPerDay + 9000)) B
      ∧ sb.completedToday
          = (completedBetween 7 (startOfDay (3 * msPerDay + 9000))
              (lastSecondOfDay (3 * msPerDay + 9000)) busyDayTable).length
      ∧ sa.completedToday = sb.completedToday + 1
      ∧ sb.totalFuelSold
          = decimalArith.roundTo2
              (sumServed decimalArith
                (completedBetween 7 (startOfDay (3 * msPerDay + 9000))
                  (lastSecondOfDay (3 * msPerDay + 9000)) busyDayTable)).orZero
      ∧ sa.totalFuelSold
          = decimalArith.roundTo2
              (sumServed decimalArith
                (completedBetween 7 (startOfDay (3 * msPerDay + 9000))
                    (lastSecondOfDay (3 * msPerDay + 9000)) A
                  ++ { exampleEntry 2 7 Status.serving 1 with
                        status := Status.completed
                        served_amount := some ⟨false, 425, -2⟩
                        completed_at := some (3 * msPerDay + 7000) }
                    :: completedBetween 7 (startOfDay (3 * msPerDay + 9000))
                        (lastSecondOfDay (3 * msPerDay + 9000)) B)).orZero :=
  ⟨by decide, by decide, by decide, by decide,
    complete_raises_daily_stats decimalArith noFaults noReadFaults (3 * msPerDay + 7000)
      (3 * msPerDay + 5000) (3 * msPerDay + 9000) "4.25" (exampleEntry 2 7 Status.serving 1)
      busyDayTable (exampleEntry 2 7 Status.serving 1) ⟨false, 425, -2⟩ 7
      (by decide) (by decide) rfl rfl rfl (by decide) (by decide) rfl rfl (by decide)
      (by decide) (by decide)⟩

/-- C21 fails as stated, twice. Completing the serving row with 0.004 litres leaves the fuel
sold at 0, not at 0 + 0.004. Completing it with 15.5 litres half a second before midnight
leaves the count at 0 and the fuel sold at 0 for that date. -/
theorem complete_raises_daily_stats_counterexample :
    loadStats decimalArith noReadFaults (some 7) (3 * msPerDay + 5000) servingTable
      = some ⟨0, 1, 0, JSNumber.fin ⟨false, 0, 0⟩⟩
    ∧ parseFloat "0.004" = JSNumber.fin ⟨false, 4, -3⟩
    ∧ (performAction noFaults (3 * msPerDay + 7000) "0.004" Action.complete
        (exampleEntry 1 7 Status.serving 1) servingTable).alert
      = some (successAlert Action.complete)
    ∧ loadStats decimalArith noReadFaults (some 7) (3 * msPerDay + 9000)
        (performAction noFaults (3 * msPerDay + 7000) "0.004" Action.complete
          (exampleEntry 1 7 Status.serving 1) servingTable).db
      = some ⟨0, 0, 1, JSNumber.fin ⟨false, 0, 0⟩⟩
    ∧ decimalAdd (JSNumber.fin ⟨false, 0, 0⟩) (JSNumber.fin ⟨false, 4, -3⟩)
      = JSNumber.fin ⟨false, 4, -3⟩
    ∧ (performAction noFaults (3 * msPerDay + 86399500) "15.5" Action.complete
        (exampleEntry 1 7 Status.serving 1) servingTable).alert
      = some (successAlert Action.complete)
    ∧ loadStats decimalArith noReadFaults (some 7) (3 * msPerDay + 86399900)
        (performAction noFaults (3 * msPerDay + 86399500) "15.5" Action.complete
          (exampleEntry 1 7 Status.serving 1) servingTable).db
      = some ⟨0, 0, 0, JSNumber.fin ⟨false, 0, 0⟩⟩ := by
  decide

/-! ## What the dashboard can issue -/

/-- C29: for every item the dashboard renders and every button drawn for it, the call of
`performAction` the press leads to (at once, or through the confirm button of the modal)
is made on that item; it is start only if the item's status is pending, complete or skip
only if it is serving, and never cancel. A pending item has the one button that leads to
start, a serving item the two that lead to complete and skip, an item of any other status
none. The confirm button issues complete exactly when the selected entry's status is
serving, and start otherwise. -/
theorem dashboard_issues_legal_actions (item : QueueEntry) (d : Dashboard) :
    (∀ a ∈ renderQueueItem item,
        (pressButton a item d).2 = some item
        ∧ ((pressButton a item d).1 = Action.start → item.status = Status.pending)
        ∧ ((pressButton a item d).1 = Action.complete ∨ (pressButton a item d).1 = Action.skip →
            item.status = Status.serving)
        ∧ (pressButton a item d).1 ≠ Action.cancel)
    ∧ (item.status = Status.pending →
        (renderQueueItem item).map (fun a => (pressButton a item d).1) = [Action.start])
    ∧ (item.status = Status.serving →
        (renderQueueItem item).map (fun a => (pressButton a item d).1)
          = [Action.complete, Action.skip])
    ∧ (item.status ≠ Status.pending → item.status ≠ Status.serving → renderQueueItem item = [])
    ∧ ((modalConfirm d).1 = Action.complete
        ↔ d.selectedCar.map (fun c => c.status) = some Status.serving)
    ∧ ((modalConfirm d).1 = Action.start
        ↔ d.selectedCar.map (fun c => c.status) ≠ some Status.serving) := by
  refine ⟨?_, ?_, ?_, ?_, ?_, ?_⟩
  · intro a ha
    cases hs : item.status <;>
      simp [renderQueueItem, hs] at ha <;>
      (try rcases ha with rfl | rfl) <;>
      simp [pressButton, handleCarAction, modalConfirm, hs]
  · intro hs
    simp [renderQueueItem, pressButton, handleCarAction, modalConfirm, hs]
  · intro hs
    simp [renderQueueItem, pressButton, handleCarAction, modalConfirm, hs]
  · intro h1 h2
    simp [renderQueueItem, h1, h2]
  · unfold modalConfirm
    by_cases h : d.selectedCar.map (fun c => c.status) = some Status.serving <;> simp [h]
  · unfold modalConfirm
    by_cases h : d.selectedCar.map (fun c => c.status) = some Status.serving <;> simp [h]

/-! ## The role gate of the car app's login -/

/-- C30: with both fields filled in and the password sign-in successful, `handleLogin`
navigates to the tabs exactly when the profile select returns a row whose role is `car`;
for a row with any other role (truck, station, none, or anything else) it signs out, does
not navigate and shows "Login Failed"; when the select returns no row it shows
"Login Failed" without navigating. -/
theorem handleLogin_role_gate (email password : String) (uid : Nat) (profile : ProfileResult)
    (hemail : email.data ≠ []) (hpassword : password.data ≠ []) :
    ((handleLogin email password (SignInResult.user uid) profile).navigated = true
        ↔ profile = ProfileResult.row (some "car"))
    ∧ (∀ role : Option String, profile = ProfileResult.row role → role ≠ some "car" →
        (handleLogin email password (SignInResult.user uid) profile).signedOut = true
        ∧ (handleLogin email password (SignInResult.user uid) profile).navigated = false
        ∧ (handleLogin email password (SignInResult.user uid) profile).alert
            = some ⟨"Login Failed", loginFailureMessage (roleErrorMessage role), "error"⟩)
    ∧ (profile = ProfileResult.noRow →
        (handleLogin email password (SignInResult.user uid) profile).navigated = false
        ∧ (handleLogin email password (SignInResult.user uid) profile).alert
            = some ⟨"Login Failed", "Account setup incomplete. Please contact support.",
                "error"⟩) := by
  have he : email.data.isEmpty = false := by
    cases h : email.data with
    | nil => exact absurd h hemail
    | cons c cs => rfl
  have hp : password.data.isEmpty = false := by
    cases h : password.data with
    | nil => exact absurd h hpassword
    | cons c cs => rfl
  refine ⟨?_, ?_, ?_⟩
  · cases profile with
    | error => simp [handleLogin, he, hp, loginFailed]
    | noRow => simp [handleLogin, he, hp, loginFailed]
    | row role =>
      by_cases hr : role = some "car"
      · simp [handleLogin, he, hp, hr]
      · simp [handleLogin, he, hp, hr, loginFailed]
  · intro role hrow hr
    subst hrow
    simp [handleLogin, he, hp, hr, loginFailed]
  · intro hrow
    subst hrow
    refine ⟨by simp [handleLogin, he, hp, loginFailed], ?_⟩
    have hmsg : loginFailureMessage "User profile not found. Please contact support."
        = "Account setup incomplete. Please contact support." := by decide
    simp [handleLogin, he, hp, loginFailed, hmsg]

set_option maxRecDepth 100000 in
/-- Witness for C30: a station account signing in to the car app. -/
theorem handleLogin_role_gate_witness :
    handleLogin "a@b.c" "secret" (SignInResult.user 7) (ProfileResult.row (some "station"))
      = ⟨false, true, some ⟨"Login Failed",
          "This app is for car drivers only. Please use the fuel station app.", "error"⟩⟩
    ∧ handleLogin "a@b.c" "secret" (SignInResult.user 7) (ProfileResult.row (some "car"))
      = ⟨true, false, none⟩
    ∧ ((handleLogin "a@b.c" "secret" (SignInResult.user 7)
          (ProfileResult.row (some "station"))).navigated = true
        ↔ ProfileResult.row (some "station") = ProfileResult.row (some "car")) :=
  ⟨by decide, by decide,
    (handleLogin_role_gate "a@b.c" "secret" 7 (ProfileResult.row (some "station"))
      (by decide) (by decide)).1⟩

end Madeya
